import Mathlib

/-!
Shallow embedding of the fast-kv-store storage engine (src/src/lib.rs).

The on-disk file is modelled as a total byte function `FileData` together
with an explicit length; the transaction buffer (Rust `BTreeMap<u64, Vec<u8>>`)
is a sorted association list; the three in-memory directories are sorted
association lists as well.  Machine integers are `Nat` (all offsets in any
reachable state are far below 2^64; where the source relies on u64 wrapping
subtraction we use an explicit `sub64`).  Loops whose termination is not
structural take a fuel parameter and return `Option`; `none` also covers the
paths where the source would panic on a failed `unwrap`.
-/

set_option maxRecDepth 100000

namespace KV

/-- Page size in bytes (4 KiB). -/
def PAGE_SIZE : Nat := 4 * 1024

/-- Hash-index slot size in bytes. -/
def SLOT_SIZE : Nat := 32

/-- Value-log slot size in bytes. -/
def VALUE_SIZE : Nat := 128

/-- Deletion-bitmap entry size in bytes. -/
def DELMAP_ENTRY_SIZE : Nat := 32

/-- Value slots covered by one delmap entry: 8 * (32 - 6) = 208. -/
def DELS_PER_DELMAP : Nat := 8 * (DELMAP_ENTRY_SIZE - 6)

/-- Truncated hash length in bytes. -/
def HASH_LEN : Nat := 26

/-- Sector size in bytes (1 MiB). -/
def SECTOR_SIZE : Nat := 2 ^ 20

/-- Offset of the first slot within a sector. -/
def FIRST_SLOT_OFFSET : Nat := 64

/-- Offset of the first sector within the file. -/
def FIRST_SECTOR_OFFSET : Nat := 4 * 1024

/-- Number of hash-index slots in one sector. -/
def SLOTS_IN_SECTOR : Nat := (SECTOR_SIZE - FIRST_SLOT_OFFSET) / SLOT_SIZE

/-- Early-resize occupancy threshold (percent). -/
def EARLY_SECTOR_PERCENT : Nat := 80

/-- Unconditional-resize occupancy threshold (percent). -/
def MAX_SECTOR_PERCENT : Nat := 90

/-- Header offset of the free-list head. -/
def FREE_LIST_OFFSET : Nat := 8

/-- Header offset of the next value-log logical offset. -/
def NEXT_VALUE_LOGICAL_OFFSET : Nat := 16

/-- Header offset of the first live value-log logical offset. -/
def FIRST_VALUE_LOGICAL_OFFSET : Nat := 24

/-- Header offset of the next value-sector physical write offset. -/
def NEXT_VALUE_PHYSICAL_OFFSET : Nat := 32

/-- Header offset of the next delmap-sector physical write offset. -/
def NEXT_DELMAP_PHYSICAL_OFFSET : Nat := 48

/-- Empty slot marker in the hash index. -/
def NO_VALUE : Nat := 0

/-- WAL terminating magic number. -/
def WAL_MAGIC : Nat := 718984182412

/-- Page type of a free sector. -/
def PAGE_TYPE_FREE : Nat := 0

/-- Page type of a hash-index sector. -/
def PAGE_TYPE_HT : Nat := 1

/-- Page type of a value sector. -/
def PAGE_TYPE_VALUES : Nat := 2

/-- Page type of a delmap sector. -/
def PAGE_TYPE_DELMAP : Nat := 3

/-- Little-endian encoding of `n` into `k` bytes (`u64::to_le_bytes` uses k = 8,
the six-byte slot value field uses the first 6 of the 8). -/
def leBytes : Nat → Nat → List Nat
  | 0, _ => []
  | k + 1, n => n % 256 :: leBytes k (n / 256)

/-- Little-endian decoding of a byte list (`u64::from_le_bytes`). -/
def fromLe (l : List Nat) : Nat :=
  l.foldr (fun b acc => b + 256 * acc) 0

/-- u64 wrapping subtraction, as used on values below 2^64. -/
def sub64 (a b : Nat) : Nat :=
  if b ≤ a then a - b else a + 2 ^ 64 - b

/-- The data file content: byte value at each offset. -/
abbrev FileData : Type := Nat → Nat

/-- Write one byte into the file. -/
def writeByte (f : FileData) (o b : Nat) : FileData :=
  fun x => if x = o then b else f x

/-- Write a byte list into the file starting at `o` (`File::write_all`). -/
def writeBytes (f : FileData) (o : Nat) (data : List Nat) : FileData :=
  match data with
  | [] => f
  | b :: rest => writeBytes (writeByte f o b) (o + 1) rest

/-- Set a whole range of the file to zero (`write_all` of a zero buffer). -/
def zeroRange (f : FileData) (o len : Nat) : FileData :=
  fun x => if o ≤ x ∧ x < o + len then 0 else f x

/-- Read `len` bytes from the file starting at `o`. -/
def readBytes (f : FileData) (o : Nat) : Nat → List Nat
  | 0 => []
  | len + 1 => f o :: readBytes f (o + 1) len

/-- The transaction change map (`BTreeMap<u64, Vec<u8>>`): a sorted
association list from offset to byte buffer. -/
abbrev Changes : Type := List (Nat × List Nat)

/-- Lookup a change at an exact offset. -/
def chLookup : Changes → Nat → Option (List Nat)
  | [], _ => none
  | (k, v) :: rest, o => if o = k then some v else chLookup rest o

/-- `TableTransaction::set`: record the intent to write `data` at `offset`,
keeping the association list sorted by offset. -/
def chSet : Changes → Nat → List Nat → Changes
  | [], o, d => [(o, d)]
  | (k, v) :: rest, o, d =>
    if o < k then (o, d) :: (k, v) :: rest
    else if o = k then (o, d) :: rest
    else (k, v) :: chSet rest o d

/-- `TableTransaction::reset_sector`: drop every change whose offset lies in
the sector starting at `offset`. -/
def chResetSector (ch : Changes) (offset : Nat) : Changes :=
  ch.filter (fun p => decide (p.1 < offset) || decide (offset + SECTOR_SIZE ≤ p.1))

/-- `TableTransaction::get`: uncommitted bytes if present, else read through
to the file (the one-slot page cache is semantically transparent for reads). -/
def txGet (ch : Changes) (f : FileData) (o len : Nat) : List Nat :=
  match chLookup ch o with
  | some d => d
  | none => readBytes f o len

/-- `TableTransaction::get_num`: an 8-byte little-endian u64. -/
def txGetNum (ch : Changes) (f : FileData) (o : Nat) : Nat :=
  fromLe (txGet ch f o 8)

/-- `TableTransaction::flush_changes` with `NUM_FLUSH_THREADS = 1`: apply all
buffered changes to the file in ascending offset order and clear the buffer. -/
def applyChanges (ch : Changes) (f : FileData) : FileData :=
  ch.foldl (fun acc p => writeBytes acc p.1 p.2) f

/-- Floor lookup in a Nat-keyed sorted association list
(`BTreeMap::range(..=k).next_back()`). -/
def floorNat : List (Nat × Nat) → Nat → Option (Nat × Nat)
  | [], _ => none
  | (k, v) :: rest, o =>
    if o < k then none
    else match floorNat rest o with
      | none => some (k, v)
      | some r => some r

/-- Sorted insert into a Nat-keyed association list (`BTreeMap::insert`). -/
def insertNat : List (Nat × Nat) → Nat → Nat → List (Nat × Nat)
  | [], o, d => [(o, d)]
  | (k, v) :: rest, o, d =>
    if o < k then (o, d) :: (k, v) :: rest
    else if o = k then (o, d) :: rest
    else (k, v) :: insertNat rest o d

/-- Remove a key from a Nat-keyed association list (`BTreeMap::remove`). -/
def removeNat (m : List (Nat × Nat)) (o : Nat) : List (Nat × Nat) :=
  m.filter (fun p => decide (p.1 ≠ o))

/-- Strict lexicographic order on byte lists (the `Ord` instance of
`[u8; 26]`; all keys compared have length 26). -/
def hashLt : List Nat → List Nat → Bool
  | [], [] => false
  | [], _ :: _ => true
  | _ :: _, [] => false
  | a :: as, b :: bs => a < b || (a = b && hashLt as bs)

/-- Floor lookup in the hash-keyed directory. -/
def floorHash : List (List Nat × Nat) → List Nat → Option (List Nat × Nat)
  | [], _ => none
  | (k, v) :: rest, h =>
    if hashLt h k then none
    else match floorHash rest h with
      | none => some (k, v)
      | some r => some r

/-- Sorted insert into the hash-keyed directory. -/
def insertHash : List (List Nat × Nat) → List Nat → Nat → List (List Nat × Nat)
  | [], h, d => [(h, d)]
  | (k, v) :: rest, h, d =>
    if hashLt h k then (h, d) :: (k, v) :: rest
    else if h = k then (h, d) :: rest
    else (k, v) :: insertHash rest h d

/-- The in-memory engine state (`HashTable`).  The salted BLAKE3 hash comes
from an external crate; engine operations here take the 26-byte hash
directly, mirroring the code after `get_hash`. -/
structure DB where
  file : FileData
  fsz : Nat
  tx : Changes
  ht_mapping : List (List Nat × Nat)
  values_mapping : List (Nat × Nat)
  delmap_mapping : List (Nat × Nat)
  writes_since_resize : Nat
  del_balance : Int

/-- Read bytes through the transaction. -/
def dbGet (db : DB) (o len : Nat) : List Nat :=
  txGet db.tx db.file o len

/-- Read a u64 through the transaction. -/
def dbGetNum (db : DB) (o : Nat) : Nat :=
  txGetNum db.tx db.file o

/-- Record a write in the transaction. -/
def dbSet (db : DB) (o : Nat) (d : List Nat) : DB :=
  { db with tx := chSet db.tx o d }

/-- `HashTable::extract_value`: the 6-byte little-endian value field of a
hash-index slot. -/
def extract_value (data : List Nat) : Nat :=
  fromLe ((data.drop HASH_LEN).take 6)

/-- `HashTable::get_slot`: initial probe slot from the last 8 hash bytes. -/
def get_slot (hash : List Nat) : Nat :=
  fromLe ((hash.drop 18).take 8) % SLOTS_IN_SECTOR

/-- The linear-probe loop of `HashTable::seek`, fueled. -/
def seekLoop (db : DB) (hash : List Nat) (sector_offset : Nat) :
    Nat → Nat → Option (Nat × Nat)
  | _, 0 => none
  | slot, fuel + 1 =>
    let offset := sector_offset + slot * SLOT_SIZE + FIRST_SLOT_OFFSET
    let data := dbGet db offset SLOT_SIZE
    let value := extract_value data
    if value = NO_VALUE ∨ data.take HASH_LEN = hash then some (offset, value)
    else
      let slot2 := if SLOTS_IN_SECTOR ≤ slot + 1 then 0 else slot + 1
      seekLoop db hash sector_offset slot2 fuel

/-- `HashTable::seek`: floor-lookup the owning sector, then linear-probe.
`none` covers both a failed floor lookup (the source unwrap) and fuel
exhaustion (the source loops forever on a full sector). -/
def seek (db : DB) (hash : List Nat) (fuel : Nat) : Option (Nat × Nat) :=
  match floorHash db.ht_mapping hash with
  | none => none
  | some (_, sector_offset) => seekLoop db hash sector_offset (get_slot hash) fuel

/-- Write the prelude vectors contiguously from `offset`
(the prelude loop of `allocate_sector`). -/
def writePrelude : Changes → Nat → List (List Nat) → Changes × Nat
  | ch, offset, [] => (ch, offset)
  | ch, offset, v :: rest => writePrelude (chSet ch offset v) (offset + v.length) rest

/-- The zero-fill loop of `allocate_sector`: write zeroed `el_size` chunks
until the next sector boundary.  Fuel `SECTOR_SIZE` always suffices for the
element sizes the source uses. -/
def fillLoop : Changes → Nat → Nat → Nat → Changes
  | ch, _, _, 0 => ch
  | ch, offset, el_size, fuel + 1 =>
    if offset % SECTOR_SIZE = FIRST_SECTOR_OFFSET then ch
    else fillLoop (chSet ch offset (List.replicate el_size 0)) (offset + el_size) el_size fuel

/-- `HashTable::allocate_sector`.  The `expected_prelude_size` argument only
feeds a source assertion and is unused here. -/
def allocate_sector (db : DB) (prelude : List (List Nat))
    (expected_prelude_size el_size : Nat) : Nat × DB :=
  let file_size := dbGetNum db 0
  let cur_free_offset := dbGetNum db FREE_LIST_OFFSET
  let (ret, db1) :=
    if cur_free_offset ≠ 0 then
      let new_free_offset := dbGetNum db (cur_free_offset + 56)
      (cur_free_offset, dbSet db FREE_LIST_OFFSET (leBytes 8 new_free_offset))
    else
      let dbg : DB := { db with file := zeroRange db.file file_size SECTOR_SIZE,
                                fsz := max db.fsz (file_size + SECTOR_SIZE) }
      (file_size, dbSet dbg 0 (leBytes 8 (file_size + SECTOR_SIZE)))
  let _ := expected_prelude_size
  let db2 := { db1 with tx := chResetSector db1.tx ret }
  let (ch, offset) := writePrelude db2.tx ret prelude
  (ret, { db2 with tx := fillLoop ch offset el_size SECTOR_SIZE })

/-- `HashTable::free_sector`: mark free and push onto the free list. -/
def free_sector (db : DB) (offset : Nat) : DB :=
  let db := dbSet db (offset + 48) (leBytes 8 PAGE_TYPE_FREE)
  let cur_free_offset := dbGetNum db FREE_LIST_OFFSET
  let db := dbSet db (offset + 56) (leBytes 8 cur_free_offset)
  dbSet db FREE_LIST_OFFSET (leBytes 8 offset)

/-- `HashTable::get_value`: floor-lookup the owning value sector and read the
128-byte slot.  `none` is the source unwrap failing. -/
def get_value (db : DB) (logical_offset : Nat) : Option (List Nat) :=
  match floorNat db.values_mapping logical_offset with
  | none => none
  | some (sl, sp) => some (dbGet db (sp + logical_offset - sl) VALUE_SIZE)

/-- Set bit `own mod 8` in byte `own / 8` of a delmap entry. -/
def setBit (l : List Nat) (own : Nat) : List Nat :=
  l.set (own / 8) (Nat.lor (l.getD (own / 8) 0) (2 ^ (own % 8)))

/-- Clear bit `own mod 8` in byte `own / 8` of a delmap entry. -/
def clearBit (l : List Nat) (own : Nat) : List Nat :=
  l.set (own / 8) (Nat.land (l.getD (own / 8) 0) (255 - 2 ^ (own % 8)))

/-- `HashTable::is_value_at_offset_deleted`: the delmap bit is zero. -/
def is_value_at_offset_deleted (db : DB) (logical_offset : Nat) : Option Bool :=
  match floorNat db.delmap_mapping logical_offset with
  | none => none
  | some (sl, sp) =>
    let file_offset := sp +
      (logical_offset - sl) / VALUE_SIZE / DELS_PER_DELMAP * DELMAP_ENTRY_SIZE
    let own := (logical_offset / VALUE_SIZE) % DELS_PER_DELMAP
    let cur_delmap := dbGet db file_offset DELMAP_ENTRY_SIZE
    some (Nat.land (cur_delmap.getD (own / 8) 0) (2 ^ (own % 8)) = 0)

/-- `HashTable::delete_value`: clear the slot liveness bit. -/
def delete_value (db : DB) (logical_offset : Nat) : Option DB :=
  match floorNat db.delmap_mapping logical_offset with
  | none => none
  | some (sl, sp) =>
    let file_offset := sp +
      (logical_offset - sl) / VALUE_SIZE / DELS_PER_DELMAP * DELMAP_ENTRY_SIZE
    let own := (logical_offset / VALUE_SIZE) % DELS_PER_DELMAP
    let cur_delmap := dbGet db file_offset DELMAP_ENTRY_SIZE
    some (dbSet db file_offset (clearBit cur_delmap own))

/-- `HashTable::write_value`: append one 128-byte slot, opening value and
delmap sectors as the cursors cross sector boundaries, and set the slot
liveness bit.  Returns the logical offset of the appended slot. -/
def write_value (db : DB) (data : List Nat) : Nat × DB :=
  let cur_offset := dbGetNum db NEXT_VALUE_LOGICAL_OFFSET
  let nvp := dbGetNum db NEXT_VALUE_PHYSICAL_OFFSET
  let ndp := dbGetNum db NEXT_DELMAP_PHYSICAL_OFFSET
  let db := dbSet db NEXT_VALUE_LOGICAL_OFFSET (leBytes 8 (cur_offset + VALUE_SIZE))
  let (nvp, db) :=
    if nvp % SECTOR_SIZE = FIRST_SECTOR_OFFSET then
      let (s, db) := allocate_sector db
        [leBytes 8 cur_offset, List.replicate 40 0, leBytes 8 PAGE_TYPE_VALUES,
         List.replicate 8 0, List.replicate 64 0] VALUE_SIZE VALUE_SIZE
      (s + VALUE_SIZE,
       { db with values_mapping := insertNat db.values_mapping cur_offset (s + VALUE_SIZE) })
    else (nvp, db)
  let db := dbSet db nvp data
  let nvp := nvp + VALUE_SIZE
  let db := dbSet db NEXT_VALUE_PHYSICAL_OFFSET (leBytes 8 nvp)
  let own := (cur_offset / VALUE_SIZE) % DELS_PER_DELMAP
  let (ndp, db) :=
    if own = 0 then
      let (ndp, db) :=
        if ndp % SECTOR_SIZE = FIRST_SECTOR_OFFSET then
          let (s, db) := allocate_sector db
            [leBytes 8 cur_offset, List.replicate 40 0, leBytes 8 PAGE_TYPE_DELMAP,
             List.replicate 8 0] FIRST_SLOT_OFFSET DELMAP_ENTRY_SIZE
          (s + FIRST_SLOT_OFFSET,
           { db with delmap_mapping := insertNat db.delmap_mapping cur_offset (s + FIRST_SLOT_OFFSET) })
        else (ndp, db)
      let ndp := ndp + DELMAP_ENTRY_SIZE
      (ndp, dbSet db NEXT_DELMAP_PHYSICAL_OFFSET (leBytes 8 ndp))
    else (ndp, db)
  let cur_delmap := dbGet db (ndp - DELMAP_ENTRY_SIZE) DELMAP_ENTRY_SIZE
  (cur_offset, dbSet db (ndp - DELMAP_ENTRY_SIZE) (setBit cur_delmap own))

/-- `HashTable::move_one_value`: advance `first_logical` by one slot; relocate
the slot if live; release value and delmap sectors whose logical span was
fully passed. -/
def move_one_value (db : DB) : Option (Option (Nat × Nat) × DB) :=
  let logical_offset := dbGetNum db FIRST_VALUE_LOGICAL_OFFSET
  let new_logical_offset := logical_offset + VALUE_SIZE
  let db := dbSet db FIRST_VALUE_LOGICAL_OFFSET (leBytes 8 new_logical_offset)
  match is_value_at_offset_deleted db logical_offset with
  | none => none
  | some deleted =>
    let step0 : Option (Option (Nat × Nat) × DB) :=
      if deleted then some (none, db)
      else
        match get_value db logical_offset with
        | none => none
        | some value =>
          let (new_offset, db) := write_value db value
          some (some (logical_offset, new_offset), db)
    match step0 with
    | none => none
    | some (ret, db) =>
      let step1 : Option DB :=
        if new_logical_offset % (SECTOR_SIZE - VALUE_SIZE) = 0 then
          match floorNat db.values_mapping logical_offset with
          | none => none
          | some (sl, sp) =>
            let db := free_sector db (sp - VALUE_SIZE)
            some { db with values_mapping := removeNat db.values_mapping sl }
        else some db
      match step1 with
      | none => none
      | some db =>
        if new_logical_offset %
            ((SECTOR_SIZE - FIRST_SLOT_OFFSET) / DELMAP_ENTRY_SIZE
              * DELS_PER_DELMAP * VALUE_SIZE) = 0 then
          match floorNat db.delmap_mapping logical_offset with
          | none => none
          | some (_, sp) => some (ret, free_sector db (sp - FIRST_SLOT_OFFSET))
        else some (ret, db)

/-- Step 1 of the resize in `ht_set_with_hash`: collect all live (hash, value)
pairs of a sector in slot order while zeroing every slot. -/
def collectWipe (f : FileData) (sector_offset : Nat) :
    Nat → Nat → Changes → List (List Nat × Nat) × Changes
  | _, 0, ch => ([], ch)
  | slot, fuel + 1, ch =>
    let slot_offset := sector_offset + slot * SLOT_SIZE + FIRST_SLOT_OFFSET
    let data := txGet ch f slot_offset SLOT_SIZE
    let value := extract_value data
    let ch := chSet ch slot_offset (List.replicate 32 0)
    let (pairs, ch2) := collectWipe f sector_offset (slot + 1) fuel ch
    if value ≠ NO_VALUE then ((data.take HASH_LEN, value) :: pairs, ch2) else (pairs, ch2)

/-- Comparison used by `pairs.sort_unstable()`: lexicographic on
(26-byte hash, value). -/
def pairLe (a b : List Nat × Nat) : Bool :=
  hashLt a.1 b.1 || (a.1 = b.1 && a.2 ≤ b.2)

/-- Ordered insert for the resize sort. -/
def insertPair (x : List Nat × Nat) : List (List Nat × Nat) → List (List Nat × Nat)
  | [] => [x]
  | y :: ys => if pairLe x y then x :: y :: ys else y :: insertPair x ys

/-- Insertion sort modelling `sort_unstable` on the collected pairs. -/
def sortPairs : List (List Nat × Nat) → List (List Nat × Nat)
  | [] => []
  | x :: xs => insertPair x (sortPairs xs)

mutual

/-- `HashTable::ht_set_with_hash`, fueled (the resize path reinserts through
recursive calls).  Returns the previous value when the slot was occupied. -/
def ht_set_with_hash (fuel0 : Nat) (db : DB) (hash : List Nat) (new_value : Nat) :
    Option (Option Nat × DB) :=
  match fuel0 with
  | 0 => none
  | fuel + 1 =>
    match seek db hash (fuel + 1) with
    | none => none
    | some (offset, old_value) =>
      let db := dbSet db offset (hash ++ leBytes 6 new_value)
      if old_value = NO_VALUE then
        let sector_offset :=
          (offset - FIRST_SECTOR_OFFSET) / SECTOR_SIZE * SECTOR_SIZE + FIRST_SECTOR_OFFSET
        let occ := dbGetNum db (sector_offset + 32) + 1
        let resize := SLOTS_IN_SECTOR * MAX_SECTOR_PERCENT / 100 ≤ occ ∨
          (SLOTS_IN_SECTOR * EARLY_SECTOR_PERCENT / 100 ≤ occ ∧
            SLOTS_IN_SECTOR / 2 ≤ db.writes_since_resize)
        if resize then
          let (pairs, ch) := collectWipe db.file sector_offset 0 SLOTS_IN_SECTOR db.tx
          let db := { db with tx := chSet ch (sector_offset + 32) (List.replicate 8 0),
                              writes_since_resize := 0 }
          let pairs := sortPairs pairs
          let median_hash := (pairs.getD (pairs.length / 2) ([], 0)).1
          let (so, db) := allocate_sector db
            [median_hash, List.replicate (8 + 8 + 6) 0, leBytes 8 PAGE_TYPE_HT,
             List.replicate 8 0] FIRST_SLOT_OFFSET SLOT_SIZE
          let db := { db with ht_mapping := insertHash db.ht_mapping median_hash so }
          match reinsertAll fuel db pairs with
          | none => none
          | some db => some (none, db)
        else
          let db := { db with writes_since_resize := db.writes_since_resize + 1 }
          some (none, dbSet db (sector_offset + 32) (leBytes 8 occ))
      else some (some old_value, db)
  termination_by (fuel0, 0)

/-- Step 3 of the resize: reinsert the collected pairs in order. -/
def reinsertAll (fuel : Nat) (db : DB) (pairs : List (List Nat × Nat)) : Option DB :=
  match pairs with
  | [] => some db
  | (h, v) :: rest =>
    match ht_set_with_hash fuel db h v with
    | none => none
    | some (_, db2) => reinsertAll fuel db2 rest
  termination_by (fuel, pairs.length + 1)

end

/-- The probe-chain repair loop of `ht_delete_with_hash`, fueled. -/
def htDeleteRepair : DB → Nat → Nat → Nat → Nat → Option DB
  | _, _, _, _, 0 => none
  | db, sector_offset, target_offset, cur_offset, fuel + 1 =>
    let cur_offset := cur_offset + SLOT_SIZE
    let cur_offset :=
      if (cur_offset - FIRST_SECTOR_OFFSET) % SECTOR_SIZE = 0
      then cur_offset - (SECTOR_SIZE - FIRST_SLOT_OFFSET) else cur_offset
    let data := dbGet db cur_offset SLOT_SIZE
    if extract_value data = NO_VALUE then
      some (dbSet db target_offset (List.replicate 32 0))
    else
      let desired_offset :=
        sector_offset + FIRST_SLOT_OFFSET + SLOT_SIZE * get_slot (data.take HASH_LEN)
      let adj := fun x =>
        if x < desired_offset then x + SECTOR_SIZE - FIRST_SLOT_OFFSET else x
      if adj target_offset < adj cur_offset then
        htDeleteRepair (dbSet db target_offset data) sector_offset cur_offset cur_offset fuel
      else
        htDeleteRepair db sector_offset target_offset cur_offset fuel

/-- `HashTable::ht_delete_with_hash`: seek; if present, decrement occupancy
and repair the probe chain. -/
def ht_delete_with_hash (db : DB) (hash : List Nat) (fuel : Nat) : Option DB :=
  match seek db hash fuel with
  | none => none
  | some (target_offset, old_value) =>
    if old_value ≠ NO_VALUE then
      let sector_offset :=
        (target_offset - FIRST_SECTOR_OFFSET) / SECTOR_SIZE * SECTOR_SIZE + FIRST_SECTOR_OFFSET
      let occ := dbGetNum db (sector_offset + 32) - 1
      let db := dbSet db (sector_offset + 32) (leBytes 8 occ)
      htDeleteRepair db sector_offset target_offset target_offset fuel
    else some db

/-- Phase 1 of `delete_at_offset`: clear liveness bits over the record,
earning 4 credits per slot. -/
def delClear (db : DB) (offset remaining : Nat) : Option DB :=
  if remaining = 0 then some db
  else
    match delete_value db offset with
    | none => none
    | some db =>
      delClear { db with del_balance := db.del_balance + 4 }
        (offset + VALUE_SIZE) (remaining - VALUE_SIZE)
  termination_by remaining
  decreasing_by simp_wf; simp only [VALUE_SIZE]; omega

/-- The inner loop of the compaction phase: move the remaining slots of the
record at the tail, paying one credit each. -/
def compactTail (db : DB) (remaining : Nat) : Option DB :=
  if remaining = 0 then some db
  else
    match move_one_value db with
    | none => none
    | some (_, db) =>
      compactTail { db with del_balance := db.del_balance - 1 } (remaining - VALUE_SIZE)
  termination_by remaining
  decreasing_by simp_wf; simp only [VALUE_SIZE]; omega

/-- The outer compaction loop of `delete_at_offset` (`while del_balance > 0`),
fueled.  The guard subtraction follows u64 semantics via `sub64`. -/
def compactLoop : DB → Nat → Option DB
  | _, 0 => none
  | db, fuel + 1 =>
    if db.del_balance ≤ 0 then some db
    else
      let logical_first_offset := dbGetNum db FIRST_VALUE_LOGICAL_OFFSET
      let logical_next_offset := dbGetNum db NEXT_VALUE_LOGICAL_OFFSET
      match get_value db logical_first_offset with
      | none => none
      | some first_value =>
        let remaining := fromLe ((first_value.drop HASH_LEN).take 8)
        if sub64 (sub64 logical_next_offset logical_first_offset) remaining < VALUE_SIZE then
          some { db with del_balance := 0 }
        else
          match move_one_value db with
          | none => none
          | some (moved, db) =>
            let repoint : Option DB :=
              match moved with
              | some (_, new_offset) =>
                match seek db (first_value.take HASH_LEN) (fuel + 1) with
                | none => none
                | some (ht_offset, _) =>
                  some (dbSet db ht_offset
                    (first_value.take HASH_LEN ++ leBytes 6 (1 + new_offset)))
              | none => some db
            match repoint with
            | none => none
            | some db =>
              let db := { db with del_balance := db.del_balance - 1 }
              match compactTail db (remaining - VALUE_SIZE) with
              | none => none
              | some db => compactLoop db fuel

/-- `HashTable::delete_at_offset`: clear the record's bits, then compact. -/
def delete_at_offset (db : DB) (offset : Nat) (fuel : Nat) : Option DB :=
  match get_value db offset with
  | none => none
  | some first_value =>
    let remaining := fromLe ((first_value.drop HASH_LEN).take 8)
    match delClear db offset remaining with
    | none => none
    | some db => compactLoop db fuel

/-- `HashTable::delete`, parametrized by the key hash. -/
def deleteH (db : DB) (hash : List Nat) (fuel : Nat) : Option DB :=
  match seek db hash fuel with
  | none => none
  | some (_, offset) =>
    if offset ≠ NO_VALUE then
      match delete_at_offset db (offset - 1) fuel with
      | none => none
      | some db => ht_delete_with_hash db hash fuel
    else some db

/-- The slot-emitting loop of `HashTable::set` for indices `1..count`. -/
def writeRest (full_value : List Nat) (db : DB) (i count : Nat) : DB :=
  if _h : i < count then
    let (_, db) := write_value db ((full_value.drop (i * 128)).take 128)
    writeRest full_value { db with del_balance := db.del_balance - 2 } (i + 1) count
  else db
  termination_by count - i
  decreasing_by simp_wf; omega

/-- `HashTable::set`, parametrized by the key hash: frame the record, append
its slots, update the index, and delete any overwritten record. -/
def setH (db : DB) (hash value : List Nat) (fuel : Nat) : Option DB :=
  let full_value_len := hash.length + value.length + 8
  let rounded := (full_value_len + VALUE_SIZE - 1) / VALUE_SIZE * VALUE_SIZE
  let full_value := hash ++ leBytes 8 full_value_len ++ value ++
    List.replicate (rounded - full_value_len) 0
  let (offset, db) := write_value db (full_value.take 128)
  let db := { db with del_balance := db.del_balance - 2 }
  let db := writeRest full_value db 1 (rounded / VALUE_SIZE)
  match ht_set_with_hash fuel db hash (offset + 1) with
  | none => none
  | some (some old_offset, db) => delete_at_offset db (old_offset - 1) fuel
  | some (none, db) => some db

/-- The multi-slot read loop of `HashTable::get`. -/
def getTail (db : DB) (offset remaining : Nat) : Option (List (List Nat)) :=
  if remaining = 0 then some []
  else
    match get_value db (offset + VALUE_SIZE) with
    | none => none
    | some v =>
      (getTail db (offset + VALUE_SIZE) (remaining - VALUE_SIZE)).map (v :: ·)
  termination_by remaining
  decreasing_by simp_wf; simp only [VALUE_SIZE]; omega

/-- `HashTable::get`, parametrized by the key hash.  The outer `none` covers
fuel exhaustion and panics, including the internal `assert` that the record
offset is not below `first_logical`; `some none` is an absent key. -/
def getH (db : DB) (hash : List Nat) (fuel : Nat) : Option (Option (List Nat)) :=
  match seek db hash fuel with
  | none => none
  | some (_, v) =>
    if v = NO_VALUE then some none
    else
      let offset := v - 1
      let logical_first_offset := dbGetNum db FIRST_VALUE_LOGICAL_OFFSET
      if offset < logical_first_offset then none
      else
        match get_value db offset with
        | none => none
        | some v0 =>
          let len := fromLe ((v0.drop HASH_LEN).take 8)
          match getTail db offset (len - VALUE_SIZE) with
          | none => none
          | some rest =>
            some (some ((((v0 :: rest).flatten).drop (HASH_LEN + 8)).take (len - (HASH_LEN + 8))))

/-- `HashTable::ht_get`, parametrized by the key hash. -/
def ht_getH (db : DB) (hash : List Nat) (fuel : Nat) : Option (Option Nat) :=
  match seek db hash fuel with
  | none => none
  | some (_, value) => some (if value ≠ NO_VALUE then some value else none)

/-- `HashTable::flush_changes` at the engine level (`NUM_FLUSH_THREADS = 1`):
apply the buffered changes to the file and clear the buffer. -/
def flush (db : DB) : DB :=
  { db with file := applyChanges db.tx db.file, tx := [] }

/-- `read_exact` on the WAL byte stream. -/
def readExact (l : List Nat) (n : Nat) : Option (List Nat × List Nat) :=
  if l.length < n then none else some (l.take n, l.drop n)

/-- The per-change loop of `maybe_replay_log`. -/
def replayEntries : Changes → List Nat → Nat → Option (Changes × List Nat)
  | ch, wal, 0 => some (ch, wal)
  | ch, wal, n + 1 =>
    match readExact wal 8 with
    | none => none
    | some (ob, wal) =>
      match readExact wal 8 with
      | none => none
      | some (lb, wal) =>
        match readExact wal (fromLe lb) with
        | none => none
        | some (data, wal) => replayEntries (chSet ch (fromLe ob) data) wal n

/-- `TableTransaction::maybe_replay_log`: parse the WAL into the change map;
`none` is the source returning `false` (the caller then discards the
partially filled transaction). -/
def maybe_replay_log (ch : Changes) (wal : List Nat) : Option Changes :=
  match readExact wal 8 with
  | none => none
  | some (nb, wal) =>
    match replayEntries ch wal (fromLe nb) with
    | none => none
    | some (ch, wal) =>
      match readExact wal 8 with
      | none => none
      | some (mb, _) => if fromLe mb = WAL_MAGIC then some ch else none

/-- `TableTransaction::write_to_log`: serialize the change map in ascending
offset order, terminated by the magic. -/
def serializeChanges (ch : Changes) : List Nat :=
  leBytes 8 ch.length ++
    (ch.map (fun p => leBytes 8 p.1 ++ leBytes 8 p.2.length ++ p.2)).flatten ++
    leBytes 8 WAL_MAGIC

/-- First-open initialization of the data file (`HashTable::new`, the
`file_len < FIRST_SECTOR_OFFSET + SECTOR_SIZE` branch). -/
def initFile (f : FileData) (fsz : Nat) : FileData × Nat :=
  if fsz < FIRST_SECTOR_OFFSET + SECTOR_SIZE then
    let desired := FIRST_SECTOR_OFFSET + SECTOR_SIZE
    let f := zeroRange f 0 desired
    let f := writeBytes f 0 (leBytes 8 desired)
    let f := writeBytes f NEXT_VALUE_PHYSICAL_OFFSET (leBytes 8 FIRST_SECTOR_OFFSET)
    let f := writeBytes f NEXT_DELMAP_PHYSICAL_OFFSET (leBytes 8 FIRST_SECTOR_OFFSET)
    let f := writeBytes f (FIRST_SECTOR_OFFSET + 48) (leBytes 8 PAGE_TYPE_HT)
    (f, desired)
  else (f, fsz)

/-- One iteration of the boot scan of `HashTable::new`: dispatch on the
page-type byte of the sector at `offset` and extend the matching directory. -/
def bootScanStep (db : DB) (offset : Nat) : DB :=
  let page_type := dbGetNum db (offset + 48)
  if page_type = PAGE_TYPE_HT then
    { db with ht_mapping := insertHash db.ht_mapping (dbGet db offset 26) offset }
  else if page_type = PAGE_TYPE_VALUES then
    { db with values_mapping := insertNat db.values_mapping (dbGetNum db offset) (offset + VALUE_SIZE) }
  else if page_type = PAGE_TYPE_DELMAP then
    { db with delmap_mapping := insertNat db.delmap_mapping (dbGetNum db offset) (offset + FIRST_SLOT_OFFSET) }
  else db

/-- The boot scan of `HashTable::new`: walk the sectors and build the three
directories from the page-type bytes. -/
def bootScan (db : DB) (offset file_size : Nat) : DB :=
  if _h : offset < file_size then
    bootScan (bootScanStep db offset) (offset + SECTOR_SIZE) file_size
  else db
  termination_by file_size - offset
  decreasing_by simp_wf; simp only [SECTOR_SIZE] at *; omega

/-- `HashTable::new`: initialize the file if fresh, replay the WAL if one was
given and it parses (flushing it to the data file), then boot-scan. -/
def openDB (f : FileData) (fsz : Nat) (wal : Option (List Nat)) : DB :=
  let p := initFile f fsz
  let txf : Changes × FileData :=
    match wal with
    | none => ([], p.1)
    | some w =>
      match maybe_replay_log [] w with
      | some ch => ([], applyChanges ch p.1)
      | none => ([], p.1)
  let db : DB := { file := txf.2, fsz := p.2, tx := txf.1, ht_mapping := [],
                   values_mapping := [], delmap_mapping := [],
                   writes_since_resize := 0, del_balance := 0 }
  bootScan db FIRST_SECTOR_OFFSET (dbGetNum db 0)

/-- `TableTransaction::set` with its length assertion made explicit
(`assert_eq!(old_value.len(), len)`): replacing an existing entry at the
same offset with data of a different length panics, modelled as `none`. -/
def chSetChecked (ch : Changes) (o : Nat) (d : List Nat) : Option Changes :=
  match chLookup ch o with
  | some old => if old.length = d.length then some (chSet ch o d) else none
  | none => some (chSet ch o d)

/-- The per-change loop of `maybe_replay_log` with the panic of
`TableTransaction::set` made explicit: `none` is the process aborting on the
length assertion, `some none` a truncated read (the source returning
`false`), `some (some _)` a fully parsed batch. -/
def replayEntriesChecked : Changes → List Nat → Nat → Option (Option (Changes × List Nat))
  | ch, wal, 0 => some (some (ch, wal))
  | ch, wal, n + 1 =>
    match readExact wal 8 with
    | none => some none
    | some (ob, wal) =>
      match readExact wal 8 with
      | none => some none
      | some (lb, wal) =>
        match readExact wal (fromLe lb) with
        | none => some none
        | some (data, wal) =>
          match chSetChecked ch (fromLe ob) data with
          | none => none
          | some ch2 => replayEntriesChecked ch2 wal n

/-- `TableTransaction::maybe_replay_log` with the panic of
`TableTransaction::set` made explicit: `none` is the process aborting,
`some none` the source returning `false`, `some (some ch)` a successful
replay producing the change map `ch`. -/
def maybe_replay_log_checked (ch : Changes) (wal : List Nat) : Option (Option Changes) :=
  match readExact wal 8 with
  | none => some none
  | some (nb, wal) =>
    match replayEntriesChecked ch wal (fromLe nb) with
    | none => none
    | some none => some none
    | some (some (ch, wal)) =>
      match readExact wal 8 with
      | none => some none
      | some (mb, _) => if fromLe mb = WAL_MAGIC then some (some ch) else some none

/-- `HashTable::new` with the WAL-replay panic made explicit: `none` when the
length assertion aborts the process during replay, otherwise the opened
engine. -/
def openDBChecked (f : FileData) (fsz : Nat) (wal : Option (List Nat)) : Option DB :=
  let p := initFile f fsz
  match wal with
  | none =>
    let db : DB := { file := p.1, fsz := p.2, tx := [], ht_mapping := [],
                     values_mapping := [], delmap_mapping := [],
                     writes_since_resize := 0, del_balance := 0 }
    some (bootScan db FIRST_SECTOR_OFFSET (dbGetNum db 0))
  | some w =>
    match maybe_replay_log_checked [] w with
    | none => none
    | some r =>
      let f2 : FileData :=
        match r with
        | some ch => applyChanges ch p.1
        | none => p.1
      let db : DB := { file := f2, fsz := p.2, tx := [], ht_mapping := [],
                       values_mapping := [], delmap_mapping := [],
                       writes_since_resize := 0, del_balance := 0 }
      some (bootScan db FIRST_SECTOR_OFFSET (dbGetNum db 0))

/-- A concrete file whose header records size 4096 and whose other bytes are
zero; used to instantiate theorems with hypotheses at concrete states. -/
def fileW : FileData := fun o => if o = 1 then 16 else 0

/-- A concrete WAL: two entries rewriting offset 100 with lengths 1 and 2,
then truncated before the trailing magic. -/
def walW : List Nat :=
  leBytes 8 2 ++ leBytes 8 100 ++ leBytes 8 1 ++ [7] ++
    leBytes 8 100 ++ leBytes 8 2 ++ [8, 9]

/-- A concrete engine state over `fileW`. -/
def dbW : DB :=
  { file := fileW, fsz := 4096, tx := [], ht_mapping := [], values_mapping := [],
    delmap_mapping := [], writes_since_resize := 0, del_balance := 0 }

/-- A concrete allocation prelude: one 128-byte chunk. -/
def prelW : List (List Nat) := [List.replicate 128 0]

/-- A concrete engine state with one pending change, over a file of
initialized size. -/
def dbW3 : DB :=
  { file := fileW, fsz := 1052672, tx := [(64, [1, 2])], ht_mapping := [],
    values_mapping := [], delmap_mapping := [], writes_since_resize := 0, del_balance := 0 }

/-- A concrete engine state whose hash directory holds the zero-keyed
initial sector, over an all-zero file. -/
def dbW9 : DB :=
  { file := fun _ => 0, fsz := 1052672, tx := [],
    ht_mapping := [(List.replicate 26 0, 4096)], values_mapping := [],
    delmap_mapping := [], writes_since_resize := 0, del_balance := 0 }

/-- A concrete engine state holding exactly one single-slot record in the
value log, with positive deletion balance. -/
def dbW5 : DB :=
  { file := fun _ => 0, fsz := 3149824,
    tx := [(16, leBytes 8 128), (24, leBytes 8 0),
           (4224, List.replicate 26 7 ++ leBytes 8 34 ++ List.replicate 94 0)],
    ht_mapping := [(List.replicate 26 0, 4096)], values_mapping := [(0, 4224)],
    delmap_mapping := [(0, 2101312)], writes_since_resize := 0, del_balance := 1 }

/-- A concrete engine state with one dead (never-written) slot at the tail
of the value log. -/
def dbW4 : DB :=
  { file := fun _ => 0, fsz := 3149824, tx := [], ht_mapping := [],
    values_mapping := [(0, 1052800)], delmap_mapping := [(0, 2101312)],
    writes_since_resize := 0, del_balance := 0 }

/-- A concrete data file for the live branch of the relocation step: headers
record file size 2101248, next logical 128, next value physical 4352, next
delmap physical 4192, and slot 0's liveness bit is set. -/
def fileW4L : FileData := fun o =>
  if o = 1 then 16 else if o = 2 then 32 else
  if o = 16 then 128 else if o = 33 then 17 else
  if o = 48 then 96 else if o = 49 then 16 else
  if o = 4160 then 1 else 0

/-- A concrete engine state whose slot at logical offset 0 is live. -/
def dbW4L : DB :=
  { file := fileW4L, fsz := 2101248, tx := [], ht_mapping := [],
    values_mapping := [(0, 4224)], delmap_mapping := [(0, 4160)],
    writes_since_resize := 0, del_balance := 0 }

/-- Iterated `write_value`: the append harness used to state the value-log
claims.  Returns the logical offsets in order and the final state. -/
def appendN (db : DB) : List (List Nat) → List Nat × DB
  | [] => ([], db)
  | d :: rest =>
    let p := write_value db d
    let q := appendN p.2 rest
    (p.1 :: q.1, q.2)

/-- An index ladder: the shape of `values_mapping` after pure appends —
entry `j` maps logical offset `step * (j0 + j)` to the `j`-th payload base. -/
def ladder (step : Nat) : List Nat → Nat → List (Nat × Nat)
  | [], _ => []
  | b :: rest, j0 => (step * j0, b) :: ladder step rest (j0 + 1)

/-- Physical position of value slot `i`, given the value-sector payload
bases in allocation order (8191 slots per sector). -/
def slotPos (vb : List Nat) (i : Nat) : Nat :=
  vb.getD (i / 8191) 0 + VALUE_SIZE * (i % 8191)

/-- The next-value physical cursor after `n` appends. -/
def vposOf (vb : List Nat) (n : Nat) : Nat :=
  if n = 0 then FIRST_SECTOR_OFFSET
  else vb.getD ((n - 1) / 8191) 0 + VALUE_SIZE * ((n - 1) % 8191) + VALUE_SIZE

/-- Physical position of delmap entry `e`, given the delmap payload bases
(32766 entries per sector). -/
def delPos (dbas : List Nat) (e : Nat) : Nat :=
  dbas.getD (e / 32766) 0 + DELMAP_ENTRY_SIZE * (e % 32766)

/-- The next-delmap physical cursor after `n` appends. -/
def dposOf (dbas : List Nat) (n : Nat) : Nat :=
  if n = 0 then FIRST_SECTOR_OFFSET
  else delPos dbas ((n + 207) / 208 - 1) + DELMAP_ENTRY_SIZE

/-- State invariant of a fresh engine after appending the 128-byte slots
`ds` through `write_value`: header cursors, sector geometry, the
`values_mapping` ladder, the untouched hash sector, and the buffered slot
contents.  `vb` / `dbas` list the payload base offsets of the value / delmap
sectors in allocation order. -/
def InvP (db : DB) (ds : List (List Nat)) (vb dbas : List Nat) : Prop :=
  vb.length = (ds.length + 8190) / 8191 ∧
  dbas.length = ((ds.length + 207) / 208 + 32765) / 32766 ∧
  dbGetNum db 0 = db.fsz ∧
  dbGetNum db FREE_LIST_OFFSET = 0 ∧
  dbGetNum db NEXT_VALUE_LOGICAL_OFFSET = VALUE_SIZE * ds.length ∧
  dbGetNum db FIRST_VALUE_LOGICAL_OFFSET = 0 ∧
  dbGetNum db NEXT_VALUE_PHYSICAL_OFFSET = vposOf vb ds.length ∧
  dbGetNum db NEXT_DELMAP_PHYSICAL_OFFSET = dposOf dbas ds.length ∧
  db.fsz = FIRST_SECTOR_OFFSET + SECTOR_SIZE * (1 + vb.length + dbas.length) ∧
  (∀ j, j < vb.length → vb.getD j 0 % SECTOR_SIZE = FIRST_SECTOR_OFFSET + VALUE_SIZE ∧
    FIRST_SECTOR_OFFSET + SECTOR_SIZE + VALUE_SIZE ≤ vb.getD j 0 ∧
    vb.getD j 0 + (SECTOR_SIZE - VALUE_SIZE) ≤ db.fsz) ∧
  (∀ j1 j2, j1 < j2 → j2 < vb.length → vb.getD j1 0 + SECTOR_SIZE ≤ vb.getD j2 0) ∧
  (∀ k, k < dbas.length →
    dbas.getD k 0 % SECTOR_SIZE = FIRST_SECTOR_OFFSET + FIRST_SLOT_OFFSET ∧
    FIRST_SECTOR_OFFSET + SECTOR_SIZE + FIRST_SLOT_OFFSET ≤ dbas.getD k 0 ∧
    dbas.getD k 0 + (SECTOR_SIZE - FIRST_SLOT_OFFSET) ≤ db.fsz) ∧
  (∀ k1 k2, k1 < k2 → k2 < dbas.length → dbas.getD k1 0 + SECTOR_SIZE ≤ dbas.getD k2 0) ∧
  (∀ j k, j < vb.length → k < dbas.length →
    vb.getD j 0 - VALUE_SIZE + SECTOR_SIZE ≤ dbas.getD k 0 - FIRST_SLOT_OFFSET ∨
    dbas.getD k 0 - FIRST_SLOT_OFFSET + SECTOR_SIZE ≤ vb.getD j 0 - VALUE_SIZE) ∧
  db.values_mapping = ladder (8191 * VALUE_SIZE) vb 0 ∧
  db.ht_mapping = [(List.replicate 26 0, FIRST_SECTOR_OFFSET)] ∧
  (∀ o, FIRST_SLOT_OFFSET ≤ o → o < FIRST_SECTOR_OFFSET + SECTOR_SIZE →
    chLookup db.tx o = none) ∧
  (∀ o, FIRST_SECTOR_OFFSET ≤ o → o < FIRST_SECTOR_OFFSET + SECTOR_SIZE →
    ¬(FIRST_SECTOR_OFFSET + 48 ≤ o ∧ o < FIRST_SECTOR_OFFSET + 56) → db.file o = 0) ∧
  (∀ i, i < ds.length → chLookup db.tx (slotPos vb i) = some (ds.getD i []))

/-- The value-side half of `write_value`: read the three cursors, bump the
logical cursor, open a value sector if needed, write the slot and the new
physical cursor.  Returns the slot's logical offset, the delmap cursor as
read, and the updated state. -/
def wvHead (db : DB) (data : List Nat) : Nat × Nat × DB :=
  let cur_offset := dbGetNum db NEXT_VALUE_LOGICAL_OFFSET
  let nvp := dbGetNum db NEXT_VALUE_PHYSICAL_OFFSET
  let ndp := dbGetNum db NEXT_DELMAP_PHYSICAL_OFFSET
  let db := dbSet db NEXT_VALUE_LOGICAL_OFFSET (leBytes 8 (cur_offset + VALUE_SIZE))
  let (nvp, db) :=
    if nvp % SECTOR_SIZE = FIRST_SECTOR_OFFSET then
      let (s, db) := allocate_sector db
        [leBytes 8 cur_offset, List.replicate 40 0, leBytes 8 PAGE_TYPE_VALUES,
         List.replicate 8 0, List.replicate 64 0] VALUE_SIZE VALUE_SIZE
      (s + VALUE_SIZE,
       { db with values_mapping := insertNat db.values_mapping cur_offset (s + VALUE_SIZE) })
    else (nvp, db)
  let db := dbSet db nvp data
  let nvp := nvp + VALUE_SIZE
  let db := dbSet db NEXT_VALUE_PHYSICAL_OFFSET (leBytes 8 nvp)
  (cur_offset, ndp, db)

/-- The delmap-side half of `write_value`: open a delmap sector and bump the
delmap cursor when the slot starts a new delmap entry, then set the slot's
liveness bit. -/
def wvTail (cur_offset ndp : Nat) (db : DB) : DB :=
  let own := (cur_offset / VALUE_SIZE) % DELS_PER_DELMAP
  let (ndp, db) :=
    if own = 0 then
      let (ndp, db) :=
        if ndp % SECTOR_SIZE = FIRST_SECTOR_OFFSET then
          let (s, db) := allocate_sector db
            [leBytes 8 cur_offset, List.replicate 40 0, leBytes 8 PAGE_TYPE_DELMAP,
             List.replicate 8 0] FIRST_SLOT_OFFSET DELMAP_ENTRY_SIZE
          (s + FIRST_SLOT_OFFSET,
           { db with delmap_mapping := insertNat db.delmap_mapping cur_offset (s + FIRST_SLOT_OFFSET) })
        else (ndp, db)
      let ndp := ndp + DELMAP_ENTRY_SIZE
      (ndp, dbSet db NEXT_DELMAP_PHYSICAL_OFFSET (leBytes 8 ndp))
    else (ndp, db)
  let cur_delmap := dbGet db (ndp - DELMAP_ENTRY_SIZE) DELMAP_ENTRY_SIZE
  dbSet db (ndp - DELMAP_ENTRY_SIZE) (setBit cur_delmap own)

/-- Intermediate invariant, between the two halves of a `write_value` step:
`ds` already includes the new slot (so it is nonempty), the value side is
fully updated, the delmap side still reflects the previous append count. -/
def MidInv (db : DB) (ds : List (List Nat)) (vb dbas : List Nat) : Prop :=
  vb.length = (ds.length + 8190) / 8191 ∧
  dbas.length = ((ds.length - 1 + 207) / 208 + 32765) / 32766 ∧
  dbGetNum db 0 = db.fsz ∧
  dbGetNum db FREE_LIST_OFFSET = 0 ∧
  dbGetNum db NEXT_VALUE_LOGICAL_OFFSET = VALUE_SIZE * ds.length ∧
  dbGetNum db FIRST_VALUE_LOGICAL_OFFSET = 0 ∧
  dbGetNum db NEXT_VALUE_PHYSICAL_OFFSET = vposOf vb ds.length ∧
  dbGetNum db NEXT_DELMAP_PHYSICAL_OFFSET = dposOf dbas (ds.length - 1) ∧
  db.fsz = FIRST_SECTOR_OFFSET + SECTOR_SIZE * (1 + vb.length + dbas.length) ∧
  (∀ j, j < vb.length → vb.getD j 0 % SECTOR_SIZE = FIRST_SECTOR_OFFSET + VALUE_SIZE ∧
    FIRST_SECTOR_OFFSET + SECTOR_SIZE + VALUE_SIZE ≤ vb.getD j 0 ∧
    vb.getD j 0 + (SECTOR_SIZE - VALUE_SIZE) ≤ db.fsz) ∧
  (∀ j1 j2, j1 < j2 → j2 < vb.length → vb.getD j1 0 + SECTOR_SIZE ≤ vb.getD j2 0) ∧
  (∀ k, k < dbas.length →
    dbas.getD k 0 % SECTOR_SIZE = FIRST_SECTOR_OFFSET + FIRST_SLOT_OFFSET ∧
    FIRST_SECTOR_OFFSET + SECTOR_SIZE + FIRST_SLOT_OFFSET ≤ dbas.getD k 0 ∧
    dbas.getD k 0 + (SECTOR_SIZE - FIRST_SLOT_OFFSET) ≤ db.fsz) ∧
  (∀ k1 k2, k1 < k2 → k2 < dbas.length → dbas.getD k1 0 + SECTOR_SIZE ≤ dbas.getD k2 0) ∧
  (∀ j k, j < vb.length → k < dbas.length →
    vb.getD j 0 - VALUE_SIZE + SECTOR_SIZE ≤ dbas.getD k 0 - FIRST_SLOT_OFFSET ∨
    dbas.getD k 0 - FIRST_SLOT_OFFSET + SECTOR_SIZE ≤ vb.getD j 0 - VALUE_SIZE) ∧
  db.values_mapping = ladder (8191 * VALUE_SIZE) vb 0 ∧
  db.ht_mapping = [(List.replicate 26 0, FIRST_SECTOR_OFFSET)] ∧
  (∀ o, FIRST_SLOT_OFFSET ≤ o → o < FIRST_SECTOR_OFFSET + SECTOR_SIZE →
    chLookup db.tx o = none) ∧
  (∀ o, FIRST_SECTOR_OFFSET ≤ o → o < FIRST_SECTOR_OFFSET + SECTOR_SIZE →
    ¬(FIRST_SECTOR_OFFSET + 48 ≤ o ∧ o < FIRST_SECTOR_OFFSET + 56) → db.file o = 0) ∧
  (∀ i, i < ds.length → chLookup db.tx (slotPos vb i) = some (ds.getD i []))

/-- The data file written by first-open initialization over an empty file. -/
def freshFile : FileData :=
  writeBytes (writeBytes (writeBytes (writeBytes
    (zeroRange (fun _ => 0) 0 (FIRST_SECTOR_OFFSET + SECTOR_SIZE)) 0
    (leBytes 8 (FIRST_SECTOR_OFFSET + SECTOR_SIZE)))
    NEXT_VALUE_PHYSICAL_OFFSET (leBytes 8 FIRST_SECTOR_OFFSET))
    NEXT_DELMAP_PHYSICAL_OFFSET (leBytes 8 FIRST_SECTOR_OFFSET))
    (FIRST_SECTOR_OFFSET + 48) (leBytes 8 PAGE_TYPE_HT)

/-- A freshly created engine: `HashTable::new` over an empty file, no WAL. -/
def freshDB : DB := openDB (fun _ => 0) 0 none

/-- The engine state right after first-open initialization, before the boot
scan fills the hash directory. -/
def freshRec0 : DB :=
  { file := freshFile, fsz := FIRST_SECTOR_OFFSET + SECTOR_SIZE, tx := [],
    ht_mapping := [], values_mapping := [], delmap_mapping := [],
    writes_since_resize := 0, del_balance := 0 }

/-- The engine state of a freshly created database. -/
def freshRec : DB :=
  { file := freshFile, fsz := FIRST_SECTOR_OFFSET + SECTOR_SIZE, tx := [],
    ht_mapping := [(List.replicate 26 0, FIRST_SECTOR_OFFSET)], values_mapping := [],
    delmap_mapping := [], writes_since_resize := 0, del_balance := 0 }


/-! ### Basic lemmas about the change map, the byte codec and the file model -/

theorem chLookup_chSet_self (ch : Changes) (o : Nat) (d : List Nat) :
    chLookup (chSet ch o d) o = some d := by
  induction ch with
  | nil => simp [chSet, chLookup]
  | cons p rest ih =>
    obtain ⟨k, v⟩ := p
    simp only [chSet]
    by_cases h1 : o < k
    · simp [h1, chLookup]
    · by_cases h2 : o = k
      · simp [h1, h2, chLookup]
      · simp [h1, h2, chLookup, ih]

theorem chLookup_chSet_ne (ch : Changes) (o o2 : Nat) (d : List Nat) (h : o2 ≠ o) :
    chLookup (chSet ch o d) o2 = chLookup ch o2 := by
  induction ch with
  | nil => simp [chSet, chLookup, h]
  | cons p rest ih =>
    obtain ⟨k, v⟩ := p
    simp only [chSet]
    by_cases h1 : o < k
    · simp [h1, chLookup, h]
    · by_cases h2 : o = k
      · subst h2; simp [h1, chLookup, h]
      · by_cases h3 : o2 = k
        · simp [h1, h2, chLookup, h3]
        · simp [h1, h2, chLookup, h3, ih]

theorem txGet_chSet_self (ch : Changes) (f : FileData) (o len : Nat) (d : List Nat) :
    txGet (chSet ch o d) f o len = d := by
  simp [txGet, chLookup_chSet_self]

theorem txGet_chSet_ne (ch : Changes) (f : FileData) (o o2 len : Nat) (d : List Nat)
    (h : o2 ≠ o) : txGet (chSet ch o d) f o2 len = txGet ch f o2 len := by
  simp [txGet, chLookup_chSet_ne ch o o2 d h]

theorem leBytes_length (k n : Nat) : (leBytes k n).length = k := by
  induction k generalizing n with
  | zero => simp [leBytes]
  | succ k ih => simp [leBytes, ih]

theorem fromLe_leBytes (k n : Nat) (h : n < 2 ^ (8 * k)) : fromLe (leBytes k n) = n := by
  induction k generalizing n with
  | zero => simp [leBytes, fromLe]; omega
  | succ k ih =>
    have h2 : n / 256 < 2 ^ (8 * k) := by
      have hp : (2 : Nat) ^ (8 * (k + 1)) = 2 ^ (8 * k) * 256 := by ring
      rw [hp] at h
      omega
    simp only [leBytes, fromLe, List.foldr_cons]
    have := ih (n / 256) h2
    simp only [fromLe] at this
    rw [this]
    omega

theorem txGetNum_chSet_self (ch : Changes) (f : FileData) (o n : Nat) (h : n < 2 ^ 64) :
    txGetNum (chSet ch o (leBytes 8 n)) f o = n := by
  simp [txGetNum, txGet_chSet_self]
  exact fromLe_leBytes 8 n h

theorem txGetNum_chSet_ne (ch : Changes) (f : FileData) (o o2 : Nat) (d : List Nat)
    (h : o2 ≠ o) : txGetNum (chSet ch o d) f o2 = txGetNum ch f o2 := by
  simp [txGetNum, txGet_chSet_ne ch f o o2 8 d h]

theorem chLookup_resetSector (ch : Changes) (offset o : Nat) :
    chLookup (chResetSector ch offset) o =
      if o < offset ∨ offset + SECTOR_SIZE ≤ o then chLookup ch o else none := by
  induction ch with
  | nil => simp [chResetSector, chLookup]
  | cons p rest ih =>
    obtain ⟨k, v⟩ := p
    simp only [chResetSector, List.filter] at *
    by_cases hk : k < offset ∨ offset + SECTOR_SIZE ≤ k
    · have : (decide (k < offset) || decide (offset + SECTOR_SIZE ≤ k)) = true := by
        simp [hk]
      rw [this]
      simp only [chLookup]
      by_cases ho : o = k
      · subst ho; simp [hk]
      · simp [ho, ih]
    · have : (decide (k < offset) || decide (offset + SECTOR_SIZE ≤ k)) = false := by
        simp at hk ⊢; omega
      rw [this]
      by_cases ho : o = k
      · subst ho
        simp only [chLookup] at *
        have hcond : ¬(o < offset ∨ offset + SECTOR_SIZE ≤ o) := by
          simp at hk ⊢; omega
        simp [hcond, ih]
      · simp only [chLookup, ho, if_neg]
        exact ih

/-- Keys written by `writePrelude` are at least the start offset. -/
theorem chLookup_writePrelude_lt (ps : List (List Nat)) (ch : Changes) (start o : Nat)
    (h : o < start) : chLookup (writePrelude ch start ps).1 o = chLookup ch o := by
  induction ps generalizing ch start with
  | nil => simp [writePrelude]
  | cons v rest ih =>
    simp only [writePrelude]
    rw [ih (chSet ch start v) (start + v.length) (by omega)]
    exact chLookup_chSet_ne ch start o v (by omega)

/-- The end offset of `writePrelude` is the start plus the total prelude length. -/
theorem writePrelude_snd (ps : List (List Nat)) (ch : Changes) (start : Nat) :
    (writePrelude ch start ps).2 = start + (ps.map List.length).sum := by
  induction ps generalizing ch start with
  | nil => simp [writePrelude]
  | cons v rest ih =>
    simp only [writePrelude]
    rw [ih]
    simp only [List.map_cons, List.sum_cons]
    omega

/-- Keys written by `writePrelude` are below start plus the total length
(chunks are nonempty in every engine call site). -/
theorem chLookup_writePrelude_ge (ps : List (List Nat)) (ch : Changes) (start o : Nat)
    (h : start + (ps.map List.length).sum ≤ o) (hne : ∀ v ∈ ps, 0 < v.length) :
    chLookup (writePrelude ch start ps).1 o = chLookup ch o := by
  induction ps generalizing ch start with
  | nil => simp [writePrelude]
  | cons v rest ih =>
    simp only [writePrelude]
    have h2 : start + v.length + (rest.map List.length).sum ≤ o := by
      simp only [List.map_cons, List.sum_cons] at h
      omega
    have hv : 0 < v.length := hne v (List.mem_cons_self v rest)
    rw [ih (chSet ch start v) (start + v.length) h2
      (fun w hw => hne w (List.mem_cons_of_mem v hw))]
    exact chLookup_chSet_ne ch start o v (by omega)

/-- Keys written by `fillLoop` are at least the start offset. -/
theorem chLookup_fillLoop_lt (fuel : Nat) (ch : Changes) (start el o : Nat)
    (h : o < start) : chLookup (fillLoop ch start el fuel) o = chLookup ch o := by
  induction fuel generalizing ch start with
  | zero => simp [fillLoop]
  | succ fuel ih =>
    simp only [fillLoop]
    by_cases hb : start % SECTOR_SIZE = FIRST_SECTOR_OFFSET
    · simp [hb]
    · simp only [hb, if_neg, ite_false]
      rw [ih (chSet ch start (List.replicate el 0)) (start + el) (by omega)]
      exact chLookup_chSet_ne ch start o (List.replicate el 0) (by omega)

/-- Keys written by `fillLoop` stay inside the sector when the element size
divides the sector size and the start is element-aligned within the sector. -/
theorem chLookup_fillLoop_ge (fuel : Nat) (ch : Changes) (base s el o : Nat)
    (hbase : base % SECTOR_SIZE = FIRST_SECTOR_OFFSET)
    (hel : el ∣ SECTOR_SIZE) (hel0 : 0 < el) (hs : s % el = 0)
    (hsle : s ≤ SECTOR_SIZE) (ho : base + SECTOR_SIZE ≤ o) :
    chLookup (fillLoop ch (base + s) el fuel) o = chLookup ch o := by
  induction fuel generalizing ch s with
  | zero => simp [fillLoop]
  | succ fuel ih =>
    simp only [fillLoop]
    by_cases hb : (base + s) % SECTOR_SIZE = FIRST_SECTOR_OFFSET
    · simp [hb]
    · simp only [hb, if_neg, ite_false]
      have hslt : s < SECTOR_SIZE := by
        rcases Nat.lt_or_ge s SECTOR_SIZE with h | h
        · exact h
        · exfalso
          have hse : s = SECTOR_SIZE := by omega
          subst hse
          rw [Nat.add_mod_right] at hb
          exact hb hbase
      have hnext : s + el ≤ SECTOR_SIZE := by
        rcases hel with ⟨c, hc⟩
        rcases Nat.dvd_of_mod_eq_zero hs with ⟨d, hd⟩
        have hmul : el * d < el * c := by rw [← hd, ← hc]; exact hslt
        have hdc : d < c := Nat.lt_of_mul_lt_mul_left hmul
        have hdc1 : d + 1 ≤ c := hdc
        have e1 : el * (d + 1) ≤ el * c := mul_le_mul_left' hdc1 el
        have e2 : el * (d + 1) = s + el := by rw [hd]; ring
        linarith [e1, e2, hc.symm]
      have hrec := ih (chSet ch (base + s) (List.replicate el 0)) (s + el)
        (by rw [Nat.add_mod_right]; exact hs) hnext
      rw [show base + s + el = base + (s + el) by omega]
      rw [hrec]
      exact chLookup_chSet_ne ch (base + s) o (List.replicate el 0) (by omega)

theorem writeBytes_out (l : List Nat) (f : FileData) (o x : Nat)
    (h : x < o ∨ o + l.length ≤ x) : writeBytes f o l x = f x := by
  induction l generalizing f o with
  | nil => simp [writeBytes]
  | cons b rest ih =>
    simp only [writeBytes, List.length_cons] at *
    rw [ih _ (o + 1) (by omega)]
    simp only [writeByte]
    rw [if_neg (by omega)]

theorem readBytes_agree (n : Nat) (f1 f2 : FileData) (o : Nat)
    (h : ∀ x, o ≤ x → x < o + n → f1 x = f2 x) :
    readBytes f1 o n = readBytes f2 o n := by
  induction n generalizing o with
  | zero => simp [readBytes]
  | succ n ih =>
    simp only [readBytes]
    rw [h o (by omega) (by omega), ih (o + 1) (fun x h1 h2 => h x (by omega) (by omega))]

theorem readBytes_writeBytes_out (l : List Nat) (f : FileData) (o o2 n : Nat)
    (h : o2 + n ≤ o ∨ o + l.length ≤ o2) :
    readBytes (writeBytes f o l) o2 n = readBytes f o2 n := by
  apply readBytes_agree
  intro x h1 h2
  exact writeBytes_out l f o x (by omega)

theorem readBytes_writeBytes (l : List Nat) (f : FileData) (o : Nat) :
    readBytes (writeBytes f o l) o l.length = l := by
  induction l generalizing f o with
  | nil => simp [readBytes]
  | cons b rest ih =>
    simp only [writeBytes, List.length_cons, readBytes]
    have h1 : writeBytes (writeByte f o b) (o + 1) rest o = b := by
      rw [writeBytes_out rest _ (o + 1) o (by omega)]
      simp [writeByte]
    rw [h1, ih (writeByte f o b) (o + 1)]

theorem readBytes_zeroRange_in (f : FileData) (zo zlen o n : Nat)
    (h1 : zo ≤ o) (h2 : o + n ≤ zo + zlen) :
    readBytes (zeroRange f zo zlen) o n = List.replicate n 0 := by
  induction n generalizing o with
  | zero => simp [readBytes]
  | succ n ih =>
    simp only [readBytes, List.replicate]
    have h3 : zeroRange f zo zlen o = 0 := by
      simp only [zeroRange]
      rw [if_pos (by omega)]
    rw [h3, ih (o + 1) (by omega) (by omega)]

theorem readBytes_zeroRange_out (f : FileData) (zo zlen o n : Nat)
    (h : o + n ≤ zo ∨ zo + zlen ≤ o) :
    readBytes (zeroRange f zo zlen) o n = readBytes f o n := by
  induction n generalizing o with
  | zero => simp [readBytes]
  | succ n ih =>
    simp only [readBytes]
    have h1 : zeroRange f zo zlen o = f o := by
      simp only [zeroRange]
      have h2 : ¬(zo ≤ o ∧ o < zo + zlen) := by omega
      simp [h2]
    rw [h1, ih (o + 1) (by omega)]

/-- The shape constraints every engine call site of `allocate_sector`
satisfies: positive element size dividing the sector size, and a nonempty
element-aligned prelude of nonempty chunks that fits in the sector. -/
def sectorArgsOk (prelude : List (List Nat)) (el : Nat) : Prop :=
  0 < el ∧ el ∣ SECTOR_SIZE ∧ (prelude.map List.length).sum % el = 0 ∧
  0 < (prelude.map List.length).sum ∧ (prelude.map List.length).sum ≤ SECTOR_SIZE ∧
  ∀ v ∈ prelude, 0 < v.length

/-- The change map produced by the tail of `allocate_sector` (reset, prelude,
zero fill) on top of a change map `ch`, for a sector at `base`. -/
def allocTx (ch : Changes) (prelude : List (List Nat)) (el base : Nat) : Changes :=
  fillLoop (writePrelude (chResetSector ch base) base prelude).1
    (writePrelude (chResetSector ch base) base prelude).2 el SECTOR_SIZE

/-- Outside the allocated sector, the reset/prelude/fill tail of
`allocate_sector` does not disturb the change map. -/
theorem allocTx_lookup (ch : Changes) (prelude : List (List Nat)) (el base o : Nat)
    (hargs : sectorArgsOk prelude el) (hbase : base % SECTOR_SIZE = FIRST_SECTOR_OFFSET)
    (ho : o < base ∨ base + SECTOR_SIZE ≤ o) :
    chLookup (allocTx ch prelude el base) o = chLookup ch o := by
  obtain ⟨hel0, heldvd, hsmod, hspos, hsle, hne⟩ := hargs
  simp only [allocTx]
  rw [writePrelude_snd]
  have hfill : chLookup (fillLoop (writePrelude (chResetSector ch base) base prelude).1
      (base + (prelude.map List.length).sum) el SECTOR_SIZE) o =
      chLookup (writePrelude (chResetSector ch base) base prelude).1 o := by
    rcases ho with ho | ho
    · exact chLookup_fillLoop_lt _ _ _ _ _ (by omega)
    · exact chLookup_fillLoop_ge _ _ base _ el o hbase heldvd hel0 hsmod hsle ho
  rw [hfill]
  have hpre : chLookup (writePrelude (chResetSector ch base) base prelude).1 o =
      chLookup (chResetSector ch base) o := by
    rcases ho with ho | ho
    · exact chLookup_writePrelude_lt _ _ _ _ ho
    · exact chLookup_writePrelude_ge _ _ _ _ (by omega) hne
  rw [hpre, chLookup_resetSector]
  simp [ho]

/-- Shape of `allocate_sector` when the free list is nonempty (pop path). -/
theorem allocate_pop_eq (db : DB) (prelude : List (List Nat)) (eps el B : Nat)
    (hB : dbGetNum db FREE_LIST_OFFSET = B) (hB0 : B ≠ 0) :
    allocate_sector db prelude eps el =
      (B, { db with tx := allocTx (chSet db.tx FREE_LIST_OFFSET (leBytes 8 (dbGetNum db (B + 56)))) prelude el B }) := by
  simp only [allocate_sector, hB, dbSet, allocTx]
  simp [hB0]

/-- Shape of `allocate_sector` when the free list is empty (grow path). -/
theorem allocate_grow_eq (db : DB) (prelude : List (List Nat)) (eps el fs : Nat)
    (hfree : dbGetNum db FREE_LIST_OFFSET = 0) (hfs : dbGetNum db 0 = fs) :
    allocate_sector db prelude eps el =
      (fs, { db with file := zeroRange db.file fs SECTOR_SIZE,
                     fsz := max db.fsz (fs + SECTOR_SIZE),
                     tx := allocTx (chSet db.tx 0 (leBytes 8 (fs + SECTOR_SIZE))) prelude el fs }) := by
  simp only [allocate_sector, hfree, hfs, dbSet, allocTx]
  simp

theorem SECTOR_SIZE_val : SECTOR_SIZE = 1048576 := rfl

theorem FIRST_SECTOR_OFFSET_val : FIRST_SECTOR_OFFSET = 4096 := rfl

theorem FIRST_SLOT_OFFSET_val : FIRST_SLOT_OFFSET = 64 := rfl

theorem FREE_LIST_OFFSET_val : FREE_LIST_OFFSET = 8 := rfl

theorem VALUE_SIZE_val : VALUE_SIZE = 128 := rfl

theorem SLOT_SIZE_val : SLOT_SIZE = 32 := rfl

theorem DELMAP_ENTRY_SIZE_val : DELMAP_ENTRY_SIZE = 32 := rfl

theorem DELS_PER_DELMAP_val : DELS_PER_DELMAP = 208 := rfl

theorem SLOTS_IN_SECTOR_val : SLOTS_IN_SECTOR = 32766 := rfl

theorem HASH_LEN_val : HASH_LEN = 26 := rfl

theorem free_sector_file (db : DB) (A : Nat) : (free_sector db A).file = db.file := rfl

theorem free_sector_fsz (db : DB) (A : Nat) : (free_sector db A).fsz = db.fsz := rfl

/-- The change-map effect of `free_sector`. -/
theorem chLookup_free_sector (db : DB) (A o : Nat) :
    chLookup (free_sector db A).tx o =
      if o = FREE_LIST_OFFSET then some (leBytes 8 A)
      else if o = A + 56 then some (leBytes 8 (dbGetNum db FREE_LIST_OFFSET))
      else if o = A + 48 then some (leBytes 8 PAGE_TYPE_FREE)
      else chLookup db.tx o := by
  have h48 : dbGetNum (dbSet db (A + 48) (leBytes 8 PAGE_TYPE_FREE)) FREE_LIST_OFFSET =
      dbGetNum db FREE_LIST_OFFSET := by
    apply txGetNum_chSet_ne
    simp only [FREE_LIST_OFFSET]
    omega
  simp only [free_sector]
  rw [h48]
  simp only [dbSet]
  by_cases h1 : o = FREE_LIST_OFFSET
  · subst h1
    simp [chLookup_chSet_self]
  · rw [chLookup_chSet_ne _ _ _ _ h1]
    by_cases h2 : o = A + 56
    · subst h2
      simp [chLookup_chSet_self, h1]
    · rw [chLookup_chSet_ne _ _ _ _ h2]
      by_cases h3 : o = A + 48
      · subst h3
        simp [chLookup_chSet_self, h1, h2]
      · rw [chLookup_chSet_ne _ _ _ _ h3]
        simp [h1, h2, h3]

theorem txGet_congr (ch1 ch2 : Changes) (f1 f2 : FileData) (o len : Nat)
    (hc : chLookup ch1 o = chLookup ch2 o) (hf : readBytes f1 o len = readBytes f2 o len) :
    txGet ch1 f1 o len = txGet ch2 f2 o len := by
  simp only [txGet, hc]
  cases chLookup ch2 o <;> simp [hf]

theorem dbGetNum_of_chLookup (db : DB) (o n : Nat)
    (h : chLookup db.tx o = some (leBytes 8 n)) (h64 : n < 2 ^ 64) :
    dbGetNum db o = n := by
  simp only [dbGetNum, txGetNum, txGet, h]
  exact fromLe_leBytes 8 n h64

theorem dbGetNum_congr (db1 db2 : DB) (o : Nat)
    (hc : chLookup db1.tx o = chLookup db2.tx o) (hf : db1.file = db2.file) :
    dbGetNum db1 o = dbGetNum db2 o := by
  simp only [dbGetNum, txGetNum]
  exact congrArg fromLe (txGet_congr _ _ _ _ _ _ hc (by rw [hf]))

theorem dbSet_tx (db : DB) (o : Nat) (d : List Nat) : (dbSet db o d).tx = chSet db.tx o d := rfl

theorem dbSet_file (db : DB) (o : Nat) (d : List Nat) : (dbSet db o d).file = db.file := rfl

theorem dbSet_vm (db : DB) (o : Nat) (d : List Nat) :
    (dbSet db o d).values_mapping = db.values_mapping := rfl

theorem dbSet_dm (db : DB) (o : Nat) (d : List Nat) :
    (dbSet db o d).delmap_mapping = db.delmap_mapping := rfl

theorem dbGet_dbSet_ne (db : DB) (o o2 len : Nat) (d : List Nat) (h : o2 ≠ o) :
    dbGet (dbSet db o d) o2 len = dbGet db o2 len := by
  simp only [dbGet, dbSet_tx, dbSet_file]
  exact txGet_chSet_ne _ _ _ _ _ _ h

theorem dbGet_dbSet_self (db : DB) (o len : Nat) (d : List Nat) :
    dbGet (dbSet db o d) o len = d := by
  simp only [dbGet, dbSet_tx, dbSet_file]
  exact txGet_chSet_self _ _ _ _ _

theorem dbGetNum_dbSet_ne (db : DB) (o o2 : Nat) (d : List Nat) (h : o2 ≠ o) :
    dbGetNum (dbSet db o d) o2 = dbGetNum db o2 := by
  simp only [dbGetNum, dbSet_tx, dbSet_file]
  exact txGetNum_chSet_ne _ _ _ _ _ h

theorem dbGetNum_dbSet_self (db : DB) (o n : Nat) (h : n < 2 ^ 64) :
    dbGetNum (dbSet db o (leBytes 8 n)) o = n := by
  simp only [dbGetNum, dbSet_tx, dbSet_file]
  exact txGetNum_chSet_self _ _ _ _ h

/-- C7: the sector free list is LIFO — from every engine state, whatever the
current free-list head, freeing A then B makes the next two allocations
return B then A and restores the previous head — and from every engine state
whose free list is empty, an allocation grows the file by exactly one
sector, publishes the new file size in the header, and returns the appended
sector's offset. -/
theorem C7_free_list_lifo_and_grow :
    (∀ (db : DB) (A B : Nat) (prel1 prel2 : List (List Nat)) (eps1 el1 eps2 el2 : Nat),
      sectorArgsOk prel1 el1 → sectorArgsOk prel2 el2 →
      A % SECTOR_SIZE = FIRST_SECTOR_OFFSET → B % SECTOR_SIZE = FIRST_SECTOR_OFFSET →
      A ≠ B → A < 2 ^ 64 → B < 2 ^ 64 → dbGetNum db FREE_LIST_OFFSET < 2 ^ 64 →
      (allocate_sector (free_sector (free_sector db A) B) prel1 eps1 el1).1 = B ∧
      (allocate_sector (allocate_sector (free_sector (free_sector db A) B)
        prel1 eps1 el1).2 prel2 eps2 el2).1 = A ∧
      dbGetNum (allocate_sector (allocate_sector (free_sector (free_sector db A) B)
        prel1 eps1 el1).2 prel2 eps2 el2).2 FREE_LIST_OFFSET =
        dbGetNum db FREE_LIST_OFFSET) ∧
    (∀ (db : DB) (prel : List (List Nat)) (eps el : Nat),
      sectorArgsOk prel el →
      dbGetNum db FREE_LIST_OFFSET = 0 → dbGetNum db 0 = db.fsz →
      FIRST_SECTOR_OFFSET ≤ db.fsz → db.fsz % SECTOR_SIZE = FIRST_SECTOR_OFFSET →
      db.fsz + SECTOR_SIZE < 2 ^ 64 →
      (allocate_sector db prel eps el).1 = db.fsz ∧
      (allocate_sector db prel eps el).2.fsz = db.fsz + SECTOR_SIZE ∧
      dbGetNum (allocate_sector db prel eps el).2 0 = db.fsz + SECTOR_SIZE) := by
  constructor
  · intro db A B prel1 prel2 eps1 el1 eps2 el2 hargs1 hargs2 hA hB hAB hA64 hB64 hF64
    rw [SECTOR_SIZE_val, FIRST_SECTOR_OFFSET_val] at hA hB
    have hA4096 : 4096 ≤ A := by omega
    have hB4096 : 4096 ≤ B := by omega
    have hdist : A + SECTOR_SIZE ≤ B ∨ B + SECTOR_SIZE ≤ A := by
      rw [SECTOR_SIZE_val]
      omega
    have hA0 : A ≠ 0 := by omega
    have hB0 : B ≠ 0 := by omega
    -- facts about the state after the two frees
    set d1 : DB := free_sector db A with hd1
    set d2 : DB := free_sector d1 B with hd2
    have h1_8 : dbGetNum d1 FREE_LIST_OFFSET = A := by
      apply dbGetNum_of_chLookup _ _ _ _ hA64
      rw [hd1, chLookup_free_sector]
      simp
    have h1_8v : dbGetNum d1 8 = A := by
      have h := h1_8
      rw [FREE_LIST_OFFSET_val] at h
      exact h
    have h2_8 : dbGetNum d2 FREE_LIST_OFFSET = B := by
      apply dbGetNum_of_chLookup _ _ _ _ hB64
      rw [hd2, chLookup_free_sector]
      simp
    have h2_B56 : dbGetNum d2 (B + 56) = A := by
      apply dbGetNum_of_chLookup _ _ _ _ hA64
      rw [hd2, chLookup_free_sector]
      rw [FREE_LIST_OFFSET_val]
      have e1 : ¬(B + 56 = 8) := by omega
      simp only [e1, if_false, if_pos rfl, ite_true]
      rw [h1_8v]
    have h2_A56L : chLookup d2.tx (A + 56) =
        some (leBytes 8 (dbGetNum db FREE_LIST_OFFSET)) := by
      rw [hd2, chLookup_free_sector]
      rw [FREE_LIST_OFFSET_val]
      have e1 : ¬(A + 56 = 8) := by omega
      have e2 : ¬(A + 56 = B + 56) := by omega
      have e3 : ¬(A + 56 = B + 48) := by
        rcases hdist with h | h <;> rw [SECTOR_SIZE_val] at h <;> omega
      simp only [e1, e2, e3, if_false]
      rw [hd1, chLookup_free_sector]
      have e4 : ¬(A + 56 = A + 48) := by omega
      simp [FREE_LIST_OFFSET_val, e1, e4]
    -- first allocation pops B
    have e1 := allocate_pop_eq d2 prel1 eps1 el1 B h2_8 hB0
    rw [h2_B56] at e1
    set d3 : DB := { d2 with tx := allocTx (chSet d2.tx FREE_LIST_OFFSET (leBytes 8 A)) prel1 el1 B } with hd3
    rw [e1]
    have hd3tx : d3.tx = allocTx (chSet d2.tx FREE_LIST_OFFSET (leBytes 8 A)) prel1 el1 B := rfl
    have h3_8 : dbGetNum d3 FREE_LIST_OFFSET = A := by
      apply dbGetNum_of_chLookup _ _ _ _ hA64
      rw [hd3tx, allocTx_lookup _ _ _ _ _ hargs1 hB (by rw [FREE_LIST_OFFSET_val]; omega)]
      exact chLookup_chSet_self _ _ _
    have h3_A56 : dbGetNum d3 (A + 56) = dbGetNum db FREE_LIST_OFFSET := by
      have hout : A + 56 < B ∨ B + SECTOR_SIZE ≤ A + 56 := by
        rcases hdist with h | h <;> rw [SECTOR_SIZE_val] at h ⊢ <;> omega
      apply dbGetNum_of_chLookup _ _ _ _ hF64
      rw [hd3tx, allocTx_lookup _ _ _ _ _ hargs1 hB hout]
      rw [chLookup_chSet_ne _ _ _ _ (by rw [FREE_LIST_OFFSET_val]; omega)]
      exact h2_A56L
    -- second allocation pops A
    have e2 := allocate_pop_eq d3 prel2 eps2 el2 A h3_8 hA0
    rw [h3_A56] at e2
    set d4 : DB := { d3 with tx := allocTx (chSet d3.tx FREE_LIST_OFFSET (leBytes 8 (dbGetNum db FREE_LIST_OFFSET))) prel2 el2 A } with hd4
    rw [e2]
    have hd4tx : d4.tx = allocTx (chSet d3.tx FREE_LIST_OFFSET (leBytes 8 (dbGetNum db FREE_LIST_OFFSET))) prel2 el2 A := rfl
    have h4_8 : dbGetNum d4 FREE_LIST_OFFSET = dbGetNum db FREE_LIST_OFFSET := by
      apply dbGetNum_of_chLookup _ _ _ _ hF64
      rw [hd4tx, allocTx_lookup _ _ _ _ _ hargs2 hA (by rw [FREE_LIST_OFFSET_val]; omega)]
      exact chLookup_chSet_self _ _ _
    exact ⟨rfl, rfl, h4_8⟩
  · intro db prel eps el hargs hfree hfs hfs0 hfsal hfs64
    have e3 := allocate_grow_eq db prel eps el db.fsz hfree hfs
    rw [e3]
    refine ⟨rfl, ?_, ?_⟩
    · show max db.fsz (db.fsz + SECTOR_SIZE) = db.fsz + SECTOR_SIZE
      omega
    · apply dbGetNum_of_chLookup _ _ _ _ hfs64
      show chLookup (allocTx (chSet db.tx 0 (leBytes 8 (db.fsz + SECTOR_SIZE))) prel el db.fsz) 0 =
        some (leBytes 8 (db.fsz + SECTOR_SIZE))
      rw [allocTx_lookup _ _ _ _ _ hargs hfsal (by rw [FIRST_SECTOR_OFFSET_val] at hfs0; omega)]
      exact chLookup_chSet_self _ _ _

theorem bootScanStep_tx (db : DB) (o : Nat) : (bootScanStep db o).tx = db.tx := by
  simp only [bootScanStep]
  split
  · rfl
  · split
    · rfl
    · split <;> rfl

theorem bootScanStep_file (db : DB) (o : Nat) : (bootScanStep db o).file = db.file := by
  simp only [bootScanStep]
  split
  · rfl
  · split
    · rfl
    · split <;> rfl

theorem bootScanStep_fsz (db : DB) (o : Nat) : (bootScanStep db o).fsz = db.fsz := by
  simp only [bootScanStep]
  split
  · rfl
  · split
    · rfl
    · split <;> rfl

theorem bootScan_proj_aux (m : Nat) : ∀ (db : DB) (o s : Nat), s - o ≤ m →
    (bootScan db o s).tx = db.tx ∧ (bootScan db o s).file = db.file ∧
    (bootScan db o s).fsz = db.fsz := by
  induction m with
  | zero =>
    intro db o s hm
    rw [bootScan]
    split
    · next h => omega
    · exact ⟨rfl, rfl, rfl⟩
  | succ m ih =>
    intro db o s hm
    rw [bootScan]
    split
    · next h =>
      have hS : 1 ≤ SECTOR_SIZE := by rw [SECTOR_SIZE_val]; omega
      have hle : s - (o + SECTOR_SIZE) ≤ m := by omega
      refine ⟨?_, ?_, ?_⟩
      · exact ((ih _ _ _ hle).1).trans (bootScanStep_tx db o)
      · exact ((ih _ _ _ hle).2.1).trans (bootScanStep_file db o)
      · exact ((ih _ _ _ hle).2.2).trans (bootScanStep_fsz db o)
    · exact ⟨rfl, rfl, rfl⟩

theorem bootScan_tx (db : DB) (o s : Nat) : (bootScan db o s).tx = db.tx :=
  (bootScan_proj_aux (s - o) db o s (Nat.le_refl _)).1

theorem bootScan_file (db : DB) (o s : Nat) : (bootScan db o s).file = db.file :=
  (bootScan_proj_aux (s - o) db o s (Nat.le_refl _)).2.1

theorem bootScan_fsz (db : DB) (o s : Nat) : (bootScan db o s).fsz = db.fsz :=
  (bootScan_proj_aux (s - o) db o s (Nat.le_refl _)).2.2

/-- Witness: C7 applied at concrete engine states — the LIFO part at a state
whose free list already holds sector 2101248 (a nonempty prior list), the
growth part at a state with an empty free list. -/
theorem C7_witness :
    (allocate_sector (free_sector (free_sector (dbSet dbW 8 (leBytes 8 2101248)) 4096)
      1052672) prelW 128 128).1 = 1052672 ∧
    (allocate_sector dbW prelW 128 128).1 = dbW.fsz :=
  ⟨(C7_free_list_lifo_and_grow.1 (dbSet dbW 8 (leBytes 8 2101248)) 4096 1052672 prelW prelW
      128 128 128 128
      ⟨by decide, by decide, by decide, by decide, by decide, by decide⟩
      ⟨by decide, by decide, by decide, by decide, by decide, by decide⟩
      (by decide) (by decide) (by decide) (by decide) (by decide) (by decide)).1,
   (C7_free_list_lifo_and_grow.2 dbW prelW 128 128
      ⟨by decide, by decide, by decide, by decide, by decide, by decide⟩
      (by decide) (by decide) (by decide) (by decide) (by decide)).1⟩

/-- C8 counterexample: the WAL `walW` rewrites offset 100 first with one
byte and then with two, and is truncated before the trailing magic.  The
parse-only model indeed reports a truncated read, but the faithful model of
`TableTransaction::set` aborts on its length assertion at the second entry,
before the truncation is ever reached: the engine does not open at all,
while opening with no WAL succeeds — the failure is not silent. -/
theorem C8_counterexample :
    maybe_replay_log [] walW = none ∧
    maybe_replay_log_checked [] walW = none ∧
    openDBChecked fileW 4096 (some walW) = none ∧
    ∃ d, openDBChecked fileW 4096 none = some d := by
  refine ⟨by decide, by decide, ?_, ⟨_, rfl⟩⟩
  simp only [openDBChecked]
  rw [show maybe_replay_log_checked [] walW = none from by decide]

/-- C8 (amended): when WAL replay fails by a truncated read or a wrong
trailing magic and no parsed entry rewrites an already-parsed offset with
data of a different length, the failure is silent — the partially parsed
changes are discarded, the engine opens with an empty transaction buffer,
and its state equals that of opening the same data file with no WAL.  Over
all truncated WALs the claim is false: `TableTransaction::set` asserts that
a rewritten offset keeps its length, so a WAL rewriting one offset at two
lengths aborts the process instead of opening silently. -/
theorem C8_wal_failure_silent (f : FileData) (fsz : Nat) (wal : List Nat)
    (h : maybe_replay_log_checked [] wal = some none) :
    openDBChecked f fsz (some wal) = some (openDB f fsz none) ∧
      (openDB f fsz none).tx = [] := by
  constructor
  · simp only [openDBChecked, h, openDB]
  · simp only [openDB]
    exact (bootScan_tx _ _ _).trans rfl

/-- Witness: C8 applied at a concrete truncated WAL (an empty batch with the
trailing magic missing) over a concrete file. -/
theorem C8_witness :
    openDBChecked fileW 4096 (some (leBytes 8 0)) = some (openDB fileW 4096 none) ∧
      (openDB fileW 4096 none).tx = [] :=
  C8_wal_failure_silent fileW 4096 (leBytes 8 0) (by decide)

/-! ### C3: WAL serialization round-trips and replay equals flush -/

/-- Well-formed transaction buffer: strictly ascending offsets (the
`BTreeMap` invariant) with u64-representable offsets, lengths and count. -/
def ChWf (ch : Changes) : Prop :=
  List.Pairwise (fun a b => a.1 < b.1) ch ∧
  (∀ p ∈ ch, p.1 < 2 ^ 64 ∧ p.2.length < 2 ^ 64) ∧ ch.length < 2 ^ 64

theorem readExact_append (l tail : List Nat) (n : Nat) (h : l.length = n) :
    readExact (l ++ tail) n = some (l, tail) := by
  subst h
  simp only [readExact, List.length_append]
  rw [if_neg (by omega)]
  rw [List.take_left, List.drop_left]

theorem readExact_exact (l : List Nat) (n : Nat) (h : l.length = n) :
    readExact l n = some (l, []) := by
  have := readExact_append l [] n h
  rwa [List.append_nil] at this

theorem replayEntries_round (ch : Changes) : ∀ (acc : Changes) (tail : List Nat),
    (∀ p ∈ ch, p.1 < 2 ^ 64 ∧ p.2.length < 2 ^ 64) →
    replayEntries acc
      ((ch.map (fun p => leBytes 8 p.1 ++ (leBytes 8 p.2.length ++ p.2))).flatten ++ tail)
      ch.length =
    some (ch.foldl (fun acc p => chSet acc p.1 p.2) acc, tail) := by
  induction ch with
  | nil =>
    intro acc tail _
    simp [replayEntries]
  | cons p rest ih =>
    intro acc tail h
    obtain ⟨o, d⟩ := p
    have hb := h (o, d) (List.mem_cons_self _ _)
    simp only [List.map_cons, List.flatten_cons, List.length_cons]
    rw [replayEntries]
    simp only [List.append_assoc, readExact_append _ _ 8 (leBytes_length 8 o),
      readExact_append _ _ 8 (leBytes_length 8 d.length),
      fromLe_leBytes 8 o hb.1, fromLe_leBytes 8 d.length hb.2,
      readExact_append d _ d.length rfl, List.foldl_cons]
    exact ih (chSet acc o d) tail (fun q hq => h q (List.mem_cons_of_mem _ hq))

theorem chSet_append_last (acc : Changes) (o : Nat) (d : List Nat)
    (h : ∀ p ∈ acc, p.1 < o) : chSet acc o d = acc ++ [(o, d)] := by
  induction acc with
  | nil => simp [chSet]
  | cons q rest ih =>
    obtain ⟨k, v⟩ := q
    have hk := h (k, v) (List.mem_cons_self _ _)
    simp only [chSet]
    rw [if_neg (by omega), if_neg (by omega)]
    simp only [List.cons_append, List.cons.injEq, true_and]
    exact ih (fun p hp => h p (List.mem_cons_of_mem _ hp))

theorem foldl_chSet_sorted : ∀ (ch acc : Changes),
    (∀ p ∈ acc, ∀ q ∈ ch, p.1 < q.1) →
    List.Pairwise (fun a b => a.1 < b.1) ch →
    ch.foldl (fun acc p => chSet acc p.1 p.2) acc = acc ++ ch := by
  intro ch
  induction ch with
  | nil => intro acc _ _; simp
  | cons p rest ih =>
    intro acc hlt hpw
    obtain ⟨o, d⟩ := p
    simp only [List.foldl_cons]
    rw [chSet_append_last acc o d (fun q hq => hlt q hq (o, d) (List.mem_cons_self _ _))]
    rw [ih (acc ++ [(o, d)]) ?_ (List.Pairwise.sublist (List.sublist_cons_self _ _) hpw)]
    · simp
    · intro q hq r hr
      rcases List.mem_append.1 hq with hq | hq
      · exact hlt q hq r (List.mem_cons_of_mem _ hr)
      · simp at hq
        rcases List.rel_of_pairwise_cons hpw hr with h2
        rw [hq]
        exact h2

/-- Parsing the serialized transaction reproduces it exactly. -/
theorem maybe_replay_log_round (ch : Changes) (hwf : ChWf ch) :
    maybe_replay_log [] (serializeChanges ch) = some ch := by
  obtain ⟨hpw, hb, hn⟩ := hwf
  simp only [maybe_replay_log, serializeChanges, List.append_assoc,
    readExact_append _ _ 8 (leBytes_length 8 ch.length),
    fromLe_leBytes 8 ch.length hn,
    replayEntries_round ch [] (leBytes 8 WAL_MAGIC) hb,
    readExact_exact _ 8 (leBytes_length 8 WAL_MAGIC),
    fromLe_leBytes 8 WAL_MAGIC (by decide), if_pos rfl,
    foldl_chSet_sorted ch [] (by simp) hpw]
  simp

/-- C3: after serializing the pending transaction to the WAL, opening a new
engine on the same data file with that WAL yields exactly the state — and
hence the same `get` results — as opening the data file produced by
`flush_changes`. -/
theorem C3_wal_replay_equals_flush (db : DB)
    (hsz : ¬db.fsz < FIRST_SECTOR_OFFSET + SECTOR_SIZE) (hwf : ChWf db.tx) :
    openDB db.file db.fsz (some (serializeChanges db.tx)) =
      openDB (flush db).file (flush db).fsz none ∧
    ∀ h fuel, getH (openDB db.file db.fsz (some (serializeChanges db.tx))) h fuel =
      getH (openDB (flush db).file (flush db).fsz none) h fuel := by
  have he : openDB db.file db.fsz (some (serializeChanges db.tx)) =
      openDB (flush db).file (flush db).fsz none := by
    simp only [openDB, flush, initFile, if_neg hsz, maybe_replay_log_round db.tx hwf]
  exact ⟨he, fun h fuel => by rw [he]⟩

/-- Witness: C3 at a concrete one-change transaction. -/
theorem C3_witness :
    openDB dbW3.file dbW3.fsz (some (serializeChanges dbW3.tx)) =
      openDB (flush dbW3).file (flush dbW3).fsz none :=
  (C3_wal_replay_equals_flush dbW3 (by decide)
    ⟨by decide, by decide, by decide⟩).1

/-! ### C9: the hash-index lookup is total -/

theorem hashLt_zero (n : Nat) : ∀ (h : List Nat), h.length = n →
    hashLt h (List.replicate n 0) = false := by
  induction n with
  | zero =>
    intro h hl
    rw [List.length_eq_zero] at hl
    subst hl
    rfl
  | succ n ih =>
    intro h hl
    cases h with
    | nil => simp at hl
    | cons a as =>
      simp only [List.length_cons, Nat.succ.injEq] at hl
      simp [List.replicate, hashLt, ih as hl]

theorem floorHash_zero_cons (v : Nat) (rest : List (List Nat × Nat)) (hash : List Nat)
    (hlen : hash.length = 26) :
    ∃ p, floorHash ((List.replicate 26 0, v) :: rest) hash = some p := by
  simp only [floorHash]
  rw [hashLt_zero 26 hash hlen]
  cases floorHash rest hash <;> simp

theorem seekLoop_term (db : DB) (hash : List Nat) (so : Nat) :
    ∀ (j start fuel : Nat), start < SLOTS_IN_SECTOR → j + 1 ≤ fuel →
    (extract_value (dbGet db
        (so + (start + j) % SLOTS_IN_SECTOR * SLOT_SIZE + FIRST_SLOT_OFFSET) SLOT_SIZE) =
        NO_VALUE ∨
      (dbGet db (so + (start + j) % SLOTS_IN_SECTOR * SLOT_SIZE + FIRST_SLOT_OFFSET)
        SLOT_SIZE).take HASH_LEN = hash) →
    ∃ r, seekLoop db hash so start fuel = some r := by
  intro j
  induction j with
  | zero =>
    intro start fuel hs hf hstop
    match fuel, hf with
    | fuel + 1, _ =>
      rw [Nat.add_zero, Nat.mod_eq_of_lt hs] at hstop
      simp only [seekLoop]
      rw [if_pos hstop]
      exact ⟨_, rfl⟩
  | succ j ih =>
    intro start fuel hs hf hstop
    match fuel, hf with
    | fuel + 1, _ =>
      simp only [seekLoop]
      by_cases hc : extract_value (dbGet db (so + start * SLOT_SIZE + FIRST_SLOT_OFFSET)
          SLOT_SIZE) = NO_VALUE ∨
          (dbGet db (so + start * SLOT_SIZE + FIRST_SLOT_OFFSET) SLOT_SIZE).take HASH_LEN = hash
      · rw [if_pos hc]
        exact ⟨_, rfl⟩
      · rw [if_neg hc]
        by_cases hw : SLOTS_IN_SECTOR ≤ start + 1
        · have hse : start + 1 = SLOTS_IN_SECTOR := by omega
          rw [if_pos hw]
          apply ih 0 fuel (by rw [SLOTS_IN_SECTOR_val]; omega) (by omega)
          have e : (0 + j) % SLOTS_IN_SECTOR = (start + (j + 1)) % SLOTS_IN_SECTOR := by
            rw [Nat.zero_add, show start + (j + 1) = SLOTS_IN_SECTOR + j by omega,
              Nat.add_comm SLOTS_IN_SECTOR j, Nat.add_mod_right]
          rw [e]
          exact hstop
        · rw [if_neg hw]
          apply ih (start + 1) fuel (by omega) (by omega)
          rw [show start + 1 + j = start + (j + 1) by omega]
          exact hstop

/-- C9: `seek` is total.  (1) A fresh boot scan leaves `ht_mapping` holding
exactly the zero-keyed initial sector, (2) floor-lookup succeeds for every
26-byte hash whenever the directory starts with the zero hash, and (3) the
linear probe returns within `SLOTS_IN_SECTOR` steps whenever some slot of the
probed cycle is empty or carries the sought hash. -/
theorem C9_seek_total :
    (∀ (f : FileData) (fsz : Nat), fsz < FIRST_SECTOR_OFFSET + SECTOR_SIZE →
      (openDB f fsz none).ht_mapping = [(List.replicate 26 0, FIRST_SECTOR_OFFSET)]) ∧
    (∀ (v : Nat) (rest : List (List Nat × Nat)) (hash : List Nat), hash.length = 26 →
      ∃ p, floorHash ((List.replicate 26 0, v) :: rest) hash = some p) ∧
    (∀ (db : DB) (hash : List Nat) (k : List Nat) (so : Nat),
      floorHash db.ht_mapping hash = some (k, so) →
      (∃ j, j < SLOTS_IN_SECTOR ∧
        (extract_value (dbGet db
            (so + (get_slot hash + j) % SLOTS_IN_SECTOR * SLOT_SIZE + FIRST_SLOT_OFFSET)
            SLOT_SIZE) = NO_VALUE ∨
          (dbGet db (so + (get_slot hash + j) % SLOTS_IN_SECTOR * SLOT_SIZE + FIRST_SLOT_OFFSET)
            SLOT_SIZE).take HASH_LEN = hash)) →
      ∃ r, seek db hash SLOTS_IN_SECTOR = some r) := by
  refine ⟨?_, ?_, ?_⟩
  · intro f fsz hsmall
    simp only [openDB, initFile, if_pos hsmall]
    generalize hF : writeBytes (writeBytes (writeBytes (writeBytes
        (zeroRange f 0 (FIRST_SECTOR_OFFSET + SECTOR_SIZE)) 0
        (leBytes 8 (FIRST_SECTOR_OFFSET + SECTOR_SIZE)))
        NEXT_VALUE_PHYSICAL_OFFSET (leBytes 8 FIRST_SECTOR_OFFSET))
        NEXT_DELMAP_PHYSICAL_OFFSET (leBytes 8 FIRST_SECTOR_OFFSET))
        (FIRST_SECTOR_OFFSET + 48) (leBytes 8 PAGE_TYPE_HT) = F
    have hnum : ∀ dbr : DB, dbr.tx = [] → dbr.file = F →
        dbGetNum dbr 0 = FIRST_SECTOR_OFFSET + SECTOR_SIZE := by
      intro dbr h1 h2
      simp only [dbGetNum, txGetNum, txGet, h1, h2, chLookup]
      rw [← hF]
      rw [readBytes_writeBytes_out _ _ _ 0 8 (by decide)]
      rw [readBytes_writeBytes_out _ _ _ 0 8 (by decide)]
      rw [readBytes_writeBytes_out _ _ _ 0 8 (by decide)]
      have e := readBytes_writeBytes (leBytes 8 (FIRST_SECTOR_OFFSET + SECTOR_SIZE))
        (zeroRange f 0 (FIRST_SECTOR_OFFSET + SECTOR_SIZE)) 0
      rw [leBytes_length] at e
      rw [e]
      exact fromLe_leBytes 8 _ (by decide)
    have hpt : ∀ dbr : DB, dbr.tx = [] → dbr.file = F →
        dbGetNum dbr (FIRST_SECTOR_OFFSET + 48) = PAGE_TYPE_HT := by
      intro dbr h1 h2
      simp only [dbGetNum, txGetNum, txGet, h1, h2, chLookup]
      rw [← hF]
      have e := readBytes_writeBytes (leBytes 8 PAGE_TYPE_HT)
        (writeBytes (writeBytes (writeBytes
          (zeroRange f 0 (FIRST_SECTOR_OFFSET + SECTOR_SIZE)) 0
          (leBytes 8 (FIRST_SECTOR_OFFSET + SECTOR_SIZE)))
          NEXT_VALUE_PHYSICAL_OFFSET (leBytes 8 FIRST_SECTOR_OFFSET))
          NEXT_DELMAP_PHYSICAL_OFFSET (leBytes 8 FIRST_SECTOR_OFFSET))
        (FIRST_SECTOR_OFFSET + 48)
      rw [leBytes_length] at e
      rw [e]
      exact fromLe_leBytes 8 _ (by decide)
    have hkey : ∀ dbr : DB, dbr.tx = [] → dbr.file = F →
        dbGet dbr FIRST_SECTOR_OFFSET 26 = List.replicate 26 0 := by
      intro dbr h1 h2
      simp only [dbGet, txGet, h1, h2, chLookup]
      rw [← hF]
      rw [readBytes_writeBytes_out _ _ _ FIRST_SECTOR_OFFSET 26 (by decide)]
      rw [readBytes_writeBytes_out _ _ _ FIRST_SECTOR_OFFSET 26 (by decide)]
      rw [readBytes_writeBytes_out _ _ _ FIRST_SECTOR_OFFSET 26 (by decide)]
      rw [readBytes_writeBytes_out _ _ _ FIRST_SECTOR_OFFSET 26 (by decide)]
      exact readBytes_zeroRange_in f 0 (FIRST_SECTOR_OFFSET + SECTOR_SIZE)
        FIRST_SECTOR_OFFSET 26 (by decide) (by decide)
    rw [hnum _ rfl rfl]
    rw [bootScan, dif_pos (show FIRST_SECTOR_OFFSET < FIRST_SECTOR_OFFSET + SECTOR_SIZE
      by decide)]
    rw [bootScan, dif_neg (show ¬(FIRST_SECTOR_OFFSET + SECTOR_SIZE <
      FIRST_SECTOR_OFFSET + SECTOR_SIZE) by omega)]
    simp only [bootScanStep]
    rw [hpt _ rfl rfl]
    rw [if_pos rfl]
    rw [hkey _ rfl rfl]
    rfl
  · intro v rest hash hlen
    exact floorHash_zero_cons v rest hash hlen
  · intro db hash k so hfloor hstop
    obtain ⟨j, hj, hstop⟩ := hstop
    simp only [seek, hfloor]
    apply seekLoop_term db hash so j (get_slot hash) SLOTS_IN_SECTOR
    · exact Nat.mod_lt _ (by rw [SLOTS_IN_SECTOR_val]; omega)
    · omega
    · exact hstop

/-- Witness: C9 at a concrete state with the zero-keyed sector and an
all-zero file. -/
theorem C9_witness : ∃ r, seek dbW9 (List.replicate 26 1) SLOTS_IN_SECTOR = some r :=
  C9_seek_total.2.2 dbW9 (List.replicate 26 1) (List.replicate 26 0) 4096 (by decide)
    ⟨0, by decide, Or.inl (by decide)⟩

/-! ### C5: the compaction loop never relocates the last remaining record -/

/-- C5: when the record at `first_logical` spans the entire remaining live
log, the compaction loop of `delete_at_offset` stops before any
`move_one_value`, zeroing the deletion balance and leaving the rest of the
state untouched. -/
theorem C5_last_record_not_moved (db : DB) (sl sp L first next fuel : Nat)
    (hbal : 0 < db.del_balance)
    (hfirst : dbGetNum db FIRST_VALUE_LOGICAL_OFFSET = first)
    (hnext : dbGetNum db NEXT_VALUE_LOGICAL_OFFSET = next)
    (hfloor : floorNat db.values_mapping first = some (sl, sp))
    (hrem : fromLe (((dbGet db (sp + first - sl) VALUE_SIZE).drop HASH_LEN).take 8) = L)
    (hspan : next = first + (L + VALUE_SIZE - 1) / VALUE_SIZE * VALUE_SIZE)
    (hL : 0 < L) :
    compactLoop db (fuel + 1) = some { db with del_balance := 0 } := by
  have harith : sub64 (sub64 next first) L < VALUE_SIZE := by
    rw [VALUE_SIZE_val] at *
    have h1 : sub64 (first + (L + 128 - 1) / 128 * 128) first =
        (L + 128 - 1) / 128 * 128 := by
      rw [sub64, if_pos (by omega)]
      omega
    rw [hspan, h1, sub64, if_pos (by omega)]
    omega
  simp only [compactLoop]
  rw [if_neg (by omega)]
  rw [hfirst, hnext]
  simp only [get_value, hfloor]
  rw [hrem]
  rw [if_pos harith]

/-- Witness: C5 at a concrete single-record state. -/
theorem C5_witness : compactLoop dbW5 1 = some { dbW5 with del_balance := 0 } :=
  C5_last_record_not_moved dbW5 0 4224 34 0 128 0 (by decide) (by decide) (by decide)
    (by decide) (by decide) (by decide) (by decide)

/-! ### The append invariant: ladder directories and slot positions -/

theorem floorNat_ladder_lt (step : Nat) (bs : List Nat) :
    ∀ (j0 t : Nat), t < step * j0 → floorNat (ladder step bs j0) t = none := by
  induction bs with
  | nil => intro j0 t _; rfl
  | cons b rest ih =>
    intro j0 t ht
    simp only [ladder, floorNat]
    rw [if_pos ht]

theorem floorNat_ladder (step : Nat) (hstep : 0 < step) (bs : List Nat) :
    ∀ (j0 t : Nat), step * j0 ≤ t → t < step * (j0 + bs.length) →
    floorNat (ladder step bs j0) t =
      some (step * (t / step), bs.getD (t / step - j0) 0) := by
  induction bs with
  | nil =>
    intro j0 t h1 h2
    simp only [List.length_nil, Nat.add_zero] at h2
    exact absurd (Nat.lt_of_le_of_lt h1 h2) (Nat.lt_irrefl _)
  | cons b rest ih =>
    intro j0 t h1 h2
    simp only [ladder, floorNat]
    rw [if_neg (by omega)]
    by_cases hc : t < step * (j0 + 1)
    · rw [floorNat_ladder_lt step rest (j0 + 1) t hc]
      have hdiv : t / step = j0 :=
        Nat.div_eq_of_lt_le (by rw [Nat.mul_comm]; exact h1) (by rw [Nat.mul_comm]; exact hc)
      rw [hdiv, Nat.sub_self, List.getD_cons_zero]
    · push_neg at hc
      have h2' : t < step * ((j0 + 1) + rest.length) := by
        rw [show (j0 + 1) + rest.length = j0 + (rest.length + 1) by omega]
        simpa using h2
      rw [ih (j0 + 1) t hc h2']
      have hge : j0 + 1 ≤ t / step := (Nat.le_div_iff_mul_le hstep).2 (by
        rw [Nat.mul_comm] at hc; exact hc)
      have hs : t / step - j0 = (t / step - (j0 + 1)) + 1 := by omega
      rw [hs, List.getD_cons_succ]

theorem insertNat_ladder (step : Nat) (hstep : 0 < step) (bs : List Nat) :
    ∀ (j0 v : Nat), insertNat (ladder step bs j0) (step * (j0 + bs.length)) v =
      ladder step (bs ++ [v]) j0 := by
  induction bs with
  | nil => intro j0 v; simp [ladder, insertNat]
  | cons b rest ih =>
    intro j0 v
    simp only [ladder, insertNat, List.cons_append, List.length_cons]
    have hlt : step * j0 < step * (j0 + (rest.length + 1)) := by
      have h1 : step * (j0 + (rest.length + 1)) = step * j0 + step * (rest.length + 1) :=
        Nat.left_distrib step _ _
      have h2 : 0 < step * (rest.length + 1) := Nat.mul_pos hstep (Nat.succ_pos _)
      omega
    rw [if_neg (by omega), if_neg (by omega)]
    rw [show j0 + (rest.length + 1) = (j0 + 1) + rest.length by omega]
    rw [ih (j0 + 1) v]
    rfl

theorem slotPos_strict_mono (vb : List Nat)
    (hmono : ∀ j1 j2, j1 < j2 → j2 < vb.length → vb.getD j1 0 + SECTOR_SIZE ≤ vb.getD j2 0)
    (i1 i2 : Nat) (h12 : i1 < i2) (h2 : i2 < 8191 * vb.length) :
    slotPos vb i1 < slotPos vb i2 := by
  simp only [slotPos]
  by_cases hq : i1 / 8191 = i2 / 8191
  · rw [hq]
    have hr : i1 % 8191 < i2 % 8191 := by omega
    simp only [VALUE_SIZE]
    omega
  · have hle : i1 / 8191 ≤ i2 / 8191 := Nat.div_le_div_right (Nat.le_of_lt h12)
    have hqlt : i1 / 8191 < i2 / 8191 := by omega
    have hlen : i2 / 8191 < vb.length := by omega
    have hm := hmono _ _ hqlt hlen
    have hb1 : i1 % 8191 ≤ 8190 := by omega
    simp only [VALUE_SIZE, SECTOR_SIZE] at *
    omega

theorem delPos_strict_mono (dbas : List Nat)
    (hmono : ∀ k1 k2, k1 < k2 → k2 < dbas.length →
      dbas.getD k1 0 + SECTOR_SIZE ≤ dbas.getD k2 0)
    (e1 e2 : Nat) (h12 : e1 < e2) (h2 : e2 < 32766 * dbas.length) :
    delPos dbas e1 < delPos dbas e2 := by
  simp only [delPos]
  by_cases hq : e1 / 32766 = e2 / 32766
  · rw [hq]
    have hr : e1 % 32766 < e2 % 32766 := by omega
    simp only [DELMAP_ENTRY_SIZE]
    omega
  · have hle : e1 / 32766 ≤ e2 / 32766 := Nat.div_le_div_right (Nat.le_of_lt h12)
    have hqlt : e1 / 32766 < e2 / 32766 := by omega
    have hlen : e2 / 32766 < dbas.length := by omega
    have hm := hmono _ _ hqlt hlen
    have hb1 : e1 % 32766 ≤ 32765 := by omega
    simp only [DELMAP_ENTRY_SIZE, SECTOR_SIZE] at *
    omega

theorem slotPos_range (vb : List Nat) (fsz : Nat)
    (hgeom : ∀ j, j < vb.length →
      vb.getD j 0 % SECTOR_SIZE = FIRST_SECTOR_OFFSET + VALUE_SIZE ∧
      FIRST_SECTOR_OFFSET + SECTOR_SIZE + VALUE_SIZE ≤ vb.getD j 0 ∧
      vb.getD j 0 + (SECTOR_SIZE - VALUE_SIZE) ≤ fsz)
    (i : Nat) (hi : i < 8191 * vb.length) :
    vb.getD (i / 8191) 0 ≤ slotPos vb i ∧
    slotPos vb i + VALUE_SIZE ≤ vb.getD (i / 8191) 0 + (SECTOR_SIZE - VALUE_SIZE) ∧
    FIRST_SECTOR_OFFSET + SECTOR_SIZE + VALUE_SIZE ≤ slotPos vb i ∧
    slotPos vb i + VALUE_SIZE ≤ fsz := by
  have hj : i / 8191 < vb.length := by omega
  have hg := hgeom _ hj
  have hr : i % 8191 ≤ 8190 := by omega
  simp only [slotPos, VALUE_SIZE, SECTOR_SIZE, FIRST_SECTOR_OFFSET] at *
  omega

theorem delPos_range (dbas : List Nat) (fsz : Nat)
    (hgeom : ∀ k, k < dbas.length →
      dbas.getD k 0 % SECTOR_SIZE = FIRST_SECTOR_OFFSET + FIRST_SLOT_OFFSET ∧
      FIRST_SECTOR_OFFSET + SECTOR_SIZE + FIRST_SLOT_OFFSET ≤ dbas.getD k 0 ∧
      dbas.getD k 0 + (SECTOR_SIZE - FIRST_SLOT_OFFSET) ≤ fsz)
    (e : Nat) (he : e < 32766 * dbas.length) :
    dbas.getD (e / 32766) 0 ≤ delPos dbas e ∧
    delPos dbas e + DELMAP_ENTRY_SIZE ≤ dbas.getD (e / 32766) 0 + (SECTOR_SIZE - FIRST_SLOT_OFFSET) ∧
    FIRST_SECTOR_OFFSET + SECTOR_SIZE + FIRST_SLOT_OFFSET ≤ delPos dbas e ∧
    delPos dbas e + DELMAP_ENTRY_SIZE ≤ fsz := by
  have hk : e / 32766 < dbas.length := by omega
  have hg := hgeom _ hk
  have hr : e % 32766 ≤ 32765 := by omega
  simp only [delPos, DELMAP_ENTRY_SIZE, SECTOR_SIZE, FIRST_SECTOR_OFFSET, FIRST_SLOT_OFFSET] at *
  omega

theorem slotPos_ne_delPos (vb dbas : List Nat) (fszv fszd : Nat)
    (hvgeom : ∀ j, j < vb.length →
      vb.getD j 0 % SECTOR_SIZE = FIRST_SECTOR_OFFSET + VALUE_SIZE ∧
      FIRST_SECTOR_OFFSET + SECTOR_SIZE + VALUE_SIZE ≤ vb.getD j 0 ∧
      vb.getD j 0 + (SECTOR_SIZE - VALUE_SIZE) ≤ fszv)
    (hdgeom : ∀ k, k < dbas.length →
      dbas.getD k 0 % SECTOR_SIZE = FIRST_SECTOR_OFFSET + FIRST_SLOT_OFFSET ∧
      FIRST_SECTOR_OFFSET + SECTOR_SIZE + FIRST_SLOT_OFFSET ≤ dbas.getD k 0 ∧
      dbas.getD k 0 + (SECTOR_SIZE - FIRST_SLOT_OFFSET) ≤ fszd)
    (hcross : ∀ j k, j < vb.length → k < dbas.length →
      vb.getD j 0 - VALUE_SIZE + SECTOR_SIZE ≤ dbas.getD k 0 - FIRST_SLOT_OFFSET ∨
      dbas.getD k 0 - FIRST_SLOT_OFFSET + SECTOR_SIZE ≤ vb.getD j 0 - VALUE_SIZE)
    (i e : Nat) (hi : i < 8191 * vb.length) (he : e < 32766 * dbas.length) :
    slotPos vb i ≠ delPos dbas e := by
  have hj : i / 8191 < vb.length := by omega
  have hk : e / 32766 < dbas.length := by omega
  have h1 := hvgeom _ hj
  have h2 := hdgeom _ hk
  have h3 := hcross _ _ hj hk
  have hri : i % 8191 ≤ 8190 := by omega
  have hre : e % 32766 ≤ 32765 := by omega
  simp only [slotPos, delPos, VALUE_SIZE, SECTOR_SIZE, FIRST_SECTOR_OFFSET,
    FIRST_SLOT_OFFSET, DELMAP_ENTRY_SIZE] at *
  omega

theorem vpos_trigger (vb : List Nat) (n : Nat)
    (hlen : vb.length = (n + 8190) / 8191)
    (hgeom : ∀ j, j < vb.length →
      vb.getD j 0 % SECTOR_SIZE = FIRST_SECTOR_OFFSET + VALUE_SIZE) :
    (vposOf vb n % SECTOR_SIZE = FIRST_SECTOR_OFFSET ↔ n % 8191 = 0) := by
  by_cases hn : n = 0
  · subst hn
    have h0 : vposOf vb 0 = FIRST_SECTOR_OFFSET := by simp [vposOf]
    rw [h0]
    decide
  · have hj : (n - 1) / 8191 < vb.length := by omega
    have hg := hgeom _ hj
    simp only [vposOf, if_neg hn]
    rw [SECTOR_SIZE_val, FIRST_SECTOR_OFFSET_val, VALUE_SIZE_val] at *
    omega

theorem dpos_trigger (dbas : List Nat) (n : Nat) (hmod : n % 208 = 0)
    (hlen : dbas.length = ((n + 207) / 208 + 32765) / 32766)
    (hgeom : ∀ k, k < dbas.length →
      dbas.getD k 0 % SECTOR_SIZE = FIRST_SECTOR_OFFSET + FIRST_SLOT_OFFSET) :
    (dposOf dbas n % SECTOR_SIZE = FIRST_SECTOR_OFFSET ↔ ((n + 207) / 208) % 32766 = 0) := by
  by_cases hn : n = 0
  · subst hn
    have h0 : dposOf dbas 0 = FIRST_SECTOR_OFFSET := by simp [dposOf]
    rw [h0]
    decide
  · have he1 : 1 ≤ (n + 207) / 208 := by omega
    have hk : ((n + 207) / 208 - 1) / 32766 < dbas.length := by omega
    have hg := hgeom _ hk
    simp only [dposOf, if_neg hn, delPos]
    rw [SECTOR_SIZE_val, FIRST_SECTOR_OFFSET_val, FIRST_SLOT_OFFSET_val,
      DELMAP_ENTRY_SIZE_val] at *
    omega

attribute [irreducible] allocate_sector fillLoop

theorem write_value_decomp (db : DB) (data : List Nat) :
    write_value db data =
      ((wvHead db data).1,
       wvTail (wvHead db data).1 (wvHead db data).2.1 (wvHead db data).2.2) := by
  by_cases hA : dbGetNum db NEXT_VALUE_PHYSICAL_OFFSET % SECTOR_SIZE = FIRST_SECTOR_OFFSET
  · simp only [write_value, wvHead, wvTail, if_pos hA]
  · simp only [write_value, wvHead, wvTail, if_neg hA]

theorem dbSet_fsz (db : DB) (o : Nat) (d : List Nat) : (dbSet db o d).fsz = db.fsz := rfl

theorem dbSet_ht (db : DB) (o : Nat) (d : List Nat) :
    (dbSet db o d).ht_mapping = db.ht_mapping := rfl

theorem sectorArgsOk_valuePrelude (co : Nat) :
    sectorArgsOk [leBytes 8 co, List.replicate 40 0, leBytes 8 PAGE_TYPE_VALUES,
      List.replicate 8 0, List.replicate 64 0] VALUE_SIZE := by
  have hsum : (([leBytes 8 co, List.replicate 40 0, leBytes 8 PAGE_TYPE_VALUES,
      List.replicate 8 0, List.replicate 64 0].map List.length).sum) = 128 := by
    simp [leBytes_length]
  refine ⟨by decide, by decide, ?_, ?_, ?_, ?_⟩
  · rw [hsum]; decide
  · rw [hsum]; decide
  · rw [hsum]; decide
  · intro v hv
    simp only [List.mem_cons, List.not_mem_nil, or_false] at hv
    rcases hv with h | h | h | h | h <;> subst h <;> simp [leBytes_length]

theorem sectorArgsOk_delmapPrelude (co : Nat) :
    sectorArgsOk [leBytes 8 co, List.replicate 40 0, leBytes 8 PAGE_TYPE_DELMAP,
      List.replicate 8 0] DELMAP_ENTRY_SIZE := by
  have hsum : (([leBytes 8 co, List.replicate 40 0, leBytes 8 PAGE_TYPE_DELMAP,
      List.replicate 8 0].map List.length).sum) = 64 := by
    simp [leBytes_length]
  refine ⟨by decide, by decide, ?_, ?_, ?_, ?_⟩
  · rw [hsum]; decide
  · rw [hsum]; decide
  · rw [hsum]; decide
  · intro v hv
    simp only [List.mem_cons, List.not_mem_nil, or_false] at hv
    rcases hv with h | h | h | h <;> subst h <;> simp [leBytes_length]

/-- Value-side step: under the append invariant, the first half of
`write_value` returns the expected logical offset and delmap cursor and
establishes the intermediate invariant, extending the value-sector list
exactly when the append count crosses a sector boundary. -/
theorem wvHead_step (db : DB) (ds : List (List Nat)) (vb dbas : List Nat) (data : List Nat)
    (hinv : InvP db ds vb dbas) (hn : ds.length + 1 ≤ 2 ^ 40) :
    ∃ vb2 db2,
      wvHead db data = (VALUE_SIZE * ds.length, (dposOf dbas ds.length, db2)) ∧
      MidInv db2 (ds ++ [data]) vb2 dbas := by
  obtain ⟨hvlen, hdlen, h0, h8, h16, h24, h32, h48, hfsz, hvgeom, hvmono, hdgeom, hdmono,
    hcross, hvm, hht, htx, hfile, hslots⟩ := hinv
  have hL1 : vb.length ≤ 2 ^ 40 := by omega
  have hL2 : dbas.length ≤ 2 ^ 40 := by omega
  have hflow1 : 4096 + 1048576 ≤ db.fsz := by
    rw [hfsz, SECTOR_SIZE_val, FIRST_SECTOR_OFFSET_val]; omega
  have hflow2 : db.fsz < 2 ^ 62 := by
    rw [hfsz, SECTOR_SIZE_val, FIRST_SECTOR_OFFSET_val]; omega
  have hbase : db.fsz % SECTOR_SIZE = FIRST_SECTOR_OFFSET := by
    rw [hfsz, SECTOR_SIZE_val, FIRST_SECTOR_OFFSET_val]; omega
  have hlen2 : (ds ++ [data]).length = ds.length + 1 := by simp
  have hv64 : VALUE_SIZE * ds.length + VALUE_SIZE < 2 ^ 64 := by
    rw [VALUE_SIZE_val]; omega
  by_cases hA0 : ds.length % 8191 = 0
  · -- a fresh value sector is allocated
    have htrig : vposOf vb ds.length % SECTOR_SIZE = FIRST_SECTOR_OFFSET :=
      (vpos_trigger vb ds.length hvlen (fun j hj => (hvgeom j hj).1)).2 hA0
    rcases hE0 : wvHead db data with ⟨co, nd, db2⟩
    have hE := hE0
    simp only [wvHead, h16, h32, h48, if_pos htrig] at hE
    have hfree1 : dbGetNum (dbSet db NEXT_VALUE_LOGICAL_OFFSET
        (leBytes 8 (VALUE_SIZE * ds.length + VALUE_SIZE))) FREE_LIST_OFFSET = 0 := by
      rw [dbGetNum_dbSet_ne _ _ _ _ (by decide)]; exact h8
    have hfs1 : dbGetNum (dbSet db NEXT_VALUE_LOGICAL_OFFSET
        (leBytes 8 (VALUE_SIZE * ds.length + VALUE_SIZE))) 0 = db.fsz := by
      rw [dbGetNum_dbSet_ne _ _ _ _ (by decide)]; exact h0
    rw [allocate_grow_eq _ _ VALUE_SIZE VALUE_SIZE db.fsz hfree1 hfs1] at hE
    simp only [dbSet_tx, dbSet_file, dbSet_fsz, dbSet_vm, dbSet_dm, dbSet_ht,
      Prod.mk.injEq] at hE
    obtain ⟨hco, hnd, hdb2⟩ := hE
    have hTX2 : db2.tx = chSet (chSet (allocTx (chSet (chSet db.tx NEXT_VALUE_LOGICAL_OFFSET
        (leBytes 8 (VALUE_SIZE * ds.length + VALUE_SIZE))) 0 (leBytes 8 (db.fsz + SECTOR_SIZE)))
        [leBytes 8 (VALUE_SIZE * ds.length), List.replicate 40 0, leBytes 8 PAGE_TYPE_VALUES,
         List.replicate 8 0, List.replicate 64 0] VALUE_SIZE db.fsz)
        (db.fsz + VALUE_SIZE) data) NEXT_VALUE_PHYSICAL_OFFSET
        (leBytes 8 (db.fsz + VALUE_SIZE + VALUE_SIZE)) := by
      rw [← hdb2]
      rfl
    have hFILE2 : db2.file = zeroRange db.file db.fsz SECTOR_SIZE := by
      rw [← hdb2]
      rfl
    have hFSZ2 : db2.fsz = db.fsz + SECTOR_SIZE := by
      rw [← hdb2]
      exact Nat.max_eq_right (by omega)
    have hVM2 : db2.values_mapping =
        insertNat db.values_mapping (VALUE_SIZE * ds.length) (db.fsz + VALUE_SIZE) := by
      rw [← hdb2]
      rfl
    have hHT2 : db2.ht_mapping = db.ht_mapping := by
      rw [← hdb2]
      rfl
    have hargsV := sectorArgsOk_valuePrelude (VALUE_SIZE * ds.length)
    have hlook : ∀ o, o < db.fsz → o ≠ 0 → o ≠ NEXT_VALUE_LOGICAL_OFFSET →
        o ≠ NEXT_VALUE_PHYSICAL_OFFSET → chLookup db2.tx o = chLookup db.tx o := by
      intro o ho ho0 ho16 ho32
      rw [hTX2, chLookup_chSet_ne _ _ _ _ ho32,
        chLookup_chSet_ne _ _ _ _ (by omega : o ≠ db.fsz + VALUE_SIZE),
        allocTx_lookup _ _ _ _ _ hargsV hbase (Or.inl ho),
        chLookup_chSet_ne _ _ _ _ ho0, chLookup_chSet_ne _ _ _ _ ho16]
    have hread : ∀ o len, o + len ≤ db.fsz →
        readBytes db2.file o len = readBytes db.file o len := by
      intro o len h
      rw [hFILE2]
      exact readBytes_zeroRange_out _ _ _ _ _ (Or.inl h)
    have hnum : ∀ o, o + 8 ≤ db.fsz → o ≠ 0 → o ≠ NEXT_VALUE_LOGICAL_OFFSET →
        o ≠ NEXT_VALUE_PHYSICAL_OFFSET → dbGetNum db2 o = dbGetNum db o := by
      intro o h ho0 ho16 ho32
      simp only [dbGetNum, txGetNum]
      exact congrArg fromLe
        (txGet_congr _ _ _ _ _ _ (hlook o (by omega) ho0 ho16 ho32) (hread o 8 h))
    have hl0 : chLookup db2.tx 0 = some (leBytes 8 (db.fsz + SECTOR_SIZE)) := by
      rw [hTX2, chLookup_chSet_ne _ _ _ _ (by decide),
        chLookup_chSet_ne _ _ _ _ (by omega : (0 : Nat) ≠ db.fsz + VALUE_SIZE),
        allocTx_lookup _ _ _ _ _ hargsV hbase (Or.inl (by omega)),
        chLookup_chSet_self]
    have h0_2 : dbGetNum db2 0 = db.fsz + SECTOR_SIZE :=
      dbGetNum_of_chLookup db2 0 _ hl0 (by rw [SECTOR_SIZE_val]; omega)
    have hl16 : chLookup db2.tx NEXT_VALUE_LOGICAL_OFFSET =
        some (leBytes 8 (VALUE_SIZE * ds.length + VALUE_SIZE)) := by
      rw [hTX2, chLookup_chSet_ne _ _ _ _ (by decide),
        chLookup_chSet_ne _ _ _ _ (by rw [NEXT_VALUE_LOGICAL_OFFSET]; omega),
        allocTx_lookup _ _ _ _ _ hargsV hbase
          (Or.inl (by rw [NEXT_VALUE_LOGICAL_OFFSET]; omega)),
        chLookup_chSet_ne _ _ _ _ (by decide), chLookup_chSet_self]
    have h16_2 : dbGetNum db2 NEXT_VALUE_LOGICAL_OFFSET = VALUE_SIZE * ds.length + VALUE_SIZE :=
      dbGetNum_of_chLookup db2 _ _ hl16 hv64
    have hl32 : chLookup db2.tx NEXT_VALUE_PHYSICAL_OFFSET =
        some (leBytes 8 (db.fsz + VALUE_SIZE + VALUE_SIZE)) := by
      rw [hTX2, chLookup_chSet_self]
    have h32_2 : dbGetNum db2 NEXT_VALUE_PHYSICAL_OFFSET = db.fsz + VALUE_SIZE + VALUE_SIZE :=
      dbGetNum_of_chLookup db2 _ _ hl32 (by rw [VALUE_SIZE_val]; omega)
    have hself : chLookup db2.tx (db.fsz + VALUE_SIZE) = some data := by
      rw [hTX2, chLookup_chSet_ne _ _ _ _ (by rw [NEXT_VALUE_PHYSICAL_OFFSET]; omega),
        chLookup_chSet_self]
    have hvpos2 : vposOf (vb ++ [db.fsz + VALUE_SIZE]) (ds.length + 1) =
        db.fsz + VALUE_SIZE + VALUE_SIZE := by
      have e1 : (ds.length + 1 - 1) / 8191 = vb.length := by omega
      have e2 : (ds.length + 1 - 1) % 8191 = 0 := by omega
      simp only [vposOf, if_neg (Nat.succ_ne_zero ds.length)]
      rw [e1, e2, List.getD_append_right _ _ _ _ (Nat.le_refl _), Nat.sub_self,
        List.getD_cons_zero, Nat.mul_zero, Nat.add_zero]
    refine ⟨vb ++ [db.fsz + VALUE_SIZE], db2, ?_, ?_⟩
    · rw [← hco, ← hnd]
    · refine ⟨?_, ?_, ?_, ?_, ?_, ?_, ?_, ?_, ?_, ?_, ?_, ?_, ?_, ?_, ?_, ?_, ?_, ?_, ?_⟩
      · simp only [List.length_append, List.length_cons, List.length_nil]
        omega
      · simp only [List.length_append, List.length_cons, List.length_nil]
        omega
      · rw [h0_2, hFSZ2]
      · rw [hnum FREE_LIST_OFFSET (by rw [FREE_LIST_OFFSET]; omega) (by decide) (by decide)
          (by decide)]
        exact h8
      · rw [h16_2, hlen2, VALUE_SIZE_val]
        omega
      · rw [hnum FIRST_VALUE_LOGICAL_OFFSET (by rw [FIRST_VALUE_LOGICAL_OFFSET]; omega)
          (by decide) (by decide) (by decide)]
        exact h24
      · rw [h32_2, hlen2, hvpos2]
      · rw [hnum NEXT_DELMAP_PHYSICAL_OFFSET (by rw [NEXT_DELMAP_PHYSICAL_OFFSET]; omega)
          (by decide) (by decide) (by decide), hlen2]
        simp only [Nat.add_sub_cancel]
        exact h48
      · rw [hFSZ2, hfsz]
        simp only [List.length_append, List.length_cons, List.length_nil]
        rw [SECTOR_SIZE_val, FIRST_SECTOR_OFFSET_val]
        omega
      · intro j hj
        simp only [List.length_append, List.length_cons, List.length_nil] at hj
        by_cases hjl : j < vb.length
        · rw [List.getD_append _ _ _ _ hjl]
          obtain ⟨g1, g2, g3⟩ := hvgeom j hjl
          refine ⟨g1, g2, ?_⟩
          rw [hFSZ2]
          omega
        · have hje : j = vb.length := by omega
          subst hje
          rw [List.getD_append_right _ _ _ _ (Nat.le_refl _), Nat.sub_self, List.getD_cons_zero]
          have hbaseL : db.fsz % 1048576 = 4096 := hbase
          have hFSZ2L : db2.fsz = db.fsz + 1048576 := hFSZ2
          refine ⟨?_, ?_, ?_⟩
          · show (db.fsz + 128) % 1048576 = 4096 + 128
            omega
          · show 4096 + 1048576 + 128 ≤ db.fsz + 128
            omega
          · show db.fsz + 128 + (1048576 - 128) ≤ db2.fsz
            omega
      · intro j1 j2 h12 hj2
        simp only [List.length_append, List.length_cons, List.length_nil] at hj2
        by_cases hj2l : j2 < vb.length
        · rw [List.getD_append _ _ _ _ (by omega), List.getD_append _ _ _ _ hj2l]
          exact hvmono j1 j2 h12 hj2l
        · have hje : j2 = vb.length := by omega
          subst hje
          rw [List.getD_append _ _ _ _ (by omega),
            List.getD_append_right _ _ _ _ (Nat.le_refl _), Nat.sub_self, List.getD_cons_zero]
          have hg := (hvgeom j1 (by omega)).2.2
          rw [SECTOR_SIZE_val, VALUE_SIZE_val] at hg ⊢
          omega
      · intro k hk
        obtain ⟨g1, g2, g3⟩ := hdgeom k hk
        refine ⟨g1, g2, ?_⟩
        rw [hFSZ2]
        omega
      · exact hdmono
      · intro j k hj hk
        simp only [List.length_append, List.length_cons, List.length_nil] at hj
        by_cases hjl : j < vb.length
        · rw [List.getD_append _ _ _ _ hjl]
          exact hcross j k hjl hk
        · have hje : j = vb.length := by omega
          subst hje
          rw [List.getD_append_right _ _ _ _ (Nat.le_refl _), Nat.sub_self, List.getD_cons_zero]
          right
          have hg : dbas.getD k 0 + (1048576 - 64) ≤ db.fsz := (hdgeom k hk).2.2
          have hg2 : 4096 + 1048576 + 64 ≤ dbas.getD k 0 := (hdgeom k hk).2.1
          show dbas.getD k 0 - 64 + 1048576 ≤ db.fsz + 128 - 128
          omega
      · rw [hVM2, hvm]
        have hkey : VALUE_SIZE * ds.length = 8191 * VALUE_SIZE * (0 + vb.length) := by
          rw [VALUE_SIZE_val]
          omega
        rw [hkey]
        exact insertNat_ladder (8191 * VALUE_SIZE) (by decide) vb 0 (db.fsz + VALUE_SIZE)
      · rw [hHT2]
        exact hht
      · intro o ho1 ho2
        have ho1a : 64 ≤ o := ho1
        have ho2a : o < 1052672 := ho2
        rw [hlook o (by omega) (by omega) (by rw [NEXT_VALUE_LOGICAL_OFFSET]; omega)
          (by rw [NEXT_VALUE_PHYSICAL_OFFSET]; omega)]
        exact htx o ho1 ho2
      · intro o ho1 ho2 ho3
        have ho2a : o < 1052672 := ho2
        rw [hFILE2]
        simp only [zeroRange]
        rw [if_neg (by omega)]
        exact hfile o ho1 ho2 ho3
      · intro i hi
        rw [hlen2] at hi
        by_cases hin : i < ds.length
        · have hidx : i / 8191 < vb.length := by omega
          have hpos : slotPos (vb ++ [db.fsz + VALUE_SIZE]) i = slotPos vb i := by
            simp only [slotPos]
            rw [List.getD_append _ _ _ _ hidx]
          rw [hpos]
          have hrange := slotPos_range vb db.fsz hvgeom i (by omega)
          have hr1 : 4096 + 1048576 + 128 ≤ slotPos vb i := hrange.2.2.1
          have hr2 : slotPos vb i + 128 ≤ db.fsz := hrange.2.2.2
          rw [List.getD_append _ _ _ _ hin]
          rw [hlook (slotPos vb i) (by omega) (by omega)
            (by rw [NEXT_VALUE_LOGICAL_OFFSET]; omega)
            (by rw [NEXT_VALUE_PHYSICAL_OFFSET]; omega)]
          exact hslots i hin
        · have hie : i = ds.length := by omega
          subst hie
          have hpos : slotPos (vb ++ [db.fsz + VALUE_SIZE]) ds.length =
              db.fsz + VALUE_SIZE := by
            simp only [slotPos]
            have e1 : ds.length / 8191 = vb.length := by omega
            rw [e1, hA0, List.getD_append_right _ _ _ _ (Nat.le_refl _), Nat.sub_self,
              List.getD_cons_zero, Nat.mul_zero, Nat.add_zero]
          rw [hpos, hself, List.getD_append_right _ _ _ _ (Nat.le_refl _), Nat.sub_self,
            List.getD_cons_zero]
  · -- the current value sector has room
    have htrig : ¬(vposOf vb ds.length % SECTOR_SIZE = FIRST_SECTOR_OFFSET) := fun h =>
      hA0 ((vpos_trigger vb ds.length hvlen (fun j hj => (hvgeom j hj).1)).1 h)
    have hn0 : ds.length ≠ 0 := fun h => hA0 (by rw [h])
    rcases hE0 : wvHead db data with ⟨co, nd, db2⟩
    have hE := hE0
    simp only [wvHead, h16, h32, h48, if_neg htrig, Prod.mk.injEq] at hE
    obtain ⟨hco, hnd, hdb2⟩ := hE
    have hposeq : vposOf vb ds.length = slotPos vb ds.length := by
      simp only [vposOf, slotPos, if_neg hn0]
      have e1 : (ds.length - 1) / 8191 = ds.length / 8191 := by omega
      rw [e1, VALUE_SIZE_val]
      omega
    rw [hposeq] at hdb2
    have hTX2 : db2.tx = chSet (chSet (chSet db.tx NEXT_VALUE_LOGICAL_OFFSET
        (leBytes 8 (VALUE_SIZE * ds.length + VALUE_SIZE))) (slotPos vb ds.length) data)
        NEXT_VALUE_PHYSICAL_OFFSET (leBytes 8 (slotPos vb ds.length + VALUE_SIZE)) := by
      rw [← hdb2]
      rfl
    have hFILE2 : db2.file = db.file := by
      rw [← hdb2]
      rfl
    have hFSZ2 : db2.fsz = db.fsz := by
      rw [← hdb2]
      rfl
    have hVM2 : db2.values_mapping = db.values_mapping := by
      rw [← hdb2]
      rfl
    have hHT2 : db2.ht_mapping = db.ht_mapping := by
      rw [← hdb2]
      rfl
    have hidx : ds.length / 8191 < vb.length := by omega
    have hrange := slotPos_range vb db.fsz hvgeom ds.length (by omega)
    have hr1 : 4096 + 1048576 + 128 ≤ slotPos vb ds.length := hrange.2.2.1
    have hr2 : slotPos vb ds.length + 128 ≤ db.fsz := hrange.2.2.2
    have hlook : ∀ o, o ≠ NEXT_VALUE_LOGICAL_OFFSET → o ≠ NEXT_VALUE_PHYSICAL_OFFSET →
        o ≠ slotPos vb ds.length → chLookup db2.tx o = chLookup db.tx o := by
      intro o h1 h2 h3
      rw [hTX2, chLookup_chSet_ne _ _ _ _ h2, chLookup_chSet_ne _ _ _ _ h3,
        chLookup_chSet_ne _ _ _ _ h1]
    have hnum : ∀ o, o ≠ NEXT_VALUE_LOGICAL_OFFSET → o ≠ NEXT_VALUE_PHYSICAL_OFFSET →
        o ≠ slotPos vb ds.length → dbGetNum db2 o = dbGetNum db o := by
      intro o h1 h2 h3
      simp only [dbGetNum, txGetNum]
      exact congrArg fromLe (txGet_congr _ _ _ _ _ _ (hlook o h1 h2 h3) (by rw [hFILE2]))
    have hl16 : chLookup db2.tx NEXT_VALUE_LOGICAL_OFFSET =
        some (leBytes 8 (VALUE_SIZE * ds.length + VALUE_SIZE)) := by
      rw [hTX2, chLookup_chSet_ne _ _ _ _ (by decide),
        chLookup_chSet_ne _ _ _ _ (by rw [NEXT_VALUE_LOGICAL_OFFSET]; omega),
        chLookup_chSet_self]
    have hl32 : chLookup db2.tx NEXT_VALUE_PHYSICAL_OFFSET =
        some (leBytes 8 (slotPos vb ds.length + VALUE_SIZE)) := by
      rw [hTX2, chLookup_chSet_self]
    have hself : chLookup db2.tx (slotPos vb ds.length) = some data := by
      rw [hTX2, chLookup_chSet_ne _ _ _ _ (by rw [NEXT_VALUE_PHYSICAL_OFFSET]; omega),
        chLookup_chSet_self]
    have hvpos2 : vposOf vb (ds.length + 1) = slotPos vb ds.length + VALUE_SIZE := by
      simp only [vposOf, if_neg (Nat.succ_ne_zero ds.length), slotPos, Nat.add_sub_cancel]
    refine ⟨vb, db2, ?_, ?_⟩
    · rw [← hco, ← hnd]
    · refine ⟨?_, ?_, ?_, ?_, ?_, ?_, ?_, ?_, ?_, ?_, ?_, ?_, ?_, ?_, ?_, ?_, ?_, ?_, ?_⟩
      · rw [hlen2]
        omega
      · rw [hlen2]
        simp only [Nat.add_sub_cancel]
        exact hdlen
      · rw [hnum 0 (by decide) (by decide) (by omega), hFSZ2]
        exact h0
      · rw [hnum FREE_LIST_OFFSET (by decide) (by decide) (by rw [FREE_LIST_OFFSET]; omega)]
        exact h8
      · rw [dbGetNum_of_chLookup db2 NEXT_VALUE_LOGICAL_OFFSET _ hl16 hv64, hlen2,
          VALUE_SIZE_val]
        omega
      · rw [hnum FIRST_VALUE_LOGICAL_OFFSET (by decide) (by decide)
          (by rw [FIRST_VALUE_LOGICAL_OFFSET]; omega)]
        exact h24
      · rw [dbGetNum_of_chLookup db2 NEXT_VALUE_PHYSICAL_OFFSET _ hl32
          (by rw [VALUE_SIZE_val]; omega), hlen2, hvpos2]
      · rw [hnum NEXT_DELMAP_PHYSICAL_OFFSET (by decide) (by decide)
          (by rw [NEXT_DELMAP_PHYSICAL_OFFSET]; omega), hlen2]
        simp only [Nat.add_sub_cancel]
        exact h48
      · rw [hFSZ2]
        exact hfsz
      · intro j hj
        obtain ⟨g1, g2, g3⟩ := hvgeom j hj
        refine ⟨g1, g2, ?_⟩
        rw [hFSZ2]
        exact g3
      · exact hvmono
      · intro k hk
        obtain ⟨g1, g2, g3⟩ := hdgeom k hk
        refine ⟨g1, g2, ?_⟩
        rw [hFSZ2]
        exact g3
      · exact hdmono
      · exact hcross
      · rw [hVM2]
        exact hvm
      · rw [hHT2]
        exact hht
      · intro o ho1 ho2
        have ho1a : 64 ≤ o := ho1
        have ho2a : o < 1052672 := ho2
        rw [hlook o (by rw [NEXT_VALUE_LOGICAL_OFFSET]; omega)
          (by rw [NEXT_VALUE_PHYSICAL_OFFSET]; omega) (by omega)]
        exact htx o ho1 ho2
      · intro o ho1 ho2 ho3
        rw [hFILE2]
        exact hfile o ho1 ho2 ho3
      · intro i hi
        rw [hlen2] at hi
        by_cases hin : i < ds.length
        · have hlt := slotPos_strict_mono vb hvmono i ds.length hin (by omega)
          have hri := slotPos_range vb db.fsz hvgeom i (by omega)
          have hri1 : 4096 + 1048576 + 128 ≤ slotPos vb i := hri.2.2.1
          rw [List.getD_append _ _ _ _ hin]
          rw [hlook (slotPos vb i) (by rw [NEXT_VALUE_LOGICAL_OFFSET]; omega)
            (by rw [NEXT_VALUE_PHYSICAL_OFFSET]; omega) (by omega)]
          exact hslots i hin
        · have hie : i = ds.length := by omega
          subst hie
          rw [hself, List.getD_append_right _ _ _ _ (Nat.le_refl _), Nat.sub_self,
            List.getD_cons_zero]

/-- Delmap-side step: under the intermediate invariant, the second half of
`write_value` restores the append invariant, opening a delmap sector exactly
when the entry count crosses a sector boundary. -/
theorem wvTail_step (db : DB) (ds : List (List Nat)) (vb dbas : List Nat) (co nd : Nat)
    (hmid : MidInv db ds vb dbas) (hds : 1 ≤ ds.length) (hn : ds.length ≤ 2 ^ 40)
    (hcoe : co = VALUE_SIZE * (ds.length - 1)) (hnde : nd = dposOf dbas (ds.length - 1)) :
    ∃ dbas2, InvP (wvTail co nd db) ds vb dbas2 := by
  obtain ⟨hvlen, hdlen, h0, h8, h16, h24, h32, h48, hfsz, hvgeom, hvmono, hdgeom, hdmono,
    hcross, hvm, hht, htx, hfile, hslots⟩ := hmid
  subst hcoe
  subst hnde
  have hL1 : vb.length ≤ 2 ^ 41 := by omega
  have hL2 : dbas.length ≤ 2 ^ 41 := by omega
  have hflow1 : 4096 + 1048576 ≤ db.fsz := by
    rw [hfsz, SECTOR_SIZE_val, FIRST_SECTOR_OFFSET_val]; omega
  have hflow2 : db.fsz < 2 ^ 62 := by
    rw [hfsz, SECTOR_SIZE_val, FIRST_SECTOR_OFFSET_val]; omega
  have hbase : db.fsz % SECTOR_SIZE = FIRST_SECTOR_OFFSET := by
    rw [hfsz, SECTOR_SIZE_val, FIRST_SECTOR_OFFSET_val]; omega
  have hown : VALUE_SIZE * (ds.length - 1) / VALUE_SIZE % DELS_PER_DELMAP =
      (ds.length - 1) % 208 := by
    rw [VALUE_SIZE_val, DELS_PER_DELMAP_val]
    omega
  by_cases hB : (ds.length - 1) % 208 = 0
  · -- the slot starts a new delmap entry
    have hoe : VALUE_SIZE * (ds.length - 1) / VALUE_SIZE % DELS_PER_DELMAP = 0 := by
      rw [hown]; exact hB
    have htrigiff := dpos_trigger dbas (ds.length - 1) hB hdlen
      (fun k hk => (hdgeom k hk).1)
    by_cases hC : ((ds.length - 1 + 207) / 208) % 32766 = 0
    · -- a fresh delmap sector is allocated
      have htd : dposOf dbas (ds.length - 1) % SECTOR_SIZE = FIRST_SECTOR_OFFSET :=
        htrigiff.2 hC
      obtain ⟨db2, hW⟩ : ∃ db2,
          wvTail (VALUE_SIZE * (ds.length - 1)) (dposOf dbas (ds.length - 1)) db = db2 :=
        ⟨_, rfl⟩
      have hE := hW
      simp only [wvTail, if_pos hoe, if_pos htd] at hE
      rw [allocate_grow_eq db _ FIRST_SLOT_OFFSET DELMAP_ENTRY_SIZE db.fsz h8 h0] at hE
      simp only [Nat.add_sub_cancel, dbSet_tx, dbSet_file, dbSet_fsz, dbSet_vm, dbSet_dm,
        dbSet_ht] at hE
      obtain ⟨w, hTX2⟩ : ∃ w, db2.tx = chSet (chSet (allocTx (chSet db.tx 0
          (leBytes 8 (db.fsz + SECTOR_SIZE)))
          [leBytes 8 (VALUE_SIZE * (ds.length - 1)), List.replicate 40 0,
           leBytes 8 PAGE_TYPE_DELMAP, List.replicate 8 0] DELMAP_ENTRY_SIZE db.fsz)
          NEXT_DELMAP_PHYSICAL_OFFSET
          (leBytes 8 (db.fsz + FIRST_SLOT_OFFSET + DELMAP_ENTRY_SIZE)))
          (db.fsz + FIRST_SLOT_OFFSET) w := ⟨_, by rw [← hE]; rfl⟩
      have hFILE2 : db2.file = zeroRange db.file db.fsz SECTOR_SIZE := by
        rw [← hE]
        rfl
      have hFSZ2 : db2.fsz = db.fsz + SECTOR_SIZE := by
        rw [← hE]
        exact Nat.max_eq_right (by omega)
      have hVM2 : db2.values_mapping = db.values_mapping := by
        rw [← hE]
        rfl
      have hHT2 : db2.ht_mapping = db.ht_mapping := by
        rw [← hE]
        rfl
      have hargsD := sectorArgsOk_delmapPrelude (VALUE_SIZE * (ds.length - 1))
      have hlook : ∀ o, o < db.fsz → o ≠ 0 → o ≠ NEXT_DELMAP_PHYSICAL_OFFSET →
          chLookup db2.tx o = chLookup db.tx o := by
        intro o ho ho0 ho48
        rw [hTX2, chLookup_chSet_ne _ _ _ _ (by omega : o ≠ db.fsz + FIRST_SLOT_OFFSET),
          chLookup_chSet_ne _ _ _ _ ho48,
          allocTx_lookup _ _ _ _ _ hargsD hbase (Or.inl ho),
          chLookup_chSet_ne _ _ _ _ ho0]
      have hread : ∀ o len, o + len ≤ db.fsz →
          readBytes db2.file o len = readBytes db.file o len := by
        intro o len h
        rw [hFILE2]
        exact readBytes_zeroRange_out _ _ _ _ _ (Or.inl h)
      have hnum : ∀ o, o + 8 ≤ db.fsz → o ≠ 0 → o ≠ NEXT_DELMAP_PHYSICAL_OFFSET →
          dbGetNum db2 o = dbGetNum db o := by
        intro o h ho0 ho48
        simp only [dbGetNum, txGetNum]
        exact congrArg fromLe
          (txGet_congr _ _ _ _ _ _ (hlook o (by omega) ho0 ho48) (hread o 8 h))
      have hl0 : chLookup db2.tx 0 = some (leBytes 8 (db.fsz + SECTOR_SIZE)) := by
        rw [hTX2, chLookup_chSet_ne _ _ _ _ (by omega : (0 : Nat) ≠ db.fsz + FIRST_SLOT_OFFSET),
          chLookup_chSet_ne _ _ _ _ (by decide),
          allocTx_lookup _ _ _ _ _ hargsD hbase (Or.inl (by omega)),
          chLookup_chSet_self]
      have h0_2 : dbGetNum db2 0 = db.fsz + SECTOR_SIZE :=
        dbGetNum_of_chLookup db2 0 _ hl0 (by rw [SECTOR_SIZE_val]; omega)
      have hl48 : chLookup db2.tx NEXT_DELMAP_PHYSICAL_OFFSET =
          some (leBytes 8 (db.fsz + FIRST_SLOT_OFFSET + DELMAP_ENTRY_SIZE)) := by
        rw [hTX2, chLookup_chSet_ne _ _ _ _
          (by rw [NEXT_DELMAP_PHYSICAL_OFFSET]; omega), chLookup_chSet_self]
      have h48_2 : dbGetNum db2 NEXT_DELMAP_PHYSICAL_OFFSET =
          db.fsz + FIRST_SLOT_OFFSET + DELMAP_ENTRY_SIZE :=
        dbGetNum_of_chLookup db2 _ _ hl48
          (by rw [FIRST_SLOT_OFFSET_val, DELMAP_ENTRY_SIZE_val]; omega)
      have hdpos2 : dposOf (dbas ++ [db.fsz + FIRST_SLOT_OFFSET]) ds.length =
          db.fsz + FIRST_SLOT_OFFSET + DELMAP_ENTRY_SIZE := by
        have hq : (ds.length - 1 + 207) / 208 / 32766 = dbas.length := by omega
        have he2 : (ds.length + 207) / 208 - 1 = (ds.length - 1 + 207) / 208 := by omega
        simp only [dposOf, if_neg (by omega : ¬(ds.length = 0)), delPos, he2]
        have hq2 : (ds.length - 1 + 207) / 208 % 32766 = 0 := hC
        rw [hq, hq2, List.getD_append_right _ _ _ _ (Nat.le_refl _), Nat.sub_self,
          List.getD_cons_zero, Nat.mul_zero, Nat.add_zero]
      refine ⟨dbas ++ [db.fsz + FIRST_SLOT_OFFSET], ?_⟩
      rw [hW]
      refine ⟨?_, ?_, ?_, ?_, ?_, ?_, ?_, ?_, ?_, ?_, ?_, ?_, ?_, ?_, ?_, ?_, ?_, ?_, ?_⟩
      · exact hvlen
      · simp only [List.length_append, List.length_cons, List.length_nil]
        omega
      · rw [h0_2, hFSZ2]
      · rw [hnum FREE_LIST_OFFSET (by rw [FREE_LIST_OFFSET]; omega) (by decide) (by decide)]
        exact h8
      · rw [hnum NEXT_VALUE_LOGICAL_OFFSET (by rw [NEXT_VALUE_LOGICAL_OFFSET]; omega)
          (by decide) (by decide)]
        exact h16
      · rw [hnum FIRST_VALUE_LOGICAL_OFFSET (by rw [FIRST_VALUE_LOGICAL_OFFSET]; omega)
          (by decide) (by decide)]
        exact h24
      · rw [hnum NEXT_VALUE_PHYSICAL_OFFSET (by rw [NEXT_VALUE_PHYSICAL_OFFSET]; omega)
          (by decide) (by decide)]
        exact h32
      · rw [h48_2, hdpos2]
      · rw [hFSZ2, hfsz]
        simp only [List.length_append, List.length_cons, List.length_nil]
        rw [SECTOR_SIZE_val, FIRST_SECTOR_OFFSET_val]
        omega
      · intro j hj
        obtain ⟨g1, g2, g3⟩ := hvgeom j hj
        refine ⟨g1, g2, ?_⟩
        rw [hFSZ2]
        have g3L : vb.getD j 0 + (1048576 - 128) ≤ db.fsz := g3
        show vb.getD j 0 + (1048576 - 128) ≤ db.fsz + 1048576
        omega
      · exact hvmono
      · intro k hk
        simp only [List.length_append, List.length_cons, List.length_nil] at hk
        by_cases hkl : k < dbas.length
        · rw [List.getD_append _ _ _ _ hkl]
          obtain ⟨g1, g2, g3⟩ := hdgeom k hkl
          refine ⟨g1, g2, ?_⟩
          rw [hFSZ2]
          have g3L : dbas.getD k 0 + (1048576 - 64) ≤ db.fsz := g3
          show dbas.getD k 0 + (1048576 - 64) ≤ db.fsz + 1048576
          omega
        · have hke : k = dbas.length := by omega
          subst hke
          rw [List.getD_append_right _ _ _ _ (Nat.le_refl _), Nat.sub_self, List.getD_cons_zero]
          have hbaseL : db.fsz % 1048576 = 4096 := hbase
          refine ⟨?_, ?_, ?_⟩
          · show (db.fsz + 64) % 1048576 = 4096 + 64
            omega
          · show 4096 + 1048576 + 64 ≤ db.fsz + 64
            omega
          · rw [hFSZ2]
            show db.fsz + 64 + (1048576 - 64) ≤ db.fsz + 1048576
            omega
      · intro k1 k2 h12 hk2
        simp only [List.length_append, List.length_cons, List.length_nil] at hk2
        by_cases hk2l : k2 < dbas.length
        · rw [List.getD_append _ _ _ _ (by omega), List.getD_append _ _ _ _ hk2l]
          exact hdmono k1 k2 h12 hk2l
        · have hke : k2 = dbas.length := by omega
          subst hke
          rw [List.getD_append _ _ _ _ (by omega),
            List.getD_append_right _ _ _ _ (Nat.le_refl _), Nat.sub_self, List.getD_cons_zero]
          have hg : dbas.getD k1 0 + (1048576 - 64) ≤ db.fsz := (hdgeom k1 (by omega)).2.2
          show dbas.getD k1 0 + 1048576 ≤ db.fsz + 64
          omega
      · intro j k hj hk
        simp only [List.length_append, List.length_cons, List.length_nil] at hk
        by_cases hkl : k < dbas.length
        · rw [List.getD_append _ _ _ _ hkl]
          exact hcross j k hj hkl
        · have hke : k = dbas.length := by omega
          subst hke
          rw [List.getD_append_right _ _ _ _ (Nat.le_refl _), Nat.sub_self, List.getD_cons_zero]
          left
          have hg : vb.getD j 0 + (1048576 - 128) ≤ db.fsz := (hvgeom j hj).2.2
          have hg2 : 4096 + 1048576 + 128 ≤ vb.getD j 0 := (hvgeom j hj).2.1
          show vb.getD j 0 - 128 + 1048576 ≤ db.fsz + 64 - 64
          omega
      · rw [hVM2]
        exact hvm
      · rw [hHT2]
        exact hht
      · intro o ho1 ho2
        have ho1a : 64 ≤ o := ho1
        have ho2a : o < 1052672 := ho2
        rw [hlook o (by omega) (by omega) (by rw [NEXT_DELMAP_PHYSICAL_OFFSET]; omega)]
        exact htx o ho1 ho2
      · intro o ho1 ho2 ho3
        have ho2a : o < 1052672 := ho2
        rw [hFILE2]
        simp only [zeroRange]
        rw [if_neg (by omega)]
        exact hfile o ho1 ho2 ho3
      · intro i hi
        have hri := slotPos_range vb db.fsz hvgeom i (by omega)
        have hri1 : 4096 + 1048576 + 128 ≤ slotPos vb i := hri.2.2.1
        have hri2 : slotPos vb i + 128 ≤ db.fsz := hri.2.2.2
        rw [hlook (slotPos vb i) (by omega) (by omega)
          (by rw [NEXT_DELMAP_PHYSICAL_OFFSET]; omega)]
        exact hslots i hi
    · -- the current delmap sector has room for the new entry
      have htd : ¬(dposOf dbas (ds.length - 1) % SECTOR_SIZE = FIRST_SECTOR_OFFSET) :=
        fun h => hC (htrigiff.1 h)
      have he1 : 1 ≤ (ds.length - 1 + 207) / 208 := by omega
      have hn0 : ds.length - 1 ≠ 0 := by omega
      have hstep : delPos dbas ((ds.length - 1 + 207) / 208) =
          delPos dbas ((ds.length - 1 + 207) / 208 - 1) + DELMAP_ENTRY_SIZE := by
        simp only [delPos]
        have hi : ((ds.length - 1 + 207) / 208 - 1) / 32766 =
            (ds.length - 1 + 207) / 208 / 32766 := by omega
        rw [hi, DELMAP_ENTRY_SIZE_val]
        omega
      have hPe : dposOf dbas (ds.length - 1) =
          delPos dbas ((ds.length - 1 + 207) / 208) := by
        simp only [dposOf, if_neg hn0]
        rw [hstep]
      obtain ⟨w, hW⟩ : ∃ w,
          wvTail (VALUE_SIZE * (ds.length - 1)) (dposOf dbas (ds.length - 1)) db =
          dbSet (dbSet db NEXT_DELMAP_PHYSICAL_OFFSET
            (leBytes 8 (dposOf dbas (ds.length - 1) + DELMAP_ENTRY_SIZE)))
            (dposOf dbas (ds.length - 1)) w :=
        ⟨_, by simp only [wvTail, if_pos hoe, if_neg htd, Nat.add_sub_cancel]; rfl⟩
      have heb : (ds.length - 1 + 207) / 208 < 32766 * dbas.length := by omega
      have hdr := delPos_range dbas db.fsz hdgeom _ heb
      have hdr1 : 4096 + 1048576 + 64 ≤ delPos dbas ((ds.length - 1 + 207) / 208) :=
        hdr.2.2.1
      have hdr2 : delPos dbas ((ds.length - 1 + 207) / 208) + 32 ≤ db.fsz := hdr.2.2.2
      have hdd : dposOf dbas ds.length =
          delPos dbas ((ds.length - 1 + 207) / 208) + DELMAP_ENTRY_SIZE := by
        have he2 : (ds.length + 207) / 208 - 1 = (ds.length - 1 + 207) / 208 := by omega
        simp only [dposOf, if_neg (by omega : ¬(ds.length = 0)), he2]
      refine ⟨dbas, ?_⟩
      rw [hW, hPe]
      have hlook : ∀ o, o ≠ NEXT_DELMAP_PHYSICAL_OFFSET →
          o ≠ delPos dbas ((ds.length - 1 + 207) / 208) →
          chLookup (dbSet (dbSet db NEXT_DELMAP_PHYSICAL_OFFSET
            (leBytes 8 (delPos dbas ((ds.length - 1 + 207) / 208) + DELMAP_ENTRY_SIZE)))
            (delPos dbas ((ds.length - 1 + 207) / 208)) w).tx o = chLookup db.tx o := by
        intro o h1 h2
        rw [dbSet_tx, dbSet_tx, chLookup_chSet_ne _ _ _ _ h2, chLookup_chSet_ne _ _ _ _ h1]
      have hnum : ∀ o, o ≠ NEXT_DELMAP_PHYSICAL_OFFSET →
          o ≠ delPos dbas ((ds.length - 1 + 207) / 208) →
          dbGetNum (dbSet (dbSet db NEXT_DELMAP_PHYSICAL_OFFSET
            (leBytes 8 (delPos dbas ((ds.length - 1 + 207) / 208) + DELMAP_ENTRY_SIZE)))
            (delPos dbas ((ds.length - 1 + 207) / 208)) w) o = dbGetNum db o := by
        intro o h1 h2
        simp only [dbGetNum, txGetNum]
        exact congrArg fromLe (txGet_congr _ _ _ _ _ _ (hlook o h1 h2) rfl)
      refine ⟨?_, ?_, ?_, ?_, ?_, ?_, ?_, ?_, ?_, ?_, ?_, ?_, ?_, ?_, ?_, ?_, ?_, ?_, ?_⟩
      · exact hvlen
      · omega
      · rw [hnum 0 (by decide) (by omega), dbSet_fsz, dbSet_fsz]
        exact h0
      · rw [hnum FREE_LIST_OFFSET (by decide) (by rw [FREE_LIST_OFFSET]; omega)]
        exact h8
      · rw [hnum NEXT_VALUE_LOGICAL_OFFSET (by decide)
          (by rw [NEXT_VALUE_LOGICAL_OFFSET]; omega)]
        exact h16
      · rw [hnum FIRST_VALUE_LOGICAL_OFFSET (by decide)
          (by rw [FIRST_VALUE_LOGICAL_OFFSET]; omega)]
        exact h24
      · rw [hnum NEXT_VALUE_PHYSICAL_OFFSET (by decide)
          (by rw [NEXT_VALUE_PHYSICAL_OFFSET]; omega)]
        exact h32
      · rw [hdd]
        simp only [dbGetNum, dbSet_tx, dbSet_file, txGetNum]
        rw [txGet_chSet_ne _ _ _ _ _ _
          (by rw [NEXT_DELMAP_PHYSICAL_OFFSET]; omega), txGet_chSet_self]
        exact fromLe_leBytes 8 _ (by rw [DELMAP_ENTRY_SIZE_val]; omega)
      · rw [dbSet_fsz, dbSet_fsz]
        exact hfsz
      · simp only [dbSet_fsz]
        exact hvgeom
      · exact hvmono
      · simp only [dbSet_fsz]
        exact hdgeom
      · exact hdmono
      · exact hcross
      · rw [dbSet_vm, dbSet_vm]
        exact hvm
      · rw [dbSet_ht, dbSet_ht]
        exact hht
      · intro o ho1 ho2
        have ho1a : 64 ≤ o := ho1
        have ho2a : o < 1052672 := ho2
        rw [hlook o (by rw [NEXT_DELMAP_PHYSICAL_OFFSET]; omega) (by omega)]
        exact htx o ho1 ho2
      · intro o ho1 ho2 ho3
        rw [dbSet_file, dbSet_file]
        exact hfile o ho1 ho2 ho3
      · intro i hi
        have hri := slotPos_range vb db.fsz hvgeom i (by omega)
        have hri1 : 4096 + 1048576 + 128 ≤ slotPos vb i := hri.2.2.1
        have hne2 : slotPos vb i ≠ delPos dbas ((ds.length - 1 + 207) / 208) :=
          slotPos_ne_delPos vb dbas db.fsz db.fsz hvgeom hdgeom hcross i _ (by omega) heb
        rw [hlook (slotPos vb i) (by rw [NEXT_DELMAP_PHYSICAL_OFFSET]; omega) hne2]
        exact hslots i hi
  · -- the slot extends the current delmap entry
    have hoe : ¬(VALUE_SIZE * (ds.length - 1) / VALUE_SIZE % DELS_PER_DELMAP = 0) := by
      rw [hown]; exact hB
    have hn0 : ds.length - 1 ≠ 0 := fun h => hB (by rw [h])
    have he1 : 1 ≤ (ds.length - 1 + 207) / 208 := by omega
    have hPe : dposOf dbas (ds.length - 1) - DELMAP_ENTRY_SIZE =
        delPos dbas ((ds.length - 1 + 207) / 208 - 1) := by
      simp only [dposOf, if_neg hn0, Nat.add_sub_cancel]
    obtain ⟨w, hW⟩ : ∃ w,
        wvTail (VALUE_SIZE * (ds.length - 1)) (dposOf dbas (ds.length - 1)) db =
        dbSet db (dposOf dbas (ds.length - 1) - DELMAP_ENTRY_SIZE) w :=
      ⟨_, by simp only [wvTail, if_neg hoe]; rfl⟩
    rw [hPe] at hW
    have heb : (ds.length - 1 + 207) / 208 - 1 < 32766 * dbas.length := by omega
    have hdr := delPos_range dbas db.fsz hdgeom _ heb
    have hdr1 : 4096 + 1048576 + 64 ≤ delPos dbas ((ds.length - 1 + 207) / 208 - 1) :=
      hdr.2.2.1
    have hdr2 : delPos dbas ((ds.length - 1 + 207) / 208 - 1) + 32 ≤ db.fsz := hdr.2.2.2
    have hdd : dposOf dbas ds.length = dposOf dbas (ds.length - 1) := by
      have he2 : (ds.length + 207) / 208 = (ds.length - 1 + 207) / 208 := by omega
      simp only [dposOf, if_neg (by omega : ¬(ds.length = 0)), if_neg hn0, he2]
    refine ⟨dbas, ?_⟩
    rw [hW]
    have hlook : ∀ o, o ≠ delPos dbas ((ds.length - 1 + 207) / 208 - 1) →
        chLookup (dbSet db (delPos dbas ((ds.length - 1 + 207) / 208 - 1)) w).tx o =
        chLookup db.tx o := by
      intro o h1
      rw [dbSet_tx, chLookup_chSet_ne _ _ _ _ h1]
    have hnum : ∀ o, o ≠ delPos dbas ((ds.length - 1 + 207) / 208 - 1) →
        dbGetNum (dbSet db (delPos dbas ((ds.length - 1 + 207) / 208 - 1)) w) o =
        dbGetNum db o := by
      intro o h1
      simp only [dbGetNum, txGetNum]
      exact congrArg fromLe (txGet_congr _ _ _ _ _ _ (hlook o h1) rfl)
    refine ⟨?_, ?_, ?_, ?_, ?_, ?_, ?_, ?_, ?_, ?_, ?_, ?_, ?_, ?_, ?_, ?_, ?_, ?_, ?_⟩
    · exact hvlen
    · omega
    · rw [hnum 0 (by omega), dbSet_fsz]
      exact h0
    · rw [hnum FREE_LIST_OFFSET (by rw [FREE_LIST_OFFSET]; omega)]
      exact h8
    · rw [hnum NEXT_VALUE_LOGICAL_OFFSET (by rw [NEXT_VALUE_LOGICAL_OFFSET]; omega)]
      exact h16
    · rw [hnum FIRST_VALUE_LOGICAL_OFFSET (by rw [FIRST_VALUE_LOGICAL_OFFSET]; omega)]
      exact h24
    · rw [hnum NEXT_VALUE_PHYSICAL_OFFSET (by rw [NEXT_VALUE_PHYSICAL_OFFSET]; omega)]
      exact h32
    · rw [hnum NEXT_DELMAP_PHYSICAL_OFFSET (by rw [NEXT_DELMAP_PHYSICAL_OFFSET]; omega), hdd]
      exact h48
    · rw [dbSet_fsz]
      exact hfsz
    · simp only [dbSet_fsz]
      exact hvgeom
    · exact hvmono
    · simp only [dbSet_fsz]
      exact hdgeom
    · exact hdmono
    · exact hcross
    · rw [dbSet_vm]
      exact hvm
    · rw [dbSet_ht]
      exact hht
    · intro o ho1 ho2
      have ho2a : o < 1052672 := ho2
      rw [hlook o (by omega)]
      exact htx o ho1 ho2
    · intro o ho1 ho2 ho3
      rw [dbSet_file]
      exact hfile o ho1 ho2 ho3
    · intro i hi
      have hne2 : slotPos vb i ≠ delPos dbas ((ds.length - 1 + 207) / 208 - 1) :=
        slotPos_ne_delPos vb dbas db.fsz db.fsz hvgeom hdgeom hcross i _ (by omega) heb
      rw [hlook (slotPos vb i) hne2]
      exact hslots i hi

/-- One full `write_value` step preserves the append invariant and returns
the next logical offset. -/
theorem write_value_step (db : DB) (ds : List (List Nat)) (vb dbas : List Nat)
    (data : List Nat) (hinv : InvP db ds vb dbas) (hn : ds.length + 1 ≤ 2 ^ 40) :
    ∃ vb2 dbas2, (write_value db data).1 = VALUE_SIZE * ds.length ∧
      InvP (write_value db data).2 (ds ++ [data]) vb2 dbas2 := by
  obtain ⟨vb2, db2, hW, hmid⟩ := wvHead_step db ds vb dbas data hinv hn
  have hlen2 : (ds ++ [data]).length = ds.length + 1 := by simp
  obtain ⟨dbas2, htail⟩ := wvTail_step db2 (ds ++ [data]) vb2 dbas
    (VALUE_SIZE * ds.length) (dposOf dbas ds.length) hmid (by rw [hlen2]; omega)
    (by rw [hlen2]; omega) (by rw [hlen2]; simp) (by rw [hlen2]; simp)
  refine ⟨vb2, dbas2, ?_, ?_⟩
  · rw [write_value_decomp db data, hW]
  · rw [write_value_decomp db data, hW]
    exact htail

/-- Iterating `write_value` from an invariant state returns the arithmetic
sequence of logical offsets and preserves the invariant. -/
theorem appendN_spec (more : List (List Nat)) :
    ∀ (db : DB) (ds : List (List Nat)) (vb dbas : List Nat),
    InvP db ds vb dbas → ds.length + more.length ≤ 2 ^ 40 →
    (appendN db more).1.length = more.length ∧
    (∀ i, i < more.length →
      (appendN db more).1.getD i 0 = VALUE_SIZE * (ds.length + i)) ∧
    ∃ vb2 dbas2, InvP (appendN db more).2 (ds ++ more) vb2 dbas2 := by
  induction more with
  | nil =>
    intro db ds vb dbas hinv _
    refine ⟨rfl, ?_, vb, dbas, by simpa using hinv⟩
    intro i hi
    exact absurd hi (Nat.not_lt_zero i)
  | cons d rest ih =>
    intro db ds vb dbas hinv hn
    have hn1 : ds.length + 1 ≤ 2 ^ 40 := by
      simp only [List.length_cons] at hn
      omega
    obtain ⟨vb2, dbas2, hoff, hinv2⟩ := write_value_step db ds vb dbas d hinv hn1
    have hn2 : (ds ++ [d]).length + rest.length ≤ 2 ^ 40 := by
      simp only [List.length_append, List.length_cons, List.length_nil] at hn ⊢
      omega
    obtain ⟨hlen, hget, hrest⟩ := ih (write_value db d).2 (ds ++ [d]) vb2 dbas2 hinv2 hn2
    refine ⟨?_, ?_, ?_⟩
    · simp only [appendN, List.length_cons]
      rw [hlen]
    · intro i hi
      simp only [appendN]
      cases i with
      | zero =>
        rw [List.getD_cons_zero, hoff]
        simp
      | succ i2 =>
        rw [List.getD_cons_succ, hget i2 (by simp only [List.length_cons] at hi; omega)]
        have he : (ds ++ [d]).length + i2 = ds.length + (i2 + 1) := by
          simp only [List.length_append, List.length_cons, List.length_nil]
          omega
        rw [he]
    · simp only [appendN]
      have he : ds ++ d :: rest = (ds ++ [d]) ++ rest := by simp
      rw [he]
      exact hrest

/-- The state produced by creating a fresh database: initialized file, one
zero-keyed hash sector in the directory, everything else empty. -/
theorem freshDB_eq : freshDB = freshRec := by
  have hinit : initFile (fun _ => 0) 0 = (freshFile, FIRST_SECTOR_OFFSET + SECTOR_SIZE) := by
    simp only [initFile, freshFile]
    rw [if_pos (by decide : (0 : Nat) < FIRST_SECTOR_OFFSET + SECTOR_SIZE)]
  simp only [freshDB, openDB, hinit]
  show bootScan freshRec0 FIRST_SECTOR_OFFSET (dbGetNum freshRec0 0) = freshRec
  have hnum0 : dbGetNum freshRec0 0 = FIRST_SECTOR_OFFSET + SECTOR_SIZE := by decide
  rw [hnum0]
  rw [bootScan, dif_pos (by decide : FIRST_SECTOR_OFFSET < FIRST_SECTOR_OFFSET + SECTOR_SIZE)]
  rw [bootScan, dif_neg (by omega :
    ¬(FIRST_SECTOR_OFFSET + SECTOR_SIZE < FIRST_SECTOR_OFFSET + SECTOR_SIZE))]
  simp only [bootScanStep]
  have hpt : dbGetNum freshRec0 (FIRST_SECTOR_OFFSET + 48) = PAGE_TYPE_HT := by decide
  rw [hpt, if_pos rfl]
  have hkey : dbGet freshRec0 FIRST_SECTOR_OFFSET 26 = List.replicate 26 0 := by decide
  rw [hkey]
  rfl

/-- The append invariant holds at a freshly created engine. -/
theorem freshDB_invariant : InvP freshDB [] [] [] := by
  rw [freshDB_eq]
  show InvP freshRec [] [] []
  simp only [freshRec]
  refine ⟨by decide, by decide, by decide, by decide, by decide, by decide, by decide,
    by decide, by decide, ?_, ?_, ?_, ?_, ?_, rfl, rfl, ?_, ?_, ?_⟩
  · intro j hj
    exact absurd hj (Nat.not_lt_zero j)
  · intro j1 j2 h12 hj2
    exact absurd hj2 (Nat.not_lt_zero j2)
  · intro k hk
    exact absurd hk (Nat.not_lt_zero k)
  · intro k1 k2 h12 hk2
    exact absurd hk2 (Nat.not_lt_zero k2)
  · intro j k hj hk
    exact absurd hj (Nat.not_lt_zero j)
  · intro o ho1 ho2
    rfl
  · intro o ho1 ho2 ho3
    have ho1a : 4096 ≤ o := ho1
    have ho2a : o < 1052672 := ho2
    have ho3a : ¬(4144 ≤ o ∧ o < 4152) := ho3
    show freshFile o = 0
    simp only [freshFile]
    rw [writeBytes_out _ _ _ _ (by show o < 4144 ∨ 4144 + 8 ≤ o; omega),
      writeBytes_out _ _ _ _ (by show o < 48 ∨ 48 + 8 ≤ o; omega),
      writeBytes_out _ _ _ _ (by show o < 32 ∨ 32 + 8 ≤ o; omega),
      writeBytes_out _ _ _ _ (by show o < 0 ∨ 0 + 8 ≤ o; omega)]
    simp only [zeroRange]
    rw [if_pos ⟨Nat.zero_le o, by show o < 0 + 1052672; omega⟩]
  · intro i hi
    exact absurd hi (Nat.not_lt_zero i)

/-- C6: starting from a freshly created engine, the i-th `write_value` call
(0-based) returns logical offset 128·i — offsets 0, 128, 256, … — and for
every slot written, `get_value` at its logical offset returns exactly the
written bytes. -/
theorem C6_append_offsets_and_readback (ds : List (List Nat)) (hn : ds.length ≤ 2 ^ 40) :
    (appendN freshDB ds).1.length = ds.length ∧
    (∀ i, i < ds.length → (appendN freshDB ds).1.getD i 0 = VALUE_SIZE * i) ∧
    (∀ i, i < ds.length →
      get_value (appendN freshDB ds).2 (VALUE_SIZE * i) = some (ds.getD i [])) := by
  obtain ⟨hlen, hget, vb2, dbas2, hinv⟩ :=
    appendN_spec ds freshDB [] [] [] freshDB_invariant (by simpa using hn)
  simp only [List.nil_append] at hinv
  refine ⟨hlen, ?_, ?_⟩
  · intro i hi
    rw [hget i hi]
    simp
  · intro i hi
    obtain ⟨hvlen, hdlen, h0, h8, h16, h24, h32, h48, hfsz, hvgeom, hvmono, hdgeom, hdmono,
      hcross, hvm, hht, htx, hfile, hslots⟩ := hinv
    have hfl : floorNat (appendN freshDB ds).2.values_mapping (VALUE_SIZE * i) =
        some (8191 * VALUE_SIZE * (VALUE_SIZE * i / (8191 * VALUE_SIZE)),
          vb2.getD (VALUE_SIZE * i / (8191 * VALUE_SIZE) - 0) 0) := by
      rw [hvm]
      exact floorNat_ladder (8191 * VALUE_SIZE) (by decide) vb2 0 (VALUE_SIZE * i)
        (by omega) (by rw [VALUE_SIZE_val]; omega)
    simp only [get_value, hfl]
    have haddr : vb2.getD (VALUE_SIZE * i / (8191 * VALUE_SIZE) - 0) 0 + VALUE_SIZE * i -
        8191 * VALUE_SIZE * (VALUE_SIZE * i / (8191 * VALUE_SIZE)) = slotPos vb2 i := by
      simp only [slotPos, Nat.sub_zero]
      rw [VALUE_SIZE_val]
      have hq : 128 * i / (8191 * 128) = i / 8191 := by omega
      rw [hq]
      omega
    rw [haddr]
    simp only [dbGet, txGet, hslots i hi]

/-- Witness: C6 at a one-slot append on the fresh engine. -/
theorem C6_witness :
    ([[1, 2, 3]] : List (List Nat)).length ≤ 2 ^ 40 ∧
    ((appendN freshDB [[1, 2, 3]]).1.length = ([[1, 2, 3]] : List (List Nat)).length ∧
     (∀ i, i < ([[1, 2, 3]] : List (List Nat)).length →
       (appendN freshDB [[1, 2, 3]]).1.getD i 0 = VALUE_SIZE * i) ∧
     (∀ i, i < ([[1, 2, 3]] : List (List Nat)).length →
       get_value (appendN freshDB [[1, 2, 3]]).2 (VALUE_SIZE * i) =
         some (([[1, 2, 3]] : List (List Nat)).getD i []))) :=
  ⟨by decide, C6_append_offsets_and_readback [[1, 2, 3]] (by decide)⟩

/-! ### C4: the specification of `move_one_value` -/

/-! ### Floor lookups under sorted insertion and removal -/

theorem floorNat_insertNat_gt (o p t : Nat) (ht : t < o) : ∀ (l : List (Nat × Nat)),
    floorNat (insertNat l o p) t = floorNat l t := by
  intro l
  induction l with
  | nil => simp only [insertNat, floorNat, if_pos ht]
  | cons kv rest ih =>
    obtain ⟨k, v⟩ := kv
    simp only [insertNat]
    by_cases h1 : o < k
    · rw [if_pos h1]
      simp only [floorNat, if_pos ht, if_pos (by omega : t < k)]
    · rw [if_neg h1]
      by_cases h2 : o = k
      · rw [if_pos h2]
        simp only [floorNat, if_pos ht, if_pos (by omega : t < k)]
      · rw [if_neg h2]
        simp only [floorNat, ih]

theorem floorNat_insertNat_self (o p : Nat) : ∀ (l : List (Nat × Nat)),
    (∀ q ∈ l, q.1 < o) → floorNat (insertNat l o p) o = some (o, p) := by
  intro l
  induction l with
  | nil =>
    intro _
    simp only [insertNat, floorNat, if_neg (by omega : ¬ o < o)]
  | cons kv rest ih =>
    intro hs
    obtain ⟨k, v⟩ := kv
    have hk : k < o := hs (k, v) (List.mem_cons_self _ _)
    simp only [insertNat, if_neg (by omega : ¬ o < k), if_neg (by omega : ¬ o = k)]
    simp only [floorNat, if_neg (by omega : ¬ o < k),
      ih (fun q hq => hs q (List.mem_cons_of_mem _ hq))]

theorem floorNat_all_gt (t : Nat) : ∀ (l : List (Nat × Nat)),
    (∀ q ∈ l, t < q.1) → floorNat l t = none := by
  intro l
  cases l with
  | nil => intro _; rfl
  | cons kv rest =>
    intro h
    obtain ⟨k, v⟩ := kv
    simp only [floorNat, if_pos (h (k, v) (List.mem_cons_self _ _))]

theorem floorNat_none_gt (t : Nat) : ∀ (l : List (Nat × Nat)),
    List.Pairwise (fun a b => a.1 < b.1) l → floorNat l t = none →
    ∀ q ∈ l, t < q.1 := by
  intro l
  cases l with
  | nil => intro _ _ q hq; exact absurd hq (List.not_mem_nil q)
  | cons kv rest =>
    intro hs hf q hq
    obtain ⟨k, v⟩ := kv
    rw [List.pairwise_cons] at hs
    simp only [floorNat] at hf
    by_cases h1 : t < k
    · rcases List.mem_cons.mp hq with h | h
      · rw [h]; exact h1
      · exact lt_trans h1 (hs.1 q h)
    · rw [if_neg h1] at hf
      cases he : floorNat rest t with
      | none => rw [he] at hf; exact absurd hf (by simp)
      | some r => rw [he] at hf; exact absurd hf (by simp)

theorem floorNat_removeNat (r t K Q : Nat) : ∀ (l : List (Nat × Nat)),
    List.Pairwise (fun a b => a.1 < b.1) l →
    floorNat l t = some (K, Q) → r ≠ K →
    floorNat (removeNat l r) t = some (K, Q) := by
  intro l
  induction l with
  | nil => intro _ hf _; exact absurd hf (by simp [floorNat])
  | cons kv rest ih =>
    intro hs hf hr
    obtain ⟨k, v⟩ := kv
    rw [List.pairwise_cons] at hs
    simp only [floorNat] at hf
    by_cases h1 : t < k
    · rw [if_pos h1] at hf; exact absurd hf (by simp)
    · rw [if_neg h1] at hf
      simp only [removeNat, List.filter]
      by_cases h2 : k = r
      · have hd : decide (k ≠ r) = false := by simp [h2]
        rw [hd]
        cases he : floorNat rest t with
        | none =>
          rw [he] at hf
          simp only [Option.some.injEq, Prod.mk.injEq] at hf
          exact absurd (h2.symm.trans hf.1) hr
        | some q =>
          rw [he] at hf
          simp only [Option.some.injEq] at hf
          rw [← removeNat]
          exact ih hs.2 (by rw [he, hf]) hr
      · have hd : decide (k ≠ r) = true := by simp [h2]
        rw [hd]
        simp only [floorNat, if_neg h1]
        cases he : floorNat rest t with
        | none =>
          rw [he] at hf
          have hnone : floorNat (removeNat rest r) t = none := by
            apply floorNat_all_gt
            intro q hq
            have hq2 : q ∈ rest := List.mem_of_mem_filter hq
            exact floorNat_none_gt t rest hs.2 he q hq2
          rw [← removeNat, hnone]
          exact hf
        | some q =>
          rw [he] at hf
          simp only [Option.some.injEq] at hf
          rw [← removeNat, ih hs.2 (by rw [he, hf]) hr]

theorem insertNat_mem (o p : Nat) : ∀ (l : List (Nat × Nat)) (q : Nat × Nat),
    q ∈ insertNat l o p → q ∈ l ∨ q = (o, p) := by
  intro l
  induction l with
  | nil =>
    intro q hq
    simp only [insertNat] at hq
    exact Or.inr (List.mem_singleton.mp hq)
  | cons kv rest ih =>
    intro q hq
    obtain ⟨k, v⟩ := kv
    simp only [insertNat] at hq
    by_cases h1 : o < k
    · rw [if_pos h1] at hq
      rcases List.mem_cons.mp hq with h | h
      · exact Or.inr h
      · exact Or.inl h
    · rw [if_neg h1] at hq
      by_cases h2 : o = k
      · rw [if_pos h2] at hq
        rcases List.mem_cons.mp hq with h | h
        · exact Or.inr h
        · exact Or.inl (List.mem_cons_of_mem _ h)
      · rw [if_neg h2] at hq
        rcases List.mem_cons.mp hq with h | h
        · exact Or.inl (by rw [h]; exact List.mem_cons_self _ _)
        · rcases ih q h with h3 | h3
          · exact Or.inl (List.mem_cons_of_mem _ h3)
          · exact Or.inr h3

theorem insertNat_pairwise (o p : Nat) : ∀ (l : List (Nat × Nat)),
    List.Pairwise (fun a b => a.1 < b.1) l →
    List.Pairwise (fun a b => a.1 < b.1) (insertNat l o p) := by
  intro l
  induction l with
  | nil => intro _; simp [insertNat]
  | cons kv rest ih =>
    intro hs
    obtain ⟨k, v⟩ := kv
    rw [List.pairwise_cons] at hs
    simp only [insertNat]
    by_cases h1 : o < k
    · rw [if_pos h1]
      rw [List.pairwise_cons]
      constructor
      · intro q hq
        rcases List.mem_cons.mp hq with h | h
        · rw [h]; exact h1
        · exact lt_trans h1 (hs.1 q h)
      · rw [List.pairwise_cons]
        exact hs
    · rw [if_neg h1]
      by_cases h2 : o = k
      · rw [if_pos h2]
        rw [List.pairwise_cons]
        refine ⟨fun q hq => ?_, hs.2⟩
        have := hs.1 q hq
        omega
      · rw [if_neg h2]
        rw [List.pairwise_cons]
        constructor
        · intro q hq
          rcases insertNat_mem o p rest q hq with h | h
          · exact hs.1 q h
          · rw [h]; simp only; omega
        · exact ih hs.2

/-! ### The delmap half of `write_value` at an arbitrary sane state -/

/-- The delmap-side half of `write_value`, started at any state whose free
list and headers are sane: the written slot at `P` survives, the
`first_logical` header is untouched, the value directory is unchanged, and
the delmap directory keeps its floor at any `lo` below the slot's offset. -/
theorem wvTail_general (cH : DB) (next ndp P H fs1 lo : Nat) (data : List Nat)
    (hP : chLookup cH.tx P = some data)
    (h8H : dbGetNum cH FREE_LIST_OFFSET = H)
    (h0H : dbGetNum cH 0 = fs1)
    (hHs : H ≠ 0 → H % SECTOR_SIZE = FIRST_SECTOR_OFFSET ∧
      FIRST_SECTOR_OFFSET + SECTOR_SIZE ≤ H ∧ (P < H ∨ H + SECTOR_SIZE ≤ P))
    (hfsal : fs1 % SECTOR_SIZE = FIRST_SECTOR_OFFSET)
    (hfslb : FIRST_SECTOR_OFFSET + SECTOR_SIZE ≤ fs1)
    (hPfs : P < fs1)
    (hP_lb : FIRST_SECTOR_OFFSET + VALUE_SIZE ≤ P)
    (hndp_lb : FIRST_SECTOR_OFFSET + FIRST_SLOT_OFFSET + DELMAP_ENTRY_SIZE ≤ ndp)
    (hnd1 : ndp - DELMAP_ENTRY_SIZE ≠ P) (hnd2 : ndp ≠ P)
    (hlon : lo < next) :
    chLookup (wvTail next ndp cH).tx P = some data ∧
    chLookup (wvTail next ndp cH).tx FIRST_VALUE_LOGICAL_OFFSET =
      chLookup cH.tx FIRST_VALUE_LOGICAL_OFFSET ∧
    (wvTail next ndp cH).values_mapping = cH.values_mapping ∧
    floorNat (wvTail next ndp cH).delmap_mapping lo =
      floorNat cH.delmap_mapping lo := by
  have hne24D : FIRST_VALUE_LOGICAL_OFFSET ≠ ndp - DELMAP_ENTRY_SIZE := by
    rw [FIRST_VALUE_LOGICAL_OFFSET, FIRST_SECTOR_OFFSET_val, FIRST_SLOT_OFFSET_val,
      DELMAP_ENTRY_SIZE_val] at *
    omega
  have hne24_48 : FIRST_VALUE_LOGICAL_OFFSET ≠ NEXT_DELMAP_PHYSICAL_OFFSET := by decide
  have hneP48 : P ≠ NEXT_DELMAP_PHYSICAL_OFFSET := by
    rw [FIRST_SECTOR_OFFSET_val, VALUE_SIZE_val, NEXT_DELMAP_PHYSICAL_OFFSET] at *
    omega
  by_cases hown : (next / VALUE_SIZE) % DELS_PER_DELMAP = 0
  · by_cases hTd : ndp % SECTOR_SIZE = FIRST_SECTOR_OFFSET
    · by_cases hH : H = 0
      · -- the delmap sector is opened by growing the file
        have hfree : dbGetNum cH FREE_LIST_OFFSET = 0 := by rw [h8H, hH]
        have hWg := allocate_grow_eq cH [leBytes 8 next, List.replicate 40 0,
          leBytes 8 PAGE_TYPE_DELMAP, List.replicate 8 0] FIRST_SLOT_OFFSET
          DELMAP_ENTRY_SIZE fs1 hfree h0H
        simp only [wvTail, if_pos hown, if_pos hTd]
        rw [hWg]
        simp only [dbSet_tx, dbSet_vm, dbSet_dm, Nat.add_sub_cancel]
        have hargsD := sectorArgsOk_delmapPrelude next
        have hD : fs1 + FIRST_SLOT_OFFSET ≠ P := by
          rw [FIRST_SLOT_OFFSET_val] at *
          omega
        refine ⟨?_, ?_, by trivial, ?_⟩
        · rw [chLookup_chSet_ne _ _ _ _ (Ne.symm hD),
            chLookup_chSet_ne _ _ _ _ hneP48,
            allocTx_lookup _ _ _ _ _ hargsD hfsal (Or.inl hPfs),
            chLookup_chSet_ne _ _ _ _ (by
              rw [FIRST_SECTOR_OFFSET_val, VALUE_SIZE_val] at hP_lb
              omega : P ≠ 0)]
          exact hP
        · rw [chLookup_chSet_ne _ _ _ _ (by
              rw [FIRST_VALUE_LOGICAL_OFFSET, FIRST_SLOT_OFFSET_val,
                FIRST_SECTOR_OFFSET_val, SECTOR_SIZE_val] at *
              omega),
            chLookup_chSet_ne _ _ _ _ hne24_48,
            allocTx_lookup _ _ _ _ _ hargsD hfsal (Or.inl (by
              rw [FIRST_VALUE_LOGICAL_OFFSET, FIRST_SECTOR_OFFSET_val, SECTOR_SIZE_val] at *
              omega)),
            chLookup_chSet_ne _ _ _ _ (by rw [FIRST_VALUE_LOGICAL_OFFSET]; omega)]
        · exact floorNat_insertNat_gt next (fs1 + FIRST_SLOT_OFFSET) lo hlon _
      · -- the delmap sector is popped from the free list
        obtain ⟨hHal, hHlb, hHP⟩ := hHs hH
        have hWp := allocate_pop_eq cH [leBytes 8 next, List.replicate 40 0,
          leBytes 8 PAGE_TYPE_DELMAP, List.replicate 8 0] FIRST_SLOT_OFFSET
          DELMAP_ENTRY_SIZE H h8H hH
        simp only [wvTail, if_pos hown, if_pos hTd]
        rw [hWp]
        simp only [dbSet_tx, dbSet_vm, dbSet_dm, Nat.add_sub_cancel]
        have hargsD := sectorArgsOk_delmapPrelude next
        have hD : H + FIRST_SLOT_OFFSET ≠ P := by
          rw [FIRST_SLOT_OFFSET_val, SECTOR_SIZE_val, FIRST_SECTOR_OFFSET_val] at *
          omega
        refine ⟨?_, ?_, by trivial, ?_⟩
        · rw [chLookup_chSet_ne _ _ _ _ (Ne.symm hD),
            chLookup_chSet_ne _ _ _ _ hneP48,
            allocTx_lookup _ _ _ _ _ hargsD hHal hHP,
            chLookup_chSet_ne _ _ _ _ (by
              rw [FREE_LIST_OFFSET_val, FIRST_SECTOR_OFFSET_val, VALUE_SIZE_val] at *
              omega)]
          exact hP
        · rw [chLookup_chSet_ne _ _ _ _ (by
              rw [FIRST_VALUE_LOGICAL_OFFSET, FIRST_SLOT_OFFSET_val,
                FIRST_SECTOR_OFFSET_val, SECTOR_SIZE_val] at *
              omega),
            chLookup_chSet_ne _ _ _ _ hne24_48,
            allocTx_lookup _ _ _ _ _ hargsD hHal (Or.inl (by
              rw [FIRST_VALUE_LOGICAL_OFFSET, FIRST_SECTOR_OFFSET_val, SECTOR_SIZE_val] at *
              omega)),
            chLookup_chSet_ne _ _ _ _ (by decide)]
        · exact floorNat_insertNat_gt next (H + FIRST_SLOT_OFFSET) lo hlon _
    · -- a fresh delmap entry within the current delmap sector
      simp only [wvTail, if_pos hown, if_neg hTd, dbSet_tx, dbSet_vm, dbSet_dm,
        Nat.add_sub_cancel]
      refine ⟨?_, ?_, by trivial, by trivial⟩
      · rw [chLookup_chSet_ne _ _ _ _ (Ne.symm hnd2),
          chLookup_chSet_ne _ _ _ _ hneP48]
        exact hP
      · rw [chLookup_chSet_ne _ _ _ _ (by
            rw [FIRST_VALUE_LOGICAL_OFFSET, FIRST_SECTOR_OFFSET_val, FIRST_SLOT_OFFSET_val,
              DELMAP_ENTRY_SIZE_val] at *
            omega),
          chLookup_chSet_ne _ _ _ _ hne24_48]
  · -- the slot shares the delmap entry of its predecessors
    simp only [wvTail, if_neg hown, dbSet_tx, dbSet_vm, dbSet_dm]
    refine ⟨?_, ?_, by trivial, by trivial⟩
    · rw [chLookup_chSet_ne _ _ _ _ (Ne.symm hnd1)]
      exact hP
    · rw [chLookup_chSet_ne _ _ _ _ hne24D]

theorem free_sector_vm (db : DB) (A : Nat) :
    (free_sector db A).values_mapping = db.values_mapping := rfl

theorem free_sector_dm (db : DB) (A : Nat) :
    (free_sector db A).delmap_mapping = db.delmap_mapping := rfl

theorem free_sector_vmpatch_tx (X : DB) (v : List (Nat × Nat)) (A : Nat) :
    (free_sector { X with values_mapping := v } A).tx = (free_sector X A).tx := rfl

/-- `write_value` at an arbitrary sane engine state: it returns the logical
cursor `next`, buffers the 128 payload bytes at a physical slot `P` that the
updated value directory maps `next` to, leaves the `first_logical` header
and the directory floors at any passed offset `lo` untouched, and `P` stays
clear of the prelude words of the value/delmap sectors a compaction step may
release afterwards. -/
theorem wv_general (c : DB) (data : List Nat)
    (lo next nvp ndp F F1 fs sl sp dl dp sl2 sp2 : Nat)
    (h16 : dbGetNum c NEXT_VALUE_LOGICAL_OFFSET = next)
    (h32 : dbGetNum c NEXT_VALUE_PHYSICAL_OFFSET = nvp)
    (h48 : dbGetNum c NEXT_DELMAP_PHYSICAL_OFFSET = ndp)
    (h8 : dbGetNum c FREE_LIST_OFFSET = F)
    (hF1r : dbGetNum c (F + 56) = F1)
    (h0 : dbGetNum c 0 = fs)
    (hvfl : floorNat c.values_mapping lo = some (sl, sp))
    (hvfl2 : floorNat c.values_mapping next = some (sl2, sp2))
    (hdfl : floorNat c.delmap_mapping lo = some (dl, dp))
    (hsort : List.Pairwise (fun a b => a.1 < b.1) c.values_mapping)
    (hphys : sp2 + next - sl2 = nvp)
    (hlon : lo < next)
    (hsl : sl ≤ lo)
    (hnvp_lb : FIRST_SECTOR_OFFSET + VALUE_SIZE ≤ nvp)
    (hndp_lb : FIRST_SECTOR_OFFSET + FIRST_SLOT_OFFSET + DELMAP_ENTRY_SIZE ≤ ndp)
    (hnvpfs : nvp ≤ fs)
    (hndpfs : ndp ≤ fs)
    (hfs_lb : FIRST_SECTOR_OFFSET + SECTOR_SIZE ≤ fs)
    (hfsal : fs % SECTOR_SIZE = FIRST_SECTOR_OFFSET)
    (hdd1 : ndp - DELMAP_ENTRY_SIZE ≠ nvp)
    (hdd2 : ndp ≠ nvp)
    (hkeys : nvp % SECTOR_SIZE = FIRST_SECTOR_OFFSET → ∀ q ∈ c.values_mapping, q.1 < next)
    (hFs : F ≠ 0 → F % SECTOR_SIZE = FIRST_SECTOR_OFFSET ∧
      FIRST_SECTOR_OFFSET + SECTOR_SIZE ≤ F ∧ F + SECTOR_SIZE ≤ fs ∧
      (nvp + VALUE_SIZE ≤ F ∨ F + SECTOR_SIZE ≤ nvp) ∧
      (ndp ≤ F ∨ F + SECTOR_SIZE ≤ ndp - DELMAP_ENTRY_SIZE))
    (hF1s : F ≠ 0 → F1 ≠ 0 → F1 % SECTOR_SIZE = FIRST_SECTOR_OFFSET ∧
      FIRST_SECTOR_OFFSET + SECTOR_SIZE ≤ F1 ∧
      (F1 + SECTOR_SIZE ≤ F ∨ F + SECTOR_SIZE ≤ F1))
    (h64f : F1 < 2 ^ 64)
    (h64g : fs + SECTOR_SIZE < 2 ^ 64)
    (hR1h : (lo + VALUE_SIZE) % (SECTOR_SIZE - VALUE_SIZE) = 0 →
      sp - VALUE_SIZE + SECTOR_SIZE ≤ nvp ∧ sp - VALUE_SIZE + SECTOR_SIZE ≤ fs ∧ sl ≠ sl2 ∧
      (F ≠ 0 → sp - VALUE_SIZE + SECTOR_SIZE ≤ F ∨ F + SECTOR_SIZE ≤ sp - VALUE_SIZE))
    (hR2h : (lo + VALUE_SIZE) % ((SECTOR_SIZE - FIRST_SLOT_OFFSET) / DELMAP_ENTRY_SIZE *
        DELS_PER_DELMAP * VALUE_SIZE) = 0 →
      (dp - FIRST_SLOT_OFFSET + SECTOR_SIZE ≤ nvp ∨ nvp + VALUE_SIZE ≤ dp - FIRST_SLOT_OFFSET) ∧
      dp - FIRST_SLOT_OFFSET + SECTOR_SIZE ≤ fs ∧
      (F ≠ 0 → dp - FIRST_SLOT_OFFSET + SECTOR_SIZE ≤ F ∨
        F + SECTOR_SIZE ≤ dp - FIRST_SLOT_OFFSET)) :
    ∃ cW P K Q,
      write_value c data = (next, cW) ∧
      chLookup cW.tx P = some data ∧
      chLookup cW.tx FIRST_VALUE_LOGICAL_OFFSET = chLookup c.tx FIRST_VALUE_LOGICAL_OFFSET ∧
      floorNat cW.values_mapping next = some (K, Q) ∧
      Q + next - K = P ∧
      floorNat cW.values_mapping lo = some (sl, sp) ∧
      floorNat cW.delmap_mapping lo = some (dl, dp) ∧
      List.Pairwise (fun a b => a.1 < b.1) cW.values_mapping ∧
      ((lo + VALUE_SIZE) % (SECTOR_SIZE - VALUE_SIZE) = 0 → sl ≠ K) ∧
      FIRST_SECTOR_OFFSET + VALUE_SIZE ≤ P ∧
      ((lo + VALUE_SIZE) % (SECTOR_SIZE - VALUE_SIZE) = 0 →
        sp - VALUE_SIZE + 48 ≠ P ∧ sp - VALUE_SIZE + 56 ≠ P) ∧
      ((lo + VALUE_SIZE) % ((SECTOR_SIZE - FIRST_SLOT_OFFSET) / DELMAP_ENTRY_SIZE *
          DELS_PER_DELMAP * VALUE_SIZE) = 0 →
        dp - FIRST_SLOT_OFFSET + 48 ≠ P ∧ dp - FIRST_SLOT_OFFSET + 56 ≠ P) := by
  rcases hE0 : wvHead c data with ⟨co, nd, cH⟩
  have hE := hE0
  simp only [wvHead, h16, h32, h48] at hE
  by_cases hTv : nvp % SECTOR_SIZE = FIRST_SECTOR_OFFSET
  · -- a fresh value sector is opened
    simp only [if_pos hTv] at hE
    have h8c : dbGetNum (dbSet c NEXT_VALUE_LOGICAL_OFFSET
        (leBytes 8 (next + VALUE_SIZE))) FREE_LIST_OFFSET = F := by
      rw [dbGetNum_dbSet_ne _ _ _ _ (by decide)]
      exact h8
    by_cases hF0 : F = 0
    · -- grow path
      have h0c : dbGetNum (dbSet c NEXT_VALUE_LOGICAL_OFFSET
          (leBytes 8 (next + VALUE_SIZE))) 0 = fs := by
        rw [dbGetNum_dbSet_ne _ _ _ _ (by decide)]
        exact h0
      rw [allocate_grow_eq _ _ VALUE_SIZE VALUE_SIZE fs (by rw [h8c, hF0]) h0c] at hE
      simp only [Prod.mk.injEq] at hE
      obtain ⟨hco, hnd, hcH⟩ := hE
      subst hco
      subst hnd
      have hfs4 : 4096 + 1048576 ≤ fs := by
        rw [FIRST_SECTOR_OFFSET_val, SECTOR_SIZE_val] at hfs_lb
        exact hfs_lb
      have hne32P : fs + VALUE_SIZE ≠ NEXT_VALUE_PHYSICAL_OFFSET := by
        rw [NEXT_VALUE_PHYSICAL_OFFSET]
        omega
      have htx : cH.tx = chSet (chSet (allocTx (chSet (chSet c.tx NEXT_VALUE_LOGICAL_OFFSET
          (leBytes 8 (next + VALUE_SIZE))) 0 (leBytes 8 (fs + SECTOR_SIZE)))
          [leBytes 8 next, List.replicate 40 0, leBytes 8 PAGE_TYPE_VALUES,
           List.replicate 8 0, List.replicate 64 0] VALUE_SIZE fs)
          (fs + VALUE_SIZE) data) NEXT_VALUE_PHYSICAL_OFFSET
          (leBytes 8 (fs + VALUE_SIZE + VALUE_SIZE)) := by
        rw [← hcH]
        rfl
      have hvm : cH.values_mapping = insertNat c.values_mapping next (fs + VALUE_SIZE) := by
        rw [← hcH]
        rfl
      have hdm : cH.delmap_mapping = c.delmap_mapping := by
        rw [← hcH]
        rfl
      have hfile : cH.file = zeroRange c.file fs SECTOR_SIZE := by
        rw [← hcH]
        rfl
      have hargsV := sectorArgsOk_valuePrelude next
      have hP : chLookup cH.tx (fs + VALUE_SIZE) = some data := by
        rw [htx, chLookup_chSet_ne _ _ _ _ hne32P, chLookup_chSet_self]
      have h24p : chLookup cH.tx FIRST_VALUE_LOGICAL_OFFSET =
          chLookup c.tx FIRST_VALUE_LOGICAL_OFFSET := by
        rw [htx, chLookup_chSet_ne _ _ _ _ (by decide),
          chLookup_chSet_ne _ _ _ _ (by rw [FIRST_VALUE_LOGICAL_OFFSET, VALUE_SIZE_val]; omega),
          allocTx_lookup _ _ _ _ _ hargsV hfsal
            (Or.inl (by rw [FIRST_VALUE_LOGICAL_OFFSET]; omega)),
          chLookup_chSet_ne _ _ _ _ (by decide), chLookup_chSet_ne _ _ _ _ (by decide)]
      have h8H : dbGetNum cH FREE_LIST_OFFSET = F := by
        rw [← h8]
        simp only [dbGetNum, txGetNum]
        apply congrArg fromLe
        apply txGet_congr
        · rw [htx, chLookup_chSet_ne _ _ _ _ (by decide),
            chLookup_chSet_ne _ _ _ _ (by rw [FREE_LIST_OFFSET_val, VALUE_SIZE_val]; omega),
            allocTx_lookup _ _ _ _ _ hargsV hfsal
              (Or.inl (by rw [FREE_LIST_OFFSET_val]; omega)),
            chLookup_chSet_ne _ _ _ _ (by decide), chLookup_chSet_ne _ _ _ _ (by decide)]
        · rw [hfile]
          exact readBytes_zeroRange_out _ _ _ _ _
            (Or.inl (by rw [FREE_LIST_OFFSET_val]; omega))
      have hl0 : chLookup cH.tx 0 = some (leBytes 8 (fs + SECTOR_SIZE)) := by
        rw [htx, chLookup_chSet_ne _ _ _ _ (by decide),
          chLookup_chSet_ne _ _ _ _ (by rw [VALUE_SIZE_val]; omega),
          allocTx_lookup _ _ _ _ _ hargsV hfsal (Or.inl (by omega)),
          chLookup_chSet_self]
      have h0H : dbGetNum cH 0 = fs + SECTOR_SIZE :=
        dbGetNum_of_chLookup _ _ _ hl0 h64g
      obtain ⟨hT1, hT2, hT3, hT4⟩ := wvTail_general cH next ndp (fs + VALUE_SIZE) F
        (fs + SECTOR_SIZE) lo data hP (by rw [h8H, hF0]) h0H
        (fun hne => absurd hF0 hne)
        (by rw [Nat.add_mod_right]; exact hfsal)
        (by omega)
        (by rw [VALUE_SIZE_val, SECTOR_SIZE_val]; omega)
        (by omega)
        hndp_lb
        (by rw [VALUE_SIZE_val]; omega)
        (by rw [VALUE_SIZE_val]; omega)
        hlon
      refine ⟨wvTail next ndp cH, fs + VALUE_SIZE, next, fs + VALUE_SIZE, ?_, hT1, ?_, ?_,
        by omega, ?_, ?_, ?_, ?_, by omega, ?_, ?_⟩
      · rw [write_value_decomp, hE0]
      · rw [hT2, h24p]
      · rw [hT3, hvm]
        exact floorNat_insertNat_self next (fs + VALUE_SIZE) _ (hkeys hTv)
      · rw [hT3, hvm, floorNat_insertNat_gt next _ lo hlon]
        exact hvfl
      · rw [hT4, hdm]
        exact hdfl
      · rw [hT3, hvm]
        exact insertNat_pairwise next (fs + VALUE_SIZE) _ hsort
      · intro _
        omega
      · intro hr1
        obtain ⟨_, b2, _, _⟩ := hR1h hr1
        rw [VALUE_SIZE_val] at b2 ⊢
        rw [SECTOR_SIZE_val] at b2
        exact ⟨by omega, by omega⟩
      · intro hr2
        obtain ⟨_, b2, _⟩ := hR2h hr2
        rw [FIRST_SLOT_OFFSET_val, SECTOR_SIZE_val] at b2
        rw [FIRST_SLOT_OFFSET_val, VALUE_SIZE_val]
        exact ⟨by omega, by omega⟩
    · -- pop path
      obtain ⟨hFal, hFlb, hFfs, hFnvp, hFndp⟩ := hFs hF0
      have hF4 : 4096 + 1048576 ≤ F := by
        rw [FIRST_SECTOR_OFFSET_val, SECTOR_SIZE_val] at hFlb
        exact hFlb
      have hF56c : dbGetNum (dbSet c NEXT_VALUE_LOGICAL_OFFSET
          (leBytes 8 (next + VALUE_SIZE))) (F + 56) = F1 := by
        rw [dbGetNum_dbSet_ne _ _ _ _ (by rw [NEXT_VALUE_LOGICAL_OFFSET]; omega)]
        exact hF1r
      rw [allocate_pop_eq _ _ VALUE_SIZE VALUE_SIZE F h8c hF0] at hE
      rw [hF56c] at hE
      simp only [Prod.mk.injEq] at hE
      obtain ⟨hco, hnd, hcH⟩ := hE
      subst hco
      subst hnd
      have hne32P : F + VALUE_SIZE ≠ NEXT_VALUE_PHYSICAL_OFFSET := by
        rw [NEXT_VALUE_PHYSICAL_OFFSET]
        omega
      have htx : cH.tx = chSet (chSet (allocTx (chSet (chSet c.tx NEXT_VALUE_LOGICAL_OFFSET
          (leBytes 8 (next + VALUE_SIZE))) FREE_LIST_OFFSET (leBytes 8 F1))
          [leBytes 8 next, List.replicate 40 0, leBytes 8 PAGE_TYPE_VALUES,
           List.replicate 8 0, List.replicate 64 0] VALUE_SIZE F)
          (F + VALUE_SIZE) data) NEXT_VALUE_PHYSICAL_OFFSET
          (leBytes 8 (F + VALUE_SIZE + VALUE_SIZE)) := by
        rw [← hcH]
        rfl
      have hvm : cH.values_mapping = insertNat c.values_mapping next (F + VALUE_SIZE) := by
        rw [← hcH]
        rfl
      have hdm : cH.delmap_mapping = c.delmap_mapping := by
        rw [← hcH]
        rfl
      have hfile : cH.file = c.file := by
        rw [← hcH]
        rfl
      have hargsV := sectorArgsOk_valuePrelude next
      have hP : chLookup cH.tx (F + VALUE_SIZE) = some data := by
        rw [htx, chLookup_chSet_ne _ _ _ _ hne32P, chLookup_chSet_self]
      have h24p : chLookup cH.tx FIRST_VALUE_LOGICAL_OFFSET =
          chLookup c.tx FIRST_VALUE_LOGICAL_OFFSET := by
        rw [htx, chLookup_chSet_ne _ _ _ _ (by decide),
          chLookup_chSet_ne _ _ _ _ (by rw [FIRST_VALUE_LOGICAL_OFFSET, VALUE_SIZE_val]; omega),
          allocTx_lookup _ _ _ _ _ hargsV hFal
            (Or.inl (by rw [FIRST_VALUE_LOGICAL_OFFSET]; omega)),
          chLookup_chSet_ne _ _ _ _ (by decide), chLookup_chSet_ne _ _ _ _ (by decide)]
      have hl8 : chLookup cH.tx FREE_LIST_OFFSET = some (leBytes 8 F1) := by
        rw [htx, chLookup_chSet_ne _ _ _ _ (by decide),
          chLookup_chSet_ne _ _ _ _ (by rw [FREE_LIST_OFFSET_val, VALUE_SIZE_val]; omega),
          allocTx_lookup _ _ _ _ _ hargsV hFal
            (Or.inl (by rw [FREE_LIST_OFFSET_val]; omega)),
          chLookup_chSet_self]
      have h8H : dbGetNum cH FREE_LIST_OFFSET = F1 :=
        dbGetNum_of_chLookup _ _ _ hl8 h64f
      have h0H : dbGetNum cH 0 = fs := by
        rw [← h0]
        apply dbGetNum_congr _ _ _ _ hfile
        rw [htx, chLookup_chSet_ne _ _ _ _ (by decide),
          chLookup_chSet_ne _ _ _ _ (by rw [VALUE_SIZE_val]; omega),
          allocTx_lookup _ _ _ _ _ hargsV hFal (Or.inl (by omega)),
          chLookup_chSet_ne _ _ _ _ (by decide), chLookup_chSet_ne _ _ _ _ (by decide)]
      obtain ⟨hT1, hT2, hT3, hT4⟩ := wvTail_general cH next ndp (F + VALUE_SIZE) F1 fs lo
        data hP h8H h0H
        (fun hne => by
          obtain ⟨a1, a2, a3⟩ := hF1s hF0 hne
          refine ⟨a1, a2, ?_⟩
          rw [VALUE_SIZE_val]
          rw [SECTOR_SIZE_val] at a3 ⊢
          omega)
        hfsal hfs_lb
        (by rw [VALUE_SIZE_val]; rw [SECTOR_SIZE_val] at hFfs; omega)
        (by omega)
        hndp_lb
        (by
          rw [VALUE_SIZE_val]
          rcases hFndp with hx | hx
          · omega
          · rw [SECTOR_SIZE_val] at hx
            omega)
        (by
          rw [VALUE_SIZE_val]
          rcases hFndp with hx | hx
          · omega
          · rw [SECTOR_SIZE_val] at hx
            rw [DELMAP_ENTRY_SIZE_val] at hx
            omega)
        hlon
      refine ⟨wvTail next ndp cH, F + VALUE_SIZE, next, F + VALUE_SIZE, ?_, hT1, ?_, ?_,
        by omega, ?_, ?_, ?_, ?_, by omega, ?_, ?_⟩
      · rw [write_value_decomp, hE0]
      · rw [hT2, h24p]
      · rw [hT3, hvm]
        exact floorNat_insertNat_self next (F + VALUE_SIZE) _ (hkeys hTv)
      · rw [hT3, hvm, floorNat_insertNat_gt next _ lo hlon]
        exact hvfl
      · rw [hT4, hdm]
        exact hdfl
      · rw [hT3, hvm]
        exact insertNat_pairwise next (F + VALUE_SIZE) _ hsort
      · intro _
        omega
      · intro hr1
        obtain ⟨_, _, _, b4⟩ := hR1h hr1
        have b5 := b4 hF0
        rw [VALUE_SIZE_val] at b5 ⊢
        rw [SECTOR_SIZE_val] at b5
        exact ⟨by omega, by omega⟩
      · intro hr2
        obtain ⟨_, _, b3⟩ := hR2h hr2
        have b5 := b3 hF0
        rw [FIRST_SLOT_OFFSET_val, SECTOR_SIZE_val] at b5
        rw [FIRST_SLOT_OFFSET_val, VALUE_SIZE_val]
        exact ⟨by omega, by omega⟩
  · -- the slot lands in the current value sector
    simp only [if_neg hTv, Prod.mk.injEq] at hE
    obtain ⟨hco, hnd, hcH⟩ := hE
    subst hco
    subst hnd
    have hne32nvp : nvp ≠ NEXT_VALUE_PHYSICAL_OFFSET := by
      rw [NEXT_VALUE_PHYSICAL_OFFSET]
      rw [FIRST_SECTOR_OFFSET_val, VALUE_SIZE_val] at hnvp_lb
      omega
    have htx : cH.tx = chSet (chSet (chSet c.tx NEXT_VALUE_LOGICAL_OFFSET
        (leBytes 8 (next + VALUE_SIZE))) nvp data) NEXT_VALUE_PHYSICAL_OFFSET
        (leBytes 8 (nvp + VALUE_SIZE)) := by
      rw [← hcH]
      rfl
    have hvm : cH.values_mapping = c.values_mapping := by
      rw [← hcH]
      rfl
    have hdm : cH.delmap_mapping = c.delmap_mapping := by
      rw [← hcH]
      rfl
    have hfile : cH.file = c.file := by
      rw [← hcH]
      rfl
    have hP : chLookup cH.tx nvp = some data := by
      rw [htx, chLookup_chSet_ne _ _ _ _ hne32nvp, chLookup_chSet_self]
    have h24p : chLookup cH.tx FIRST_VALUE_LOGICAL_OFFSET =
        chLookup c.tx FIRST_VALUE_LOGICAL_OFFSET := by
      rw [htx, chLookup_chSet_ne _ _ _ _ (by decide),
        chLookup_chSet_ne _ _ _ _ (by
          rw [FIRST_VALUE_LOGICAL_OFFSET]
          rw [FIRST_SECTOR_OFFSET_val, VALUE_SIZE_val] at hnvp_lb
          omega),
        chLookup_chSet_ne _ _ _ _ (by decide)]
    have h8H : dbGetNum cH FREE_LIST_OFFSET = F := by
      rw [← h8]
      apply dbGetNum_congr _ _ _ _ hfile
      rw [htx, chLookup_chSet_ne _ _ _ _ (by decide),
        chLookup_chSet_ne _ _ _ _ (by
          rw [FREE_LIST_OFFSET_val]
          rw [FIRST_SECTOR_OFFSET_val, VALUE_SIZE_val] at hnvp_lb
          omega),
        chLookup_chSet_ne _ _ _ _ (by decide)]
    have h0H : dbGetNum cH 0 = fs := by
      rw [← h0]
      apply dbGetNum_congr _ _ _ _ hfile
      rw [htx, chLookup_chSet_ne _ _ _ _ (by decide),
        chLookup_chSet_ne _ _ _ _ (by
          rw [FIRST_SECTOR_OFFSET_val, VALUE_SIZE_val] at hnvp_lb
          omega),
        chLookup_chSet_ne _ _ _ _ (by decide)]
    have hnvpfs2 : nvp < fs := by
      rcases Nat.lt_or_ge nvp fs with h | h
      · exact h
      · have he : nvp = fs := by omega
        exact absurd (he ▸ hfsal) hTv
    obtain ⟨hT1, hT2, hT3, hT4⟩ := wvTail_general cH next ndp nvp F fs lo data hP h8H h0H
      (fun hne => by
        obtain ⟨a1, a2, _, a4, _⟩ := hFs hne
        refine ⟨a1, a2, ?_⟩
        rw [VALUE_SIZE_val] at a4
        omega)
      hfsal hfs_lb hnvpfs2 hnvp_lb hndp_lb hdd1 hdd2 hlon
    refine ⟨wvTail next ndp cH, nvp, sl2, sp2, ?_, hT1, ?_, ?_, hphys, ?_, ?_, ?_, ?_,
      hnvp_lb, ?_, ?_⟩
    · rw [write_value_decomp, hE0]
    · rw [hT2, h24p]
    · rw [hT3, hvm]
      exact hvfl2
    · rw [hT3, hvm]
      exact hvfl
    · rw [hT4, hdm]
      exact hdfl
    · rw [hT3, hvm]
      exact hsort
    · intro hr1
      exact (hR1h hr1).2.2.1
    · intro hr1
      obtain ⟨b1, _, _, _⟩ := hR1h hr1
      rw [VALUE_SIZE_val] at b1 ⊢
      rw [SECTOR_SIZE_val] at b1
      exact ⟨by omega, by omega⟩
    · intro hr2
      obtain ⟨b1, _, _⟩ := hR2h hr2
      rw [FIRST_SLOT_OFFSET_val] at b1 ⊢
      rw [VALUE_SIZE_val, SECTOR_SIZE_val] at b1
      exact ⟨by omega, by omega⟩

/-- C4: `move_one_value` advances `first_logical` by exactly one slot, in
every branch of the step — whether or not `write_value` has to open a fresh
value or delmap sector (popping the free list or growing the file), and
whether or not the step releases the value or delmap sector it has just
finished passing.  When the delmap bit of the slot at the old
`first_logical` is live it returns `some (old, new)` and reading at `new`
afterwards yields exactly the bytes that were readable at `old` before;
when the bit is dead it returns `none` and performs no write to the value
log: the data file is untouched and the transaction changes only the
`first_logical` header, the free-list head, and the page-type/next words of
the released sectors' preludes.  The hypotheses are state-sanity
invariants: directory floors exist and are sorted, cursors sit inside the
file and match the directory geometry, and the free-list chain holds
distinct in-file sectors disjoint from the live cursors. -/
theorem C4_move_one_value_spec :
    (∀ (db : DB) (data : List Nat) (lo next nvp ndp F F1 fs sl sp dl dp sl2 sp2 : Nat),
      dbGetNum db FIRST_VALUE_LOGICAL_OFFSET = lo →
      dbGetNum db NEXT_VALUE_LOGICAL_OFFSET = next →
      dbGetNum db NEXT_VALUE_PHYSICAL_OFFSET = nvp →
      dbGetNum db NEXT_DELMAP_PHYSICAL_OFFSET = ndp →
      dbGetNum db FREE_LIST_OFFSET = F →
      dbGetNum db (F + 56) = F1 →
      dbGetNum db 0 = fs →
      data = dbGet db (sp + lo - sl) VALUE_SIZE →
      floorNat db.values_mapping lo = some (sl, sp) →
      floorNat db.values_mapping next = some (sl2, sp2) →
      floorNat db.delmap_mapping lo = some (dl, dp) →
      List.Pairwise (fun a b => a.1 < b.1) db.values_mapping →
      sp2 + next - sl2 = nvp →
      lo < next → sl ≤ lo →
      FIRST_SECTOR_OFFSET ≤ sp → FIRST_SECTOR_OFFSET ≤ dp →
      FIRST_SECTOR_OFFSET + VALUE_SIZE ≤ nvp →
      FIRST_SECTOR_OFFSET + FIRST_SLOT_OFFSET + DELMAP_ENTRY_SIZE ≤ ndp →
      nvp ≤ fs → ndp ≤ fs →
      FIRST_SECTOR_OFFSET + SECTOR_SIZE ≤ fs →
      fs % SECTOR_SIZE = FIRST_SECTOR_OFFSET →
      ndp - DELMAP_ENTRY_SIZE ≠ nvp → ndp ≠ nvp →
      (nvp % SECTOR_SIZE = FIRST_SECTOR_OFFSET → ∀ q ∈ db.values_mapping, q.1 < next) →
      (F ≠ 0 → F % SECTOR_SIZE = FIRST_SECTOR_OFFSET ∧
        FIRST_SECTOR_OFFSET + SECTOR_SIZE ≤ F ∧ F + SECTOR_SIZE ≤ fs ∧
        (nvp + VALUE_SIZE ≤ F ∨ F + SECTOR_SIZE ≤ nvp) ∧
        (ndp ≤ F ∨ F + SECTOR_SIZE ≤ ndp - DELMAP_ENTRY_SIZE)) →
      (F ≠ 0 → F1 ≠ 0 → F1 % SECTOR_SIZE = FIRST_SECTOR_OFFSET ∧
        FIRST_SECTOR_OFFSET + SECTOR_SIZE ≤ F1 ∧
        (F1 + SECTOR_SIZE ≤ F ∨ F + SECTOR_SIZE ≤ F1)) →
      lo + VALUE_SIZE < 2 ^ 64 → F1 < 2 ^ 64 → fs + SECTOR_SIZE < 2 ^ 64 →
      ((lo + VALUE_SIZE) % (SECTOR_SIZE - VALUE_SIZE) = 0 →
        sp - VALUE_SIZE + SECTOR_SIZE ≤ nvp ∧ sp - VALUE_SIZE + SECTOR_SIZE ≤ fs ∧
        sl ≠ sl2 ∧
        (F ≠ 0 → sp - VALUE_SIZE + SECTOR_SIZE ≤ F ∨ F + SECTOR_SIZE ≤ sp - VALUE_SIZE)) →
      ((lo + VALUE_SIZE) % ((SECTOR_SIZE - FIRST_SLOT_OFFSET) / DELMAP_ENTRY_SIZE *
          DELS_PER_DELMAP * VALUE_SIZE) = 0 →
        (dp - FIRST_SLOT_OFFSET + SECTOR_SIZE ≤ nvp ∨
          nvp + VALUE_SIZE ≤ dp - FIRST_SLOT_OFFSET) ∧
        dp - FIRST_SLOT_OFFSET + SECTOR_SIZE ≤ fs ∧
        (F ≠ 0 → dp - FIRST_SLOT_OFFSET + SECTOR_SIZE ≤ F ∨
          F + SECTOR_SIZE ≤ dp - FIRST_SLOT_OFFSET)) →
      ¬ Nat.land ((dbGet db
          (dp + (lo - dl) / VALUE_SIZE / DELS_PER_DELMAP * DELMAP_ENTRY_SIZE)
          DELMAP_ENTRY_SIZE).getD ((lo / VALUE_SIZE) % DELS_PER_DELMAP / 8) 0)
        (2 ^ ((lo / VALUE_SIZE) % DELS_PER_DELMAP % 8)) = 0 →
      ∃ db2, move_one_value db = some (some (lo, next), db2) ∧
        dbGetNum db2 FIRST_VALUE_LOGICAL_OFFSET = lo + VALUE_SIZE ∧
        get_value db2 next = get_value db lo) ∧
    (∀ (db : DB) (lo dl dp sl sp : Nat),
      dbGetNum db FIRST_VALUE_LOGICAL_OFFSET = lo →
      floorNat db.delmap_mapping lo = some (dl, dp) →
      floorNat db.values_mapping lo = some (sl, sp) →
      FIRST_SECTOR_OFFSET ≤ dp → FIRST_SECTOR_OFFSET ≤ sp →
      lo + VALUE_SIZE < 2 ^ 64 →
      Nat.land ((dbGet db
          (dp + (lo - dl) / VALUE_SIZE / DELS_PER_DELMAP * DELMAP_ENTRY_SIZE)
          DELMAP_ENTRY_SIZE).getD ((lo / VALUE_SIZE) % DELS_PER_DELMAP / 8) 0)
        (2 ^ ((lo / VALUE_SIZE) % DELS_PER_DELMAP % 8)) = 0 →
      ∃ db2, move_one_value db = some (none, db2) ∧
        dbGetNum db2 FIRST_VALUE_LOGICAL_OFFSET = lo + VALUE_SIZE ∧
        db2.file = db.file ∧
        ∀ o, o ≠ FIRST_VALUE_LOGICAL_OFFSET → o ≠ FREE_LIST_OFFSET →
          o ≠ sp - VALUE_SIZE + 48 → o ≠ sp - VALUE_SIZE + 56 →
          o ≠ dp - FIRST_SLOT_OFFSET + 48 → o ≠ dp - FIRST_SLOT_OFFSET + 56 →
          chLookup db2.tx o = chLookup db.tx o) := by
  constructor
  · intro db data lo next nvp ndp F F1 fs sl sp dl dp sl2 sp2 h24 h16 h32 h48 h8 hF1r h0
      hdata hvfloor hvfloor2 hdfloor hsort hphys hlon hsl hsp hdp hnvp_lb hndp_lb hnvpfs
      hndpfs hfs_lb hfsal hdd1 hdd2 hkeys hFs hF1s h64a h64f h64g hR1h hR2h hlive
    have hne24 : dp + (lo - dl) / VALUE_SIZE / DELS_PER_DELMAP * DELMAP_ENTRY_SIZE ≠
        FIRST_VALUE_LOGICAL_OFFSET := by
      rw [FIRST_VALUE_LOGICAL_OFFSET, FIRST_SECTOR_OFFSET_val] at *
      omega
    have hiv : is_value_at_offset_deleted
        (dbSet db FIRST_VALUE_LOGICAL_OFFSET (leBytes 8 (lo + VALUE_SIZE))) lo =
        some false := by
      simp only [is_value_at_offset_deleted, dbSet_dm, hdfloor]
      rw [dbGet_dbSet_ne _ _ _ _ _ hne24]
      exact congrArg some (decide_eq_false hlive)
    have hsplne : sp + lo - sl ≠ FIRST_VALUE_LOGICAL_OFFSET := by
      rw [FIRST_VALUE_LOGICAL_OFFSET, FIRST_SECTOR_OFFSET_val] at *
      omega
    have hgv1 : get_value (dbSet db FIRST_VALUE_LOGICAL_OFFSET (leBytes 8 (lo + VALUE_SIZE))) lo =
        some data := by
      simp only [get_value, dbSet_vm, hvfloor]
      rw [dbGet_dbSet_ne _ _ _ _ _ hsplne, ← hdata]
    obtain ⟨cW, P, K, Q, E1, E2, E3, E4, E5, E6, E7, E8, E9, E10, E11, E12⟩ :=
      wv_general (dbSet db FIRST_VALUE_LOGICAL_OFFSET (leBytes 8 (lo + VALUE_SIZE))) data
        lo next nvp ndp F F1 fs sl sp dl dp sl2 sp2
        (by rw [dbGetNum_dbSet_ne _ _ _ _ (by decide)]; exact h16)
        (by rw [dbGetNum_dbSet_ne _ _ _ _ (by decide)]; exact h32)
        (by rw [dbGetNum_dbSet_ne _ _ _ _ (by decide)]; exact h48)
        (by rw [dbGetNum_dbSet_ne _ _ _ _ (by decide)]; exact h8)
        (by
          rw [dbGetNum_dbSet_ne _ _ _ _ (by rw [FIRST_VALUE_LOGICAL_OFFSET]; omega)]
          exact hF1r)
        (by rw [dbGetNum_dbSet_ne _ _ _ _ (by decide)]; exact h0)
        (by rw [dbSet_vm]; exact hvfloor)
        (by rw [dbSet_vm]; exact hvfloor2)
        (by rw [dbSet_dm]; exact hdfloor)
        (by rw [dbSet_vm]; exact hsort)
        hphys hlon hsl hnvp_lb hndp_lb hnvpfs hndpfs hfs_lb hfsal hdd1 hdd2
        (fun ht => by rw [dbSet_vm]; exact hkeys ht)
        hFs hF1s h64f h64g hR1h hR2h
    have h24c : chLookup (dbSet db FIRST_VALUE_LOGICAL_OFFSET
        (leBytes 8 (lo + VALUE_SIZE))).tx FIRST_VALUE_LOGICAL_OFFSET =
        some (leBytes 8 (lo + VALUE_SIZE)) := by
      rw [dbSet_tx]
      exact chLookup_chSet_self _ _ _
    have hgoal : get_value db lo = some data := by
      simp only [get_value, hvfloor]
      rw [← hdata]
    by_cases hr1 : (lo + VALUE_SIZE) % (SECTOR_SIZE - VALUE_SIZE) = 0
    · by_cases hr2 : (lo + VALUE_SIZE) % ((SECTOR_SIZE - FIRST_SLOT_OFFSET) /
          DELMAP_ENTRY_SIZE * DELS_PER_DELMAP * VALUE_SIZE) = 0
      · -- both a value sector and a delmap sector are released
        refine ⟨free_sector { free_sector cW (sp - VALUE_SIZE) with
            values_mapping := removeNat (free_sector cW (sp - VALUE_SIZE)).values_mapping sl }
            (dp - FIRST_SLOT_OFFSET), ?_, ?_, ?_⟩
        · simp only [move_one_value]
          rw [h24]
          simp only [hiv, hgv1, Bool.false_eq_true, reduceIte]
          rw [E1]
          simp only [if_pos hr1, if_pos hr2, E6, free_sector_dm, E7]
        · apply dbGetNum_of_chLookup _ _ _ _ h64a
          rw [chLookup_free_sector]
          rw [if_neg (by
              rw [FIRST_VALUE_LOGICAL_OFFSET, FREE_LIST_OFFSET_val]
              omega),
            if_neg (by
              rw [FIRST_VALUE_LOGICAL_OFFSET, FIRST_SLOT_OFFSET_val]
              rw [FIRST_SECTOR_OFFSET_val] at hdp
              omega),
            if_neg (by
              rw [FIRST_VALUE_LOGICAL_OFFSET, FIRST_SLOT_OFFSET_val]
              rw [FIRST_SECTOR_OFFSET_val] at hdp
              omega)]
          show chLookup (free_sector cW (sp - VALUE_SIZE)).tx FIRST_VALUE_LOGICAL_OFFSET = _
          rw [chLookup_free_sector]
          rw [if_neg (by
              rw [FIRST_VALUE_LOGICAL_OFFSET, FREE_LIST_OFFSET_val]
              omega),
            if_neg (by
              rw [FIRST_VALUE_LOGICAL_OFFSET, VALUE_SIZE_val]
              rw [FIRST_SECTOR_OFFSET_val] at hsp
              omega),
            if_neg (by
              rw [FIRST_VALUE_LOGICAL_OFFSET, VALUE_SIZE_val]
              rw [FIRST_SECTOR_OFFSET_val] at hsp
              omega)]
          rw [E3, h24c]
        · have hfl : floorNat (removeNat cW.values_mapping sl) next = some (K, Q) :=
            floorNat_removeNat sl next K Q cW.values_mapping E8 E4 (E9 hr1)
          have hlk : chLookup (free_sector (free_sector cW (sp - VALUE_SIZE))
              (dp - FIRST_SLOT_OFFSET)).tx P = some data := by
            rw [chLookup_free_sector]
            rw [if_neg (by
                rw [FREE_LIST_OFFSET_val]
                rw [FIRST_SECTOR_OFFSET_val, VALUE_SIZE_val] at E10
                omega),
              if_neg (Ne.symm (E12 hr2).2), if_neg (Ne.symm (E12 hr2).1)]
            rw [chLookup_free_sector]
            rw [if_neg (by
                rw [FREE_LIST_OFFSET_val]
                rw [FIRST_SECTOR_OFFSET_val, VALUE_SIZE_val] at E10
                omega),
              if_neg (Ne.symm (E11 hr1).2), if_neg (Ne.symm (E11 hr1).1)]
            exact E2
          rw [hgoal]
          simp only [get_value, free_sector_vm, hfl, E5]
          simp only [dbGet, txGet, free_sector_vmpatch_tx, hlk]
      · -- only the value sector is released
        refine ⟨{ free_sector cW (sp - VALUE_SIZE) with
            values_mapping := removeNat (free_sector cW (sp - VALUE_SIZE)).values_mapping
              sl }, ?_, ?_, ?_⟩
        · simp only [move_one_value]
          rw [h24]
          simp only [hiv, hgv1, Bool.false_eq_true, reduceIte]
          rw [E1]
          simp only [if_pos hr1, if_neg hr2, E6]
        · apply dbGetNum_of_chLookup _ _ _ _ h64a
          show chLookup (free_sector cW (sp - VALUE_SIZE)).tx FIRST_VALUE_LOGICAL_OFFSET = _
          rw [chLookup_free_sector]
          rw [if_neg (by
              rw [FIRST_VALUE_LOGICAL_OFFSET, FREE_LIST_OFFSET_val]
              omega),
            if_neg (by
              rw [FIRST_VALUE_LOGICAL_OFFSET, VALUE_SIZE_val]
              rw [FIRST_SECTOR_OFFSET_val] at hsp
              omega),
            if_neg (by
              rw [FIRST_VALUE_LOGICAL_OFFSET, VALUE_SIZE_val]
              rw [FIRST_SECTOR_OFFSET_val] at hsp
              omega)]
          rw [E3, h24c]
        · have hfl : floorNat (removeNat cW.values_mapping sl) next = some (K, Q) :=
            floorNat_removeNat sl next K Q cW.values_mapping E8 E4 (E9 hr1)
          have hlk : chLookup (free_sector cW (sp - VALUE_SIZE)).tx P = some data := by
            rw [chLookup_free_sector]
            rw [if_neg (by
                rw [FREE_LIST_OFFSET_val]
                rw [FIRST_SECTOR_OFFSET_val, VALUE_SIZE_val] at E10
                omega),
              if_neg (Ne.symm (E11 hr1).2), if_neg (Ne.symm (E11 hr1).1)]
            exact E2
          rw [hgoal]
          simp only [get_value, free_sector_vm, hfl, E5]
          simp only [dbGet, txGet, hlk]
    · by_cases hr2 : (lo + VALUE_SIZE) % ((SECTOR_SIZE - FIRST_SLOT_OFFSET) /
          DELMAP_ENTRY_SIZE * DELS_PER_DELMAP * VALUE_SIZE) = 0
      · -- only the delmap sector is released
        refine ⟨free_sector cW (dp - FIRST_SLOT_OFFSET), ?_, ?_, ?_⟩
        · simp only [move_one_value]
          rw [h24]
          simp only [hiv, hgv1, Bool.false_eq_true, reduceIte]
          rw [E1]
          simp only [if_neg hr1, if_pos hr2, E7]
        · apply dbGetNum_of_chLookup _ _ _ _ h64a
          rw [chLookup_free_sector]
          rw [if_neg (by
              rw [FIRST_VALUE_LOGICAL_OFFSET, FREE_LIST_OFFSET_val]
              omega),
            if_neg (by
              rw [FIRST_VALUE_LOGICAL_OFFSET, FIRST_SLOT_OFFSET_val]
              rw [FIRST_SECTOR_OFFSET_val] at hdp
              omega),
            if_neg (by
              rw [FIRST_VALUE_LOGICAL_OFFSET, FIRST_SLOT_OFFSET_val]
              rw [FIRST_SECTOR_OFFSET_val] at hdp
              omega)]
          rw [E3, h24c]
        · have hlk : chLookup (free_sector cW (dp - FIRST_SLOT_OFFSET)).tx P = some data := by
            rw [chLookup_free_sector]
            rw [if_neg (by
                rw [FREE_LIST_OFFSET_val]
                rw [FIRST_SECTOR_OFFSET_val, VALUE_SIZE_val] at E10
                omega),
              if_neg (Ne.symm (E12 hr2).2), if_neg (Ne.symm (E12 hr2).1)]
            exact E2
          have hvmW : (free_sector cW (dp - FIRST_SLOT_OFFSET)).values_mapping =
              cW.values_mapping := rfl
          rw [hgoal]
          simp only [get_value, hvmW, E4, E5]
          simp only [dbGet, txGet, hlk]
      · -- no sector is released
        refine ⟨cW, ?_, ?_, ?_⟩
        · simp only [move_one_value]
          rw [h24]
          simp only [hiv, hgv1, Bool.false_eq_true, reduceIte]
          rw [E1]
          simp only [if_neg hr1, if_neg hr2]
        · apply dbGetNum_of_chLookup _ _ _ _ h64a
          rw [E3, h24c]
        · rw [hgoal]
          simp only [get_value, E4, E5]
          simp only [dbGet, txGet, E2]
  · intro db lo dl dp sl sp h24 hdfloor hvfloor hdp hsp h64a hdead
    have hne24 : dp + (lo - dl) / VALUE_SIZE / DELS_PER_DELMAP * DELMAP_ENTRY_SIZE ≠
        FIRST_VALUE_LOGICAL_OFFSET := by
      rw [FIRST_VALUE_LOGICAL_OFFSET, FIRST_SECTOR_OFFSET_val] at *
      omega
    have hiv : is_value_at_offset_deleted
        (dbSet db FIRST_VALUE_LOGICAL_OFFSET (leBytes 8 (lo + VALUE_SIZE))) lo =
        some true := by
      simp only [is_value_at_offset_deleted, dbSet_dm, hdfloor]
      rw [dbGet_dbSet_ne _ _ _ _ _ hne24]
      exact congrArg some (decide_eq_true hdead)
    have h24c : chLookup (dbSet db FIRST_VALUE_LOGICAL_OFFSET
        (leBytes 8 (lo + VALUE_SIZE))).tx FIRST_VALUE_LOGICAL_OFFSET =
        some (leBytes 8 (lo + VALUE_SIZE)) := by
      rw [dbSet_tx]
      exact chLookup_chSet_self _ _ _
    by_cases hr1 : (lo + VALUE_SIZE) % (SECTOR_SIZE - VALUE_SIZE) = 0
    · by_cases hr2 : (lo + VALUE_SIZE) % ((SECTOR_SIZE - FIRST_SLOT_OFFSET) /
          DELMAP_ENTRY_SIZE * DELS_PER_DELMAP * VALUE_SIZE) = 0
      · refine ⟨free_sector { free_sector (dbSet db FIRST_VALUE_LOGICAL_OFFSET
            (leBytes 8 (lo + VALUE_SIZE))) (sp - VALUE_SIZE) with
            values_mapping := removeNat (free_sector (dbSet db FIRST_VALUE_LOGICAL_OFFSET
              (leBytes 8 (lo + VALUE_SIZE))) (sp - VALUE_SIZE)).values_mapping sl }
            (dp - FIRST_SLOT_OFFSET), ?_, ?_, ?_, ?_⟩
        · simp only [move_one_value]
          rw [h24]
          simp only [hiv, reduceIte, if_pos hr1, if_pos hr2, dbSet_vm, hvfloor,
            free_sector_dm, dbSet_dm, hdfloor]
        · apply dbGetNum_of_chLookup _ _ _ _ h64a
          rw [chLookup_free_sector]
          rw [if_neg (by
              rw [FIRST_VALUE_LOGICAL_OFFSET, FREE_LIST_OFFSET_val]
              omega),
            if_neg (by
              rw [FIRST_VALUE_LOGICAL_OFFSET, FIRST_SLOT_OFFSET_val]
              rw [FIRST_SECTOR_OFFSET_val] at hdp
              omega),
            if_neg (by
              rw [FIRST_VALUE_LOGICAL_OFFSET, FIRST_SLOT_OFFSET_val]
              rw [FIRST_SECTOR_OFFSET_val] at hdp
              omega)]
          show chLookup (free_sector (dbSet db FIRST_VALUE_LOGICAL_OFFSET
            (leBytes 8 (lo + VALUE_SIZE))) (sp - VALUE_SIZE)).tx
            FIRST_VALUE_LOGICAL_OFFSET = _
          rw [chLookup_free_sector]
          rw [if_neg (by
              rw [FIRST_VALUE_LOGICAL_OFFSET, FREE_LIST_OFFSET_val]
              omega),
            if_neg (by
              rw [FIRST_VALUE_LOGICAL_OFFSET, VALUE_SIZE_val]
              rw [FIRST_SECTOR_OFFSET_val] at hsp
              omega),
            if_neg (by
              rw [FIRST_VALUE_LOGICAL_OFFSET, VALUE_SIZE_val]
              rw [FIRST_SECTOR_OFFSET_val] at hsp
              omega)]
          exact h24c
        · rfl
        · intro o ho24 ho8 hoa hob hoc hod
          rw [chLookup_free_sector]
          rw [if_neg (by rw [FREE_LIST_OFFSET_val] at ho8 ⊢; exact ho8),
            if_neg hod, if_neg hoc]
          show chLookup (free_sector (dbSet db FIRST_VALUE_LOGICAL_OFFSET
            (leBytes 8 (lo + VALUE_SIZE))) (sp - VALUE_SIZE)).tx o = _
          rw [chLookup_free_sector]
          rw [if_neg (by rw [FREE_LIST_OFFSET_val] at ho8 ⊢; exact ho8),
            if_neg hob, if_neg hoa]
          rw [dbSet_tx, chLookup_chSet_ne _ _ _ _ ho24]
      · refine ⟨{ free_sector (dbSet db FIRST_VALUE_LOGICAL_OFFSET
            (leBytes 8 (lo + VALUE_SIZE))) (sp - VALUE_SIZE) with
            values_mapping := removeNat (free_sector (dbSet db FIRST_VALUE_LOGICAL_OFFSET
              (leBytes 8 (lo + VALUE_SIZE))) (sp - VALUE_SIZE)).values_mapping sl },
            ?_, ?_, ?_, ?_⟩
        · simp only [move_one_value]
          rw [h24]
          simp only [hiv, reduceIte, if_pos hr1, if_neg hr2, dbSet_vm, hvfloor]
        · apply dbGetNum_of_chLookup _ _ _ _ h64a
          show chLookup (free_sector (dbSet db FIRST_VALUE_LOGICAL_OFFSET
            (leBytes 8 (lo + VALUE_SIZE))) (sp - VALUE_SIZE)).tx
            FIRST_VALUE_LOGICAL_OFFSET = _
          rw [chLookup_free_sector]
          rw [if_neg (by
              rw [FIRST_VALUE_LOGICAL_OFFSET, FREE_LIST_OFFSET_val]
              omega),
            if_neg (by
              rw [FIRST_VALUE_LOGICAL_OFFSET, VALUE_SIZE_val]
              rw [FIRST_SECTOR_OFFSET_val] at hsp
              omega),
            if_neg (by
              rw [FIRST_VALUE_LOGICAL_OFFSET, VALUE_SIZE_val]
              rw [FIRST_SECTOR_OFFSET_val] at hsp
              omega)]
          exact h24c
        · rfl
        · intro o ho24 ho8 hoa hob _ _
          show chLookup (free_sector (dbSet db FIRST_VALUE_LOGICAL_OFFSET
            (leBytes 8 (lo + VALUE_SIZE))) (sp - VALUE_SIZE)).tx o = _
          rw [chLookup_free_sector]
          rw [if_neg (by rw [FREE_LIST_OFFSET_val] at ho8 ⊢; exact ho8),
            if_neg hob, if_neg hoa]
          rw [dbSet_tx, chLookup_chSet_ne _ _ _ _ ho24]
    · by_cases hr2 : (lo + VALUE_SIZE) % ((SECTOR_SIZE - FIRST_SLOT_OFFSET) /
          DELMAP_ENTRY_SIZE * DELS_PER_DELMAP * VALUE_SIZE) = 0
      · refine ⟨free_sector (dbSet db FIRST_VALUE_LOGICAL_OFFSET
            (leBytes 8 (lo + VALUE_SIZE))) (dp - FIRST_SLOT_OFFSET), ?_, ?_, ?_, ?_⟩
        · simp only [move_one_value]
          rw [h24]
          simp only [hiv, reduceIte, if_neg hr1, if_pos hr2, dbSet_dm, hdfloor]
        · apply dbGetNum_of_chLookup _ _ _ _ h64a
          rw [chLookup_free_sector]
          rw [if_neg (by
              rw [FIRST_VALUE_LOGICAL_OFFSET, FREE_LIST_OFFSET_val]
              omega),
            if_neg (by
              rw [FIRST_VALUE_LOGICAL_OFFSET, FIRST_SLOT_OFFSET_val]
              rw [FIRST_SECTOR_OFFSET_val] at hdp
              omega),
            if_neg (by
              rw [FIRST_VALUE_LOGICAL_OFFSET, FIRST_SLOT_OFFSET_val]
              rw [FIRST_SECTOR_OFFSET_val] at hdp
              omega)]
          exact h24c
        · rfl
        · intro o ho24 ho8 _ _ hoc hod
          rw [chLookup_free_sector]
          rw [if_neg (by rw [FREE_LIST_OFFSET_val] at ho8 ⊢; exact ho8),
            if_neg hod, if_neg hoc]
          rw [dbSet_tx, chLookup_chSet_ne _ _ _ _ ho24]
      · refine ⟨dbSet db FIRST_VALUE_LOGICAL_OFFSET (leBytes 8 (lo + VALUE_SIZE)),
            ?_, ?_, ?_, ?_⟩
        · simp only [move_one_value]
          rw [h24]
          simp only [hiv, reduceIte, if_neg hr1, if_neg hr2]
        · exact dbGetNum_dbSet_self _ _ _ h64a
        · rfl
        · intro o ho24 _ _ _ _ _
          rw [dbSet_tx, chLookup_chSet_ne _ _ _ _ ho24]


/-- Witness: C4 applied at concrete engine states — the live-slot branch at a
state whose slot 0 is marked live in the delmap, and the dead-slot branch at
a state whose slot 0 was never written. -/
theorem C4_witness :
    (∃ db2, move_one_value dbW4L = some (some (0, 128), db2) ∧
      dbGetNum db2 FIRST_VALUE_LOGICAL_OFFSET = 0 + VALUE_SIZE ∧
      get_value db2 128 = get_value dbW4L 0) ∧
    (∃ db2, move_one_value dbW4 = some (none, db2) ∧
      dbGetNum db2 FIRST_VALUE_LOGICAL_OFFSET = 0 + VALUE_SIZE ∧
      db2.file = dbW4.file ∧
      ∀ o, o ≠ FIRST_VALUE_LOGICAL_OFFSET → o ≠ FREE_LIST_OFFSET →
        o ≠ 1052800 - VALUE_SIZE + 48 → o ≠ 1052800 - VALUE_SIZE + 56 →
        o ≠ 2101312 - FIRST_SLOT_OFFSET + 48 → o ≠ 2101312 - FIRST_SLOT_OFFSET + 56 →
        chLookup db2.tx o = chLookup dbW4.tx o) :=
  ⟨C4_move_one_value_spec.1 dbW4L (dbGet dbW4L (4224 + 0 - 0) VALUE_SIZE)
      0 128 4352 4192 0 0 2101248 0 4224 0 4160 0 4224
      (by decide) (by decide) (by decide) (by decide) (by decide) (by decide) (by decide)
      rfl
      (by decide) (by decide) (by decide) (by decide) (by decide) (by decide) (by decide)
      (by decide) (by decide) (by decide) (by decide) (by decide) (by decide) (by decide)
      (by decide) (by decide) (by decide) (by decide) (by decide) (by decide) (by decide)
      (by decide) (by decide) (by decide) (by decide) (by decide),
   C4_move_one_value_spec.2 dbW4 0 0 2101312 0 1052800
      (by decide) (by decide) (by decide) (by decide) (by decide) (by decide) (by decide)⟩

end KV
